import Mathlib

/-!
# prometheus-slurm-exporter: the parsing and aggregation engine

A shallow embedding of `ParseAccountsMetrics` (accounts.go), `ParseUsersMetrics`
(users.go) and `ParseJobsMetrics` / `GetHostname` (jobs.go).

Modelling conventions.

* A Go `string` is a `List Char` (valid UTF-8 text); `len` is the byte length of
  its UTF-8 encoding.
* A `float64` is a value of `F64`: IEEE-754 binary64 with a significand of 53 bits, rounding
  to nearest with ties to even, the infinities and NaN. Every arithmetic operation of the
  source (`+=`, `++`, `-`, `/=`) is the exact operation followed by `F64.round`, and
  `strconv.ParseFloat` rounds the decimal number it reads.
* A Go `map[string]*T` is a finite function `Str → Option T`.
* The package `regexp` is modelled by a backtracking matcher with the documented
  leftmost-first semantics, for the pattern shapes the source uses: sequences of
  single-character classes, greedy `c+`, lazy `c*?`, one level of capture groups
  and an optional leading `^`.
* The subprocess `scontrol show hostname <expr>` is a parameter: a function from the node
  expression to the text the command prints, or to `none` when the command cannot be
  started or ends with an error, in which case `GetHostname` calls `log.Fatal`.
* A call that does not return ends in an `Abort`: a Go runtime panic, or the exit of the
  process by `log.Fatal`. `ParseJobsMetrics` is embedded with both; `ParseAccountsMetrics` is
  embedded as a total function, and `ParseAccountsMetricsChecked` is the same loop with the
  runtime checks made explicit.
-/

namespace SlurmExporter

/-- A float64 value: a finite value, given by the rational number it denotes, an infinity,
or NaN. The finite values of the program are results of `F64.round`. The two zeros are not
told apart: no operation of the parsers produces -0. -/
inductive F64 where
  | fin (q : ℚ)
  | posInf
  | negInf
  | nan
deriving DecidableEq

namespace F64

/-- The integer nearest to `N / D`, the even one of the two when `N / D` lies halfway. -/
def roundHalfEven (N D : ℕ) : ℕ :=
  if 2 * (N % D) < D then N / D
  else if D < 2 * (N % D) then N / D + 1
  else if (N / D) % 2 = 0 then N / D
  else N / D + 1

/-- The loop of `ilog2`; `fuel` bounds the number of halvings. -/
def ilog2Loop : ℕ → ℕ → ℕ
  | 0, _ => 0
  | fuel + 1, n => if n < 2 then 0 else ilog2Loop fuel (n / 2) + 1

/-- The integer part of the binary logarithm of a positive natural number. -/
def ilog2 (n : ℕ) : ℕ := ilog2Loop n n

/-- The integer part of the binary logarithm of `a / b`, for positive `a` and `b`. -/
def floorLog2 (a b : ℕ) : ℤ :=
  if ilog2 b ≤ ilog2 a then
    (if b * 2 ^ (ilog2 a - ilog2 b) ≤ a then ((ilog2 a - ilog2 b : ℕ) : ℤ)
     else ((ilog2 a - ilog2 b : ℕ) : ℤ) - 1)
  else
    (if b ≤ a * 2 ^ (ilog2 b - ilog2 a) then -((ilog2 b - ilog2 a : ℕ) : ℤ)
     else -((ilog2 b - ilog2 a : ℕ) : ℤ) - 1)

/-- The magnitude from which a rounded value is an infinity. -/
def overflowAt : ℕ := 2 ^ 1024

/-- The float64 nearest to the positive rational `a / b` (round to nearest, ties to even): a
significand of 53 bits, exponents from -1074 to 971, and +Inf when the rounded value
reaches 2^1024. -/
def roundPos (a b : ℕ) : F64 :=
  if 0 ≤ max (floorLog2 a b - 52) (-1074) then
    (if overflowAt ≤
        roundHalfEven a (b * 2 ^ (max (floorLog2 a b - 52) (-1074)).toNat) *
          2 ^ (max (floorLog2 a b - 52) (-1074)).toNat then posInf
     else fin ((roundHalfEven a (b * 2 ^ (max (floorLog2 a b - 52) (-1074)).toNat) *
          2 ^ (max (floorLog2 a b - 52) (-1074)).toNat : ℕ) : ℚ))
  else
    fin ((roundHalfEven (a * 2 ^ (-(max (floorLog2 a b - 52) (-1074))).toNat) b : ℕ) /
      ((2 ^ (-(max (floorLog2 a b - 52) (-1074))).toNat : ℕ) : ℚ))

/-- Negation. -/
def neg : F64 → F64
  | fin q => fin (-q)
  | posInf => negInf
  | negInf => posInf
  | nan => nan

/-- The float64 nearest to a rational number (round to nearest, ties to even): the conversion
every float64 operation ends with. -/
def round (q : ℚ) : F64 :=
  if q.num = 0 then fin 0
  else if 0 < q.num then roundPos q.num.natAbs q.den
  else neg (roundPos q.num.natAbs q.den)

/-- Float64 addition: the exact sum, rounded. Adding zero returns the other operand. -/
def add : F64 → F64 → F64
  | fin a, fin b => if b = 0 then fin a else if a = 0 then fin b else round (a + b)
  | fin _, posInf => posInf
  | fin _, negInf => negInf
  | posInf, fin _ => posInf
  | posInf, posInf => posInf
  | negInf, fin _ => negInf
  | negInf, negInf => negInf
  | _, _ => nan

/-- Float64 subtraction. -/
def sub (x y : F64) : F64 := add x (neg y)

/-- Float64 division: the exact quotient, rounded. -/
def div : F64 → F64 → F64
  | fin a, fin b =>
    if b = 0 then (if a = 0 then nan else if 0 < a then posInf else negInf) else round (a / b)
  | fin _, posInf => fin 0
  | fin _, negInf => fin 0
  | posInf, fin b => if 0 ≤ b then posInf else negInf
  | negInf, fin b => if 0 ≤ b then negInf else posInf
  | _, _ => nan

/-- The comparison `x <= y` of Go: false as soon as one side is NaN. -/
def le : F64 → F64 → Bool
  | fin a, fin b => decide (a ≤ b)
  | fin _, posInf => true
  | negInf, fin _ => true
  | negInf, negInf => true
  | negInf, posInf => true
  | posInf, posInf => true
  | _, _ => false

instance : Add F64 := ⟨add⟩
instance : Sub F64 := ⟨sub⟩
instance : Div F64 := ⟨div⟩
instance : Neg F64 := ⟨neg⟩
/-- A numeral denotes the float64 nearest to it. -/
instance (n : ℕ) : OfNat F64 n := ⟨round (n : ℚ)⟩
instance : LE F64 := ⟨fun x y => le x y = true⟩
instance (x y : F64) : Decidable (x ≤ y) := inferInstanceAs (Decidable (le x y = true))

end F64

/-- A Go string: a sequence of Unicode code points. -/
abbrev Str := List Char

/-- Byte length of a Go string, the builtin `len`. -/
def len (s : Str) : Nat := (s.map Char.utf8Size).sum

/-- Pieces of `s` between the characters satisfying `p` (there is always one piece
more than there are separators). -/
def splitWhere (p : Char → Bool) : Str → List Str
  | [] => [[]]
  | c :: cs =>
    if p c then [] :: splitWhere p cs
    else
      match splitWhere p cs with
      | [] => [[c]]
      | l :: ls => (c :: l) :: ls

/-- Go `strings.Split(s, sep)` for a one-character separator. -/
def Split (s : Str) (sep : Char) : List Str := splitWhere (fun c => c == sep) s

/-- Go `unicode.IsSpace`. -/
def unicodeIsSpace (c : Char) : Bool :=
  let n := c.toNat
  (9 ≤ n && n ≤ 13) || n == 32 || n == 0x85 || n == 0xA0 || n == 0x1680 ||
  (0x2000 ≤ n && n ≤ 0x200A) || n == 0x2028 || n == 0x2029 || n == 0x202F ||
  n == 0x205F || n == 0x3000

/-- Go `strings.Fields`: the maximal runs of non-space characters. -/
def Fields (s : Str) : List Str := (splitWhere unicodeIsSpace s).filter (fun f => !f.isEmpty)

/-- Go `strings.ToLower`.  ASCII letters are lower-cased directly; the Unicode case
table that decides every other code point is the parameter `ulower`. -/
def ToLower (ulower : Char → Char) (s : Str) : Str :=
  s.map (fun c => if c.toNat < 128 then c.toLower else ulower c)

/-- Go `strings.Contains(s, substr)` for a one-character `substr`. -/
def Contains (s : Str) (c : Char) : Bool := s.contains c

/-- Decimal value of a string of ASCII digits. -/
def decimal (s : Str) : Nat := s.foldl (fun acc c => 10 * acc + (c.toNat - 48)) 0

/-- Go `strconv.ParseFloat(s, 64)` with the error discarded, as every caller does,
on the inputs it receives here: a match of `[0-9]+`, whose value is the float64 nearest
to the decimal number (+Inf when that is out of range), or a string that is no number
(the empty string of a failed match), for which the value is 0. The lemmas
`FindString_re_number_digits` and `FindStringSubmatch_groups_digits` show that no other
string reaches it. -/
def ParseFloat (s : Str) : F64 :=
  if !s.isEmpty && s.all Char.isDigit then F64.round (decimal s : ℚ) else 0

/-! ## Regular expressions -/

/-- The pieces of a pattern. -/
inductive Atom where
  /-- One character of a class. -/
  | one (p : Char → Bool)
  /-- Greedy `c+`. -/
  | plus (p : Char → Bool)
  /-- Lazy `c*?`. -/
  | lazyStar (p : Char → Bool)

/-- Greedy `c+` followed by the continuation `k`: the longest run is tried first. The
result is the run and what `k` returned. -/
def greedyPlus (p : Char → Bool) (k : Str → Option (List Str)) : Str → Option (Str × List Str)
  | [] => none
  | c :: cs =>
    if p c then
      match greedyPlus p k cs with
      | some (run, r) => some (c :: run, r)
      | none =>
        match k cs with
        | some r => some ([c], r)
        | none => none
    else none

/-- Lazy `c*?` followed by the continuation `k`: the shortest run is tried first. -/
def lazyStar (p : Char → Bool) (k : Str → Option (List Str)) : Str → Option (Str × List Str)
  | [] =>
    match k [] with
    | some r => some ([], r)
    | none => none
  | c :: cs =>
    match k (c :: cs) with
    | some r => some ([], r)
    | none =>
      if p c then
        match lazyStar p k cs with
        | some (run, r) => some (c :: run, r)
        | none => none
      else none

/-- Match the atoms at the start of the text, as a backtracking search does. The
result lists the text each atom consumed. -/
def matchHere : List Atom → Str → Option (List Str)
  | [], _ => some []
  | Atom.one p :: rest, s =>
    match s with
    | [] => none
    | c :: cs =>
      if p c then
        match matchHere rest cs with
        | some r => some ([c] :: r)
        | none => none
      else none
  | Atom.plus p :: rest, s =>
    match greedyPlus p (matchHere rest) s with
    | some (run, r) => some (run :: r)
    | none => none
  | Atom.lazyStar p :: rest, s =>
    match lazyStar p (matchHere rest) s with
    | some (run, r) => some (run :: r)
    | none => none

/-- The leftmost match: the first position of the text where the atoms match. -/
def findFirst (atoms : List Atom) : Str → Option (List Str)
  | [] => matchHere atoms []
  | c :: cs =>
    match matchHere atoms (c :: cs) with
    | some r => some r
    | none => findFirst atoms cs

/-- A compiled pattern: `anchored` for a leading `^`, the atoms, and for each capture
group the index of its first atom and its number of atoms. -/
structure Regexp where
  anchored : Bool
  atoms : List Atom
  groups : List (Nat × Nat)

/-- The atoms of a literal string. -/
def lit (s : String) : List Atom := s.toList.map (fun c => Atom.one (fun d => d == c))

/-- Search of a pattern in a text. -/
def Regexp.exec (re : Regexp) (s : Str) : Option (List Str) :=
  if re.anchored then matchHere re.atoms s else findFirst re.atoms s

/-- The whole match and the capture groups of a successful search. -/
def Regexp.submatches (re : Regexp) (segs : List Str) : List Str :=
  segs.flatten :: re.groups.map (fun g => ((segs.drop g.1).take g.2).flatten)

/-- Go `(*Regexp).FindStringSubmatch`: nil (the empty list) when there is no match. -/
def FindStringSubmatch (re : Regexp) (s : Str) : List Str :=
  match re.exec s with
  | some segs => re.submatches segs
  | none => []

/-- Go `(*Regexp).FindString`: the empty string when there is no match. -/
def FindString (re : Regexp) (s : Str) : Str :=
  match re.exec s with
  | some segs => segs.flatten
  | none => []

/-- Go `(*Regexp).MatchString`. -/
def MatchString (re : Regexp) (s : Str) : Bool := (re.exec s).isSome

/-- The successive non-overlapping matches of an unanchored pattern whose matches are
never empty; `skip` counts the characters still covered by the previous match. -/
def findAllFrom (re : Regexp) : Nat → Str → List (List Str)
  | _, [] => []
  | skip + 1, _ :: cs => findAllFrom re skip cs
  | 0, c :: cs =>
    match matchHere re.atoms (c :: cs) with
    | some segs => re.submatches segs :: findAllFrom re (segs.flatten.length - 1) cs
    | none => findAllFrom re 0 cs

/-- Go `(*Regexp).FindAllStringSubmatch(s, -1)`. -/
def FindAllStringSubmatch (re : Regexp) (s : Str) : List (List Str) := findAllFrom re 0 s

/-- The class `\s` of the package regexp: tab, newline, form feed, carriage return, space. -/
def reSpace (c : Char) : Bool := c == '\t' || c == '\n' || c == Char.ofNat 12 || c == '\r' || c == ' '

/-- The class `[^\s]`. -/
def reNonSpace (c : Char) : Bool := !reSpace c

/-- The class `[0-9]`. -/
def reDigit (c : Char) : Bool := c.isDigit

/-- The class `[A-Z]`. -/
def reUpper (c : Char) : Bool := c.isUpper

/-- The class `\w`, that is `[0-9A-Za-z_]`. -/
def reWord (c : Char) : Bool := c.isDigit || c.isUpper || c.isLower || c == '_'

/-- The class `.`: any character but a newline. -/
def reDot (c : Char) : Bool := c != '\n'

/-! ## accounts.go and users.go: the queue parser -/

/-- The pattern "cpu=([0-9]+)". -/
def re_cpu : Regexp := ⟨false, lit "cpu=" ++ [Atom.plus reDigit], [(4, 1)]⟩

/-- The pattern "gpu=([0-9]+)". -/
def re_gpu : Regexp := ⟨false, lit "gpu=" ++ [Atom.plus reDigit], [(4, 1)]⟩

/-- The pattern "mem=([0-9]+[A-Z])". -/
def re_mem : Regexp := ⟨false, lit "mem=" ++ [Atom.plus reDigit, Atom.one reUpper], [(4, 2)]⟩

/-- The pattern "[0-9]+". -/
def re_number : Regexp := ⟨false, [Atom.plus reDigit], []⟩

/-- The pattern "^pending". -/
def pending : Regexp := ⟨true, lit "pending", []⟩

/-- The pattern "^running". -/
def running : Regexp := ⟨true, lit "running", []⟩

/-- The pattern "^suspended". -/
def suspended : Regexp := ⟨true, lit "suspended", []⟩

/-- The totals of one account (accounts.go). -/
structure JobMetrics where
  pending : F64
  running : F64
  running_cpus : F64
  running_mem : F64
  running_gpus : F64
  suspended : F64
deriving DecidableEq

/-- The totals of one user (users.go). -/
structure UserJobMetrics where
  pending : F64
  running : F64
  running_cpus : F64
  running_mem : F64
  running_gpus : F64
  suspended : F64
deriving DecidableEq

/-- Assignment `m[k] = v` of a Go map. -/
def mapSet {T : Type} (m : Str → Option T) (k : Str) (v : T) : Str → Option T :=
  fun j => if j = k then some v else m j

/-- Update in place of the value `m[k]` points to. -/
def mapModify {T : Type} (m : Str → Option T) (k : Str) (f : T → T) : Str → Option T :=
  fun j => if j = k then (m j).map f else m j

/-- The body of the loop of `ParseAccountsMetrics`: the effect of one line on the map. -/
def accountsLine (ulower : Char → Char) (accounts : Str → Option JobMetrics) (line : Str) :
    Str → Option JobMetrics :=
  let line_fields := Fields line
  if line_fields.length > 3 then
    let account := line_fields.getD 1 []
    let accounts := if (accounts account).isSome then accounts else mapSet accounts account ⟨0, 0, 0, 0, 0, 0⟩
    let state := ToLower ulower (line_fields.getD 2 [])
    let tres_string := line_fields.getD 3 []
    let cpu_string := FindString re_cpu tres_string
    let gpu_string := FindString re_gpu tres_string
    let mem_string := FindString re_mem tres_string
    let cpus := ParseFloat (FindString re_number cpu_string)
    let gpus := ParseFloat (FindString re_number gpu_string)
    let mem := ParseFloat (FindString re_number mem_string)
    let mem := if Contains mem_string 'M' then mem / 1000 else mem
    if MatchString pending state then
      mapModify accounts account (fun m => { m with pending := m.pending + 1 })
    else if MatchString running state then
      mapModify accounts account (fun m => { m with
        running := m.running + 1
        running_cpus := m.running_cpus + cpus
        running_gpus := m.running_gpus + gpus
        running_mem := m.running_mem + mem })
    else if MatchString suspended state then
      mapModify accounts account (fun m => { m with suspended := m.suspended + 1 })
    else accounts
  else accounts

/-- The function `ParseAccountsMetrics` of accounts.go. -/
def ParseAccountsMetrics (ulower : Char → Char) (input : Str) : Str → Option JobMetrics :=
  (Split input '\n').foldl (accountsLine ulower) (fun _ => none)

/-- The body of the loop of `ParseUsersMetrics`. -/
def usersLine (ulower : Char → Char) (users : Str → Option UserJobMetrics) (line : Str) :
    Str → Option UserJobMetrics :=
  let line_fields := Fields line
  if line_fields.length > 3 then
    let user := line_fields.getD 1 []
    let users := if (users user).isSome then users else mapSet users user ⟨0, 0, 0, 0, 0, 0⟩
    let state := ToLower ulower (line_fields.getD 2 [])
    let tres_string := line_fields.getD 3 []
    let cpu_string := FindString re_cpu tres_string
    let gpu_string := FindString re_gpu tres_string
    let mem_string := FindString re_mem tres_string
    let cpus := ParseFloat (FindString re_number cpu_string)
    let gpus := ParseFloat (FindString re_number gpu_string)
    let mem := ParseFloat (FindString re_number mem_string)
    let mem := if Contains mem_string 'M' then mem / 1000 else mem
    if MatchString pending state then
      mapModify users user (fun m => { m with pending := m.pending + 1 })
    else if MatchString running state then
      mapModify users user (fun m => { m with
        running := m.running + 1
        running_cpus := m.running_cpus + cpus
        running_gpus := m.running_gpus + gpus
        running_mem := m.running_mem + mem })
    else if MatchString suspended state then
      mapModify users user (fun m => { m with suspended := m.suspended + 1 })
    else users
  else users

/-- The function `ParseUsersMetrics` of users.go. -/
def ParseUsersMetrics (ulower : Char → Char) (input : Str) : Str → Option UserJobMetrics :=
  (Split input '\n').foldl (usersLine ulower) (fun _ => none)

/-! ## jobs.go: the detail parser -/

/-- The pattern "JobId=([0-9]+)". -/
def re_jobid : Regexp := ⟨false, lit "JobId=" ++ [Atom.plus reDigit], [(6, 1)]⟩

/-- The pattern "\sNodes.*?GRES.*?\s". -/
def re_node_string : Regexp :=
  ⟨false, [Atom.one reSpace] ++ lit "Nodes" ++ [Atom.lazyStar reDot] ++ lit "GRES" ++
    [Atom.lazyStar reDot, Atom.one reSpace], []⟩

/-- The pattern "\sNodes=([^\s]+)". -/
def re_node : Regexp := ⟨false, [Atom.one reSpace] ++ lit "Nodes=" ++ [Atom.plus reNonSpace], [(7, 1)]⟩

/-- The pattern "UserId=([\w]+)\(". -/
def re_user : Regexp := ⟨false, lit "UserId=" ++ [Atom.plus reWord] ++ lit "(", [(7, 1)]⟩

/-- The pattern "Account=([^\s]+)". -/
def re_account : Regexp := ⟨false, lit "Account=" ++ [Atom.plus reNonSpace], [(8, 1)]⟩

/-- The pattern "CPU_IDs=([0-9]+)-([0-9]+)". -/
def re_cpus : Regexp :=
  ⟨false, lit "CPU_IDs=" ++ [Atom.plus reDigit] ++ lit "-" ++ [Atom.plus reDigit], [(8, 1), (10, 1)]⟩

/-- The pattern "GRES=gpu:([0-9]+)". -/
def re_gpus : Regexp := ⟨false, lit "GRES=gpu:" ++ [Atom.plus reDigit], [(9, 1)]⟩

/-- The pattern "\sMem=([0-9]+)". -/
def re_mems : Regexp := ⟨false, [Atom.one reSpace] ++ lit "Mem=" ++ [Atom.plus reDigit], [(5, 1)]⟩

/-- The pattern "JobState=([^\s]+)". -/
def re_state : Regexp := ⟨false, lit "JobState=" ++ [Atom.plus reNonSpace], [(9, 1)]⟩

/-- One row of the detail parser: a job on one host. -/
structure JobsMetrics where
  jobid : Str
  user : Str
  account : Str
  state : Str
  hostname : Str
  cpus : F64
  gpus : F64
  mems : F64
deriving DecidableEq

/-- A Go runtime panic. -/
inductive Panic where
  /-- The message "index out of range [index] with length length". -/
  | indexOutOfRange (index length : Nat)
  /-- The message "invalid memory address or nil pointer dereference". -/
  | nilDereference
deriving DecidableEq

/-- The ways a call ends without returning. -/
inductive Abort where
  /-- A runtime panic, which no function of the package recovers. -/
  | panic (p : Panic)
  /-- The call `log.Fatal(err)`: the error is logged and the process exits with status 1. -/
  | fatal
deriving DecidableEq

deriving instance DecidableEq for Except

/-- The Go index expression `xs[i]`, which panics when `i` is out of range. -/
def index (xs : List Str) (i : Nat) : Except Abort Str :=
  match xs.get? i with
  | some x => Except.ok x
  | none => Except.error (Abort.panic (Panic.indexOutOfRange i xs.length))

/-- The function `GetHostname` of jobs.go. `scontrol node` is what the subprocess
`scontrol show hostname node` prints, or `none` when the pipe cannot be made, the command
cannot be started or it ends with an error: the three places where `GetHostname` calls
`log.Fatal` (jobs.go lines 42 to 51). -/
def GetHostname (scontrol : Str → Option Str) (node : Str) : Except Abort (List Str) :=
  match scontrol node with
  | some out => Except.ok (Split out '\n')
  | none => Except.error Abort.fatal

/-- The value of `f_cpus` for a fragment `frag` (the text `node_str[0]`): the float64 result of
`f_cpus_end - f_cpus_start + 1` for the first CPU-id range, 0 when there is none. The indices
1 and 2 are in range under the guard. -/
def f_cpus (frag : Str) : F64 :=
  let cpus := FindStringSubmatch re_cpus frag
  if cpus.length > 1 then ParseFloat (cpus.getD 2 []) - ParseFloat (cpus.getD 1 []) + 1 else 0

/-- The value of `f_gpus` for a fragment. -/
def f_gpus (frag : Str) : F64 :=
  let gpus := FindStringSubmatch re_gpus frag
  if gpus.length > 1 then ParseFloat (gpus.getD 1 []) else 0

/-- The value of `f_mems` for a fragment. -/
def f_mems (frag : Str) : F64 :=
  let mems := FindStringSubmatch re_mems frag
  if mems.length > 1 then ParseFloat (mems.getD 1 []) else 0

/-- The body of the inner loop of `ParseJobsMetrics`: the rows appended for one match
`node_str` of `re_node_string`, or the exit of `GetHostname`. -/
def nodeStringJobs (scontrol : Str → Option Str) (jobid user account state : Str)
    (node_str : List Str) : Except Abort (List JobsMetrics) :=
  let frag := node_str.getD 0 []
  let nodes := FindStringSubmatch re_node frag
  if nodes.length > 1 then
    if Contains (nodes.getD 1 []) '[' then do
      let hostnames ← GetHostname scontrol (nodes.getD 1 [])
      pure ((hostnames.filter (fun host => len host > 0)).map
        (fun host => ⟨jobid, user, account, state, host, f_cpus frag, f_gpus frag, f_mems frag⟩))
    else pure [⟨jobid, user, account, state, nodes.getD 1 [], f_cpus frag, f_gpus frag, f_mems frag⟩]
  else pure []

/-- The inner loop of `ParseJobsMetrics` over the matches of `re_node_string` in one line: the
rows appended, in the order of the matches, or the first exit. -/
def nodeStringsJobs (scontrol : Str → Option Str) (jobid user account state : Str) :
    List (List Str) → Except Abort (List JobsMetrics)
  | [] => Except.ok []
  | node_str :: rest =>
    match nodeStringJobs scontrol jobid user account state node_str with
    | Except.error e => Except.error e
    | Except.ok rows =>
      match nodeStringsJobs scontrol jobid user account state rest with
      | Except.error e => Except.error e
      | Except.ok more => Except.ok (rows ++ more)

/-- The body of the outer loop of `ParseJobsMetrics`: the rows appended for one line, or the
panic of indexing the nil result of a failed required match, or the exit of `GetHostname`. -/
def lineJobs (scontrol : Str → Option Str) (line : Str) : Except Abort (List JobsMetrics) :=
  if len line > 10 then do
    let jobid ← index (FindStringSubmatch re_jobid line) 1
    let user ← index (FindStringSubmatch re_user line) 1
    let account ← index (FindStringSubmatch re_account line) 1
    let state ← index (FindStringSubmatch re_state line) 1
    let node_strings := FindAllStringSubmatch re_node_string line
    nodeStringsJobs scontrol jobid user account state node_strings
  else pure []

/-- The outer loop of `ParseJobsMetrics` over the lines, `jobs` being the rows so far. -/
def parseLines (scontrol : Str → Option Str) :
    List JobsMetrics → List Str → Except Abort (List JobsMetrics)
  | jobs, [] => Except.ok jobs
  | jobs, line :: rest =>
    match lineJobs scontrol line with
    | Except.error e => Except.error e
    | Except.ok rows => parseLines scontrol (jobs ++ rows) rest

/-- The function `ParseJobsMetrics` of jobs.go: the rows it returns, or the way it ends
without returning. -/
def ParseJobsMetrics (scontrol : Str → Option Str) (input : Str) : Except Abort (List JobsMetrics) :=
  parseLines scontrol [] (Split input '\n')

/-! ## Definitions used to state the claims -/

/-- The atoms of a literal given as a list of characters; `lit s` is `litAtoms s.toList`. -/
def litAtoms (l : List Char) : List Atom := l.map (fun c => Atom.one (fun d => d == c))

/-- No match of the pattern starts inside `pre` when `pre` is followed by `rest`: a match that
starts at `rest` is then the leftmost one of `pre ++ rest`. -/
def NoMatchBefore (re : Regexp) (pre rest : Str) : Prop :=
  ∀ i, i < pre.length → matchHere re.atoms (pre.drop i ++ rest) = none

instance (re : Regexp) (pre rest : Str) : Decidable (NoMatchBefore re pre rest) := by
  unfold NoMatchBefore; infer_instance

/-- The float64 values that are not negative: the finite ones from 0 on, and +Inf. -/
def F64.IsNonneg : F64 → Prop
  | F64.fin q => 0 ≤ q
  | F64.posInf => True
  | F64.negInf => False
  | F64.nan => False

/-- A counter after `n` executions of `x++`. -/
def F64.increments (n : ℕ) (x : F64) : F64 := (fun y => y + 1)^[n] x

/-- The float64 sum of a list of values added to `x` one after the other, from the left, as the
statement `x += v` in a loop computes it. -/
def F64.sumFrom (x : F64) (vs : List F64) : F64 := vs.foldl (fun acc v => acc + v) x

/-- The lines of a queue dump that count for the entity `e`: at least 4 whitespace-separated
fields, the second of which is `e`. -/
def entityLines (input : Str) (e : Str) : List Str :=
  (Split input '\n').filter
    (fun line => decide ((Fields line).length > 3) && decide ((Fields line).getD 1 [] = e))

/-- Whether the lower-cased third field of a line starts with `word`. -/
def stateStartsWith (ulower : Char → Char) (word : String) (line : Str) : Bool :=
  word.toList.isPrefixOf (ToLower ulower ((Fields line).getD 2 []))

/-- The CPU count decoded from a resource token, as accounts.go lines 67-74 compute `cpus`. -/
def tresCpus (tres : Str) : F64 := ParseFloat (FindString re_number (FindString re_cpu tres))

/-- The GPU count decoded from a resource token, as accounts.go lines 68-75 compute `gpus`. -/
def tresGpus (tres : Str) : F64 := ParseFloat (FindString re_number (FindString re_gpu tres))

/-- The memory decoded from a resource token, as accounts.go lines 69-79 compute `mem`: the
number of the first `mem=<digits><letter>`, divided by 1000 when that match contains an M. -/
def tresMem (tres : Str) : F64 :=
  if Contains (FindString re_mem tres) 'M' then
    ParseFloat (FindString re_number (FindString re_mem tres)) / 1000
  else ParseFloat (FindString re_number (FindString re_mem tres))

/-- The number of lines of entity `e` whose lower-cased state starts with `word`. -/
def countOf (ulower : Char → Char) (word : String) (input e : Str) : ℕ :=
  ((entityLines input e).filter (stateStartsWith ulower word)).length

/-- The values of a decoded quantity on the running lines of entity `e`, in the order of the
lines. -/
def runningValues (ulower : Char → Char) (value : Str → F64) (input e : Str) : List F64 :=
  ((entityLines input e).filter (stateStartsWith ulower "running")).map
    (fun line => value ((Fields line).getD 3 []))

/-- The float64 sum, from 0 and in the order of the lines, of a decoded quantity over the
running lines of entity `e`. -/
def runningSum (ulower : Char → Char) (value : Str → F64) (input e : Str) : F64 :=
  F64.sumFrom 0 (runningValues ulower value input e)

/-- The totals of an entity after one of its lines, from its totals `x` before the line: the
switch of accounts.go lines 83-93 as a function of the record. -/
def bump (ulower : Char → Char) (line : Str) (x : JobMetrics) : JobMetrics :=
  if stateStartsWith ulower "pending" line then { x with pending := x.pending + 1 }
  else if stateStartsWith ulower "running" line then
    { x with
      running := x.running + 1
      running_cpus := x.running_cpus + tresCpus ((Fields line).getD 3 [])
      running_gpus := x.running_gpus + tresGpus ((Fields line).getD 3 [])
      running_mem := x.running_mem + tresMem ((Fields line).getD 3 []) }
  else if stateStartsWith ulower "suspended" line then { x with suspended := x.suspended + 1 }
  else x

/-- The six totals of a user read as the record of accounts.go. -/
def UserJobMetrics.toAccount (u : UserJobMetrics) : JobMetrics :=
  ⟨u.pending, u.running, u.running_cpus, u.running_mem, u.running_gpus, u.suspended⟩

/-- The six totals of an account read as the record of users.go. -/
def JobMetrics.toUser (a : JobMetrics) : UserJobMetrics :=
  ⟨a.pending, a.running, a.running_cpus, a.running_mem, a.running_gpus, a.suspended⟩

/-- The totals of the entity `e` as counters and float64 sums over its lines. -/
def entityTotals (ulower : Char → Char) (input e : Str) : JobMetrics :=
  { pending := F64.increments (countOf ulower "pending" input e) 0
    running := F64.increments (countOf ulower "running" input e) 0
    running_cpus := runningSum ulower tresCpus input e
    running_mem := runningSum ulower tresMem input e
    running_gpus := runningSum ulower tresGpus input e
    suspended := F64.increments (countOf ulower "suspended" input e) 0 }

/-- The value the pointer `m[k]` points to; dereferencing the nil pointer of an absent key
panics. -/
def deref {T : Type} (m : Str → Option T) (k : Str) : Except Abort T :=
  match m k with
  | some v => Except.ok v
  | none => Except.error (Abort.panic Panic.nilDereference)

/-- The body of the loop of `ParseAccountsMetrics` with the checks of the Go runtime made
explicit: every index expression `line_fields[i]` and every dereference of `accounts[account]`
may panic. -/
def accountsLineChecked (ulower : Char → Char) (accounts : Str → Option JobMetrics) (line : Str) :
    Except Abort (Str → Option JobMetrics) :=
  let line_fields := Fields line
  if line_fields.length > 3 then do
    let account ← index line_fields 1
    let accounts := if (accounts account).isSome then accounts else mapSet accounts account ⟨0, 0, 0, 0, 0, 0⟩
    let state ← index line_fields 2
    let state := ToLower ulower state
    let tres_string ← index line_fields 3
    let cpu_string := FindString re_cpu tres_string
    let gpu_string := FindString re_gpu tres_string
    let mem_string := FindString re_mem tres_string
    let cpus := ParseFloat (FindString re_number cpu_string)
    let gpus := ParseFloat (FindString re_number gpu_string)
    let mem := ParseFloat (FindString re_number mem_string)
    let mem := if Contains mem_string 'M' then mem / 1000 else mem
    if MatchString pending state then do
      let m ← deref accounts account
      pure (mapSet accounts account { m with pending := m.pending + 1 })
    else if MatchString running state then do
      let m ← deref accounts account
      pure (mapSet accounts account { m with
        running := m.running + 1
        running_cpus := m.running_cpus + cpus
        running_gpus := m.running_gpus + gpus
        running_mem := m.running_mem + mem })
    else if MatchString suspended state then do
      let m ← deref accounts account
      pure (mapSet accounts account { m with suspended := m.suspended + 1 })
    else pure accounts
  else pure accounts

/-- The loop of `ParseAccountsMetrics` over the lines with the runtime checks, `accounts` being
the map so far. -/
def accountsLinesChecked (ulower : Char → Char) :
    (Str → Option JobMetrics) → List Str → Except Abort (Str → Option JobMetrics)
  | accounts, [] => Except.ok accounts
  | accounts, line :: rest =>
    match accountsLineChecked ulower accounts line with
    | Except.error e => Except.error e
    | Except.ok m => accountsLinesChecked ulower m rest

/-- The function `ParseAccountsMetrics` of accounts.go with the runtime checks: the map it
returns, or the panic that ends it. -/
def ParseAccountsMetricsChecked (ulower : Char → Char) (input : Str) :
    Except Abort (Str → Option JobMetrics) :=
  accountsLinesChecked ulower (fun _ => none) (Split input '\n')

/-- The value of the capture group of a required tag in a line. -/
def tagValue (re : Regexp) (line : Str) : Str := (FindStringSubmatch re line).getD 1 []

/-- The node expressions that `ParseJobsMetrics` hands to `GetHostname` for a line: the first
`Nodes=` value of each match of `re_node_string`, when it contains an opening bracket. -/
def expansions (line : Str) : List Str :=
  (FindAllStringSubmatch re_node_string line).filterMap (fun node_str =>
    if (FindStringSubmatch re_node (node_str.getD 0 [])).length > 1 ∧
        Contains ((FindStringSubmatch re_node (node_str.getD 0 [])).getD 1 []) '[' = true then
      some ((FindStringSubmatch re_node (node_str.getD 0 [])).getD 1 [])
    else none)

/-! ## Lemmas on float64 arithmetic -/

/-- The numeral 0 is the finite value 0. -/
theorem F64.zero_eq : (0 : F64) = F64.fin 0 := rfl

/-- The numeral 1 is the finite value 1. -/
theorem F64.one_eq : (1 : F64) = F64.fin 1 := by decide!

/-- The numeral 1000 is the finite value 1000. -/
theorem F64.thousand_eq : (1000 : F64) = F64.fin 1000 := by decide!

/-- Adding 0 changes nothing. -/
theorem F64.add_zero (x : F64) : x + 0 = x := by
  rw [F64.zero_eq]
  cases x <;> rfl

/-- The loop of `ilog2` returns the integer part of the binary logarithm when the fuel is
enough. -/
theorem F64.ilog2Loop_spec (fuel n : ℕ) (hn : 0 < n) (hf : n ≤ fuel) :
    2 ^ F64.ilog2Loop fuel n ≤ n ∧ n < 2 ^ (F64.ilog2Loop fuel n + 1) := by
  induction fuel generalizing n with
  | zero => omega
  | succ fuel ih =>
    unfold F64.ilog2Loop
    split_ifs with h2
    · constructor
      · simpa using hn
      · simpa using h2
    · obtain ⟨h1, h3⟩ := ih (n / 2) (by omega) (by omega)
      rw [pow_succ] at h3
      rw [pow_succ, pow_succ, pow_succ]
      generalize 2 ^ F64.ilog2Loop fuel (n / 2) = P at h1 h3 ⊢
      constructor <;> omega

/-- The value of `ilog2` is the integer part of the binary logarithm. -/
theorem F64.ilog2_spec (n : ℕ) (hn : 0 < n) :
    2 ^ F64.ilog2 n ≤ n ∧ n < 2 ^ (F64.ilog2 n + 1) :=
  F64.ilog2Loop_spec n n hn (le_refl n)

/-- Rounding a natural number to a multiple of 1 returns it. -/
theorem F64.roundHalfEven_one (N : ℕ) : F64.roundHalfEven N 1 = N := by
  unfold F64.roundHalfEven
  simp [Nat.mod_one]

/-- The binary logarithm of a natural number seen as a fraction. -/
theorem F64.floorLog2_one (n : ℕ) (hn : 0 < n) : F64.floorLog2 n 1 = (F64.ilog2 n : ℤ) := by
  have h1 : F64.ilog2 1 = 0 := by decide
  unfold F64.floorLog2
  rw [h1]
  simp [(F64.ilog2_spec n hn).1]

/-- A positive natural number up to 2^53 is a float64 value: rounding returns it. -/
theorem F64.roundPos_nat (n : ℕ) (h0 : 0 < n) (h : n ≤ 2 ^ 53) :
    F64.roundPos n 1 = F64.fin (n : ℚ) := by
  obtain ⟨hl, hu⟩ := F64.ilog2_spec n h0
  have hL : F64.ilog2 n ≤ 53 := by
    by_contra hc
    have h54 : 2 ^ 54 ≤ 2 ^ F64.ilog2 n := Nat.pow_le_pow_right (by norm_num) (by omega)
    have : (2 : ℕ) ^ 53 < 2 ^ 54 := by norm_num
    omega
  have hov : n < F64.overflowAt := lt_of_le_of_lt h (by decide!)
  unfold F64.roundPos
  rw [F64.floorLog2_one n h0]
  generalize F64.ilog2 n = L at hl hu hL
  have he : max ((L : ℤ) - 52) (-1074) = (L : ℤ) - 52 := by omega
  rw [he]
  by_cases hge : 52 ≤ L
  · rw [if_pos (by omega)]
    have hk : ((L : ℤ) - 52).toNat = L - 52 := by omega
    rw [hk]
    have hcase : L = 52 ∨ L = 53 := by omega
    rcases hcase with rfl | rfl
    · simp only [Nat.sub_self, pow_zero, mul_one, F64.roundHalfEven_one]
      rw [if_neg (by omega)]
    · have hn : n = 2 ^ 53 := by omega
      subst hn
      have hr : F64.roundHalfEven (2 ^ 53) (1 * 2 ^ (53 - 52)) * 2 ^ (53 - 52) = 2 ^ 53 := by decide
      rw [hr, if_neg (by omega)]
  · rw [if_neg (by omega)]
    have hk : (-((L : ℤ) - 52)).toNat = 52 - L := by omega
    rw [hk, F64.roundHalfEven_one]
    congr 1
    push_cast
    field_simp

/-- An integer of magnitude at most 2^53 is a float64 value: rounding returns it. -/
theorem F64.round_intCast (z : ℤ) (h : z.natAbs ≤ 2 ^ 53) : F64.round (z : ℚ) = F64.fin z := by
  unfold F64.round
  rw [Rat.num_intCast, Rat.den_intCast]
  by_cases hz : z = 0
  · subst hz; simp
  · rw [if_neg hz]
    have hpos : 0 < z.natAbs := Int.natAbs_pos.mpr hz
    have hr := F64.roundPos_nat z.natAbs hpos h
    by_cases hp : 0 < z
    · rw [if_pos hp, hr]
      congr 1
      rw [← Int.cast_natCast, Int.natAbs_of_nonneg (le_of_lt hp)]
    · rw [if_neg hp, hr]
      show F64.fin (-(z.natAbs : ℚ)) = _
      congr 1
      rw [← Int.cast_natCast, Int.ofNat_natAbs_of_nonpos (le_of_not_lt hp), Int.cast_neg, neg_neg]

/-- A natural number up to 2^53 is a float64 value: rounding returns it. -/
theorem F64.round_natCast (n : ℕ) (h : n ≤ 2 ^ 53) : F64.round (n : ℚ) = F64.fin n := by
  have := F64.round_intCast (n : ℤ) (by simpa using h)
  simpa using this

/-- The sum of two integers is exact when its magnitude is at most 2^53. -/
theorem F64.fin_add_fin_int (a b : ℤ) (h : (a + b).natAbs ≤ 2 ^ 53) :
    F64.fin a + F64.fin b = F64.fin ((a + b : ℤ) : ℚ) := by
  show (if (b : ℚ) = 0 then F64.fin a else if (a : ℚ) = 0 then F64.fin b else
    F64.round ((a : ℚ) + (b : ℚ))) = _
  by_cases hb : b = 0
  · subst hb; simp
  · have hb2 : ¬ (b : ℚ) = 0 := by exact_mod_cast hb
    by_cases ha : a = 0
    · subst ha; simp [hb2]
    · have ha2 : ¬ (a : ℚ) = 0 := by exact_mod_cast ha
      simp only [hb2, ha2, if_false]
      rw [← Int.cast_add]
      exact F64.round_intCast _ h

/-- The difference of two integers is exact when its magnitude is at most 2^53. -/
theorem F64.fin_sub_fin_int (a b : ℤ) (h : (a - b).natAbs ≤ 2 ^ 53) :
    F64.fin a - F64.fin b = F64.fin ((a - b : ℤ) : ℚ) := by
  show F64.add (F64.fin a) (F64.neg (F64.fin b)) = _
  have h2 := F64.fin_add_fin_int a (-b) (by rwa [← sub_eq_add_neg])
  rw [← sub_eq_add_neg] at h2
  rw [← h2]
  show _ = F64.add _ _
  simp [F64.neg]

/-- The sum of two natural numbers is exact when it is at most 2^53. -/
theorem F64.fin_add_fin_nat (a b : ℕ) (h : a + b ≤ 2 ^ 53) :
    F64.fin a + F64.fin b = F64.fin ((a + b : ℕ) : ℚ) := by
  have := F64.fin_add_fin_int (a : ℤ) (b : ℤ) (by
    rw [← Nat.cast_add, Int.natAbs_ofNat]; exact h)
  simpa using this

/-- A counter that starts at a natural number is exact as long as it stays at most 2^53. -/
theorem F64.increments_fin (n a : ℕ) (h : a + n ≤ 2 ^ 53) :
    F64.increments n (F64.fin a) = F64.fin ((a + n : ℕ) : ℚ) := by
  induction n generalizing a with
  | zero => rfl
  | succ n ih =>
    unfold F64.increments
    rw [Function.iterate_succ_apply]
    have h1 : F64.fin (a : ℚ) + 1 = F64.fin ((a + 1 : ℕ) : ℚ) := by
      rw [F64.one_eq]
      have := F64.fin_add_fin_nat a 1 (by omega)
      simpa using this
    rw [h1]
    have := ih (a + 1) (by omega)
    unfold F64.increments at this
    rw [this]
    congr 2
    omega

/-- A sum of natural numbers that starts at a natural number is exact as long as it stays at
most 2^53. -/
theorem F64.sumFrom_nat (ns : List ℕ) (a : ℕ) (h : a + ns.sum ≤ 2 ^ 53) :
    F64.sumFrom (F64.fin a) (ns.map (fun n : ℕ => F64.fin (n : ℚ))) = F64.fin ((a + ns.sum : ℕ) : ℚ) := by
  induction ns generalizing a with
  | nil => rfl
  | cons n ns ih =>
    rw [List.sum_cons] at h
    unfold F64.sumFrom
    rw [List.map_cons, List.foldl_cons, F64.fin_add_fin_nat a n (by omega)]
    have := ih (a + n) (by omega)
    unfold F64.sumFrom at this
    rw [this, List.sum_cons]
    congr 2
    omega

/-- The comparison with 0. -/
theorem F64.zero_le_iff (x : F64) : (0 : F64) ≤ x ↔ F64.IsNonneg x := by
  rw [F64.zero_eq]
  show F64.le _ _ = true ↔ _
  cases x <;> simp [F64.le, F64.IsNonneg]

/-- Rounding a positive fraction gives no negative value. -/
theorem F64.isNonneg_roundPos (a b : ℕ) : F64.IsNonneg (F64.roundPos a b) := by
  unfold F64.roundPos
  by_cases h1 : 0 ≤ max (F64.floorLog2 a b - 52) (-1074)
  · rw [if_pos h1]
    generalize F64.overflowAt = M
    by_cases h2 : M ≤ F64.roundHalfEven a (b * 2 ^ (max (F64.floorLog2 a b - 52) (-1074)).toNat) *
          2 ^ (max (F64.floorLog2 a b - 52) (-1074)).toNat
    · rw [if_pos h2]; trivial
    · rw [if_neg h2]
      show (0 : ℚ) ≤ _
      exact Nat.cast_nonneg _
  · rw [if_neg h1]
    show (0 : ℚ) ≤ _
    exact div_nonneg (Nat.cast_nonneg _) (Nat.cast_nonneg _)

/-- Rounding a number that is not negative gives no negative value. -/
theorem F64.isNonneg_round (q : ℚ) (h : 0 ≤ q) : F64.IsNonneg (F64.round q) := by
  unfold F64.round
  split_ifs with h1 h2
  · exact le_refl (0 : ℚ)
  · exact F64.isNonneg_roundPos _ _
  · exact absurd (le_antisymm (not_lt.mp h2) (Rat.num_nonneg.mpr h)) h1

/-- The sum of two values that are not negative is not negative. -/
theorem F64.isNonneg_add (x y : F64) (hx : F64.IsNonneg x) (hy : F64.IsNonneg y) :
    F64.IsNonneg (x + y) := by
  show F64.IsNonneg (F64.add x y)
  cases x with
  | fin a =>
    cases y with
    | fin b =>
      show F64.IsNonneg (if b = 0 then F64.fin a else if a = 0 then F64.fin b else
        F64.round (a + b))
      split_ifs
      · exact hx
      · exact hy
      · exact F64.isNonneg_round _ (add_nonneg hx hy)
    | posInf => trivial
    | negInf => exact hy
    | nan => exact hy
  | posInf =>
    cases y with
    | fin b => trivial
    | posInf => trivial
    | negInf => exact hy
    | nan => exact hy
  | negInf => exact absurd hx (by simp [F64.IsNonneg])
  | nan => exact absurd hx (by simp [F64.IsNonneg])

/-- A value that is not negative stays so when divided by 1000. -/
theorem F64.isNonneg_div_thousand (x : F64) (hx : F64.IsNonneg x) : F64.IsNonneg (x / 1000) := by
  rw [F64.thousand_eq]
  show F64.IsNonneg (F64.div x _)
  cases x with
  | fin a =>
    show F64.IsNonneg (if (1000 : ℚ) = 0 then (if a = 0 then F64.nan else if 0 < a then F64.posInf
      else F64.negInf) else F64.round (a / 1000))
    rw [if_neg (by norm_num)]
    exact F64.isNonneg_round _ (div_nonneg hx (by norm_num))
  | posInf =>
    show F64.IsNonneg (if (0 : ℚ) ≤ 1000 then F64.posInf else F64.negInf)
    rw [if_pos (by norm_num)]
    trivial
  | negInf => exact absurd hx (by simp [F64.IsNonneg])
  | nan => exact absurd hx (by simp [F64.IsNonneg])

/-- A counter that starts at a value that is not negative is not negative. -/
theorem F64.isNonneg_increments (n : ℕ) (x : F64) (hx : F64.IsNonneg x) :
    F64.IsNonneg (F64.increments n x) := by
  induction n generalizing x with
  | zero => exact hx
  | succ n ih =>
    unfold F64.increments
    rw [Function.iterate_succ_apply]
    exact ih _ (F64.isNonneg_add x 1 hx (by rw [F64.one_eq]; show (0 : ℚ) ≤ 1; norm_num))

/-- A sum of values that are not negative, from a value that is not negative, is not negative. -/
theorem F64.isNonneg_sumFrom (vs : List F64) (x : F64) (hx : F64.IsNonneg x)
    (hvs : ∀ v ∈ vs, F64.IsNonneg v) : F64.IsNonneg (F64.sumFrom x vs) := by
  induction vs generalizing x with
  | nil => exact hx
  | cons v vs ih =>
    unfold F64.sumFrom
    rw [List.foldl_cons]
    exact ih _ (F64.isNonneg_add x v hx (hvs v (List.mem_cons_self _ _)))
      (fun w hw => hvs w (List.mem_cons_of_mem _ hw))

/-- The quotient of a finite value by 1000 is the float64 nearest to the fraction. -/
theorem F64.fin_div_thousand (q : ℚ) : F64.fin q / 1000 = F64.round (q / 1000) := by
  rw [F64.thousand_eq]
  show (if (1000 : ℚ) = 0 then (if q = 0 then F64.nan else if 0 < q then F64.posInf
    else F64.negInf) else F64.round (q / 1000)) = _
  rw [if_neg (by norm_num)]

/-- The rounding at some known places: 1/10 and 1/3 are not float64 values; 2^53 + 1 lies halfway
and goes to the even neighbour 2^53, and 2^53 + 3 to 2^53 + 4; the largest finite value is
2^1024 - 2^971, and halfway from it to 2^1024 the result is +Inf, as it is for 10^400; the
smallest positive value is 2^-1074, half of it goes to 0 and three halves of it to 2^-1073. -/
theorem F64.round_examples :
    F64.round (1 / 10) = F64.fin (3602879701896397 / 36028797018963968) ∧
    F64.round (-1 / 3) = F64.fin (-6004799503160661 / 18014398509481984) ∧
    F64.round 9007199254740993 = F64.fin 9007199254740992 ∧
    F64.round 9007199254740995 = F64.fin 9007199254740996 ∧
    F64.round (2 ^ 1024 - 2 ^ 970 - 1) = F64.fin (2 ^ 1024 - 2 ^ 971) ∧
    F64.round (2 ^ 1024 - 2 ^ 970) = F64.posInf ∧
    F64.round (10 ^ 400) = F64.posInf ∧
    F64.round (1 / 2 ^ 1074) = F64.fin (1 / 2 ^ 1074) ∧
    F64.round (1 / 2 ^ 1075) = F64.fin 0 ∧
    F64.round (3 / 2 ^ 1075) = F64.fin (1 / 2 ^ 1073) := by
  refine ⟨by decide!, by decide!, by decide!, by decide!, by decide!, by decide!, by decide!,
    by decide!, by decide!, by decide!⟩

/-- The sums 0.1 + 0.2 + 0.3 and 0.3 + 0.2 + 0.1 of float64 values differ, and 16000 / 1000 is
exactly 16. -/
theorem F64.add_examples :
    (100 : F64) / 1000 + (200 : F64) / 1000 + (300 : F64) / 1000 =
      F64.fin (1351079888211149 / 2251799813685248) ∧
    (300 : F64) / 1000 + (200 : F64) / 1000 + (100 : F64) / 1000 =
      F64.fin (5404319552844595 / 9007199254740992) ∧
    (16000 : F64) / 1000 = 16 := by
  refine ⟨by decide!, by decide!, by decide!⟩

/-! ## Lemmas on the regular expressions -/

/-- A literal matches at the start of a text exactly when it is an initial segment of the text. -/
theorem matchHere_lit_isSome (l : List Char) (s : Str) :
    (matchHere (l.map (fun c => Atom.one (fun d => d == c))) s).isSome = l.isPrefixOf s := by
  induction l generalizing s with
  | nil => simp [matchHere]
  | cons a l ih =>
    cases s with
    | nil => simp [matchHere]
    | cons c cs =>
      simp only [List.map_cons, matchHere, List.isPrefixOf]
      by_cases h : c = a
      · subst h
        simp only [beq_self_eq_true, if_true, Bool.true_and]
        rw [← ih cs]
        cases matchHere (l.map (fun c => Atom.one (fun d => d == c))) cs <;> rfl
      · have h2 : (a == c) = false := by simpa using fun h3 => h h3.symm
        simp [h, h2]

/-- An anchored literal pattern tests for an initial segment. -/
theorem MatchString_anchored_lit (w : String) (s : Str) :
    MatchString ⟨true, lit w, []⟩ s = w.toList.isPrefixOf s := by
  simp only [MatchString, Regexp.exec, if_true, lit]
  exact matchHere_lit_isSome _ _

/-- A literal at the head of a pattern consumes itself. -/
theorem matchHere_litAtoms_append (l : List Char) (rest : List Atom) (s : Str) :
    matchHere (litAtoms l ++ rest) (l ++ s) =
      (matchHere rest s).map (fun r => l.map (fun c => [c]) ++ r) := by
  induction l with
  | nil => cases h : matchHere rest s <;> simp [litAtoms, h]
  | cons a l ih =>
    simp only [litAtoms, List.map_cons, List.cons_append, matchHere, beq_self_eq_true, if_true,
      List.append_eq]
    simp only [litAtoms] at ih
    rw [ih]
    cases matchHere rest s <;> rfl

/-- A greedy run fails on a text that does not start with a character of the class. -/
theorem greedyPlus_stop (p : Char → Bool) (k : Str → Option (List Str)) (s : Str)
    (hs : ∀ c ∈ s.head?, p c = false) : greedyPlus p k s = none := by
  cases s with
  | nil => rfl
  | cons c cs =>
    have : p c = false := hs c (by simp)
    simp [greedyPlus, this]

/-- A greedy run takes the whole block `ds` of class characters when the text after it does
not continue the block and the rest of the pattern matches there. -/
theorem greedyPlus_run (p : Char → Bool) (k : Str → Option (List Str)) (ds s : Str) (r : List Str)
    (hne : ds ≠ []) (hds : ∀ c ∈ ds, p c = true) (hs : ∀ c ∈ s.head?, p c = false)
    (hk : k s = some r) : greedyPlus p k (ds ++ s) = some (ds, r) := by
  induction ds with
  | nil => exact absurd rfl hne
  | cons d ds ih =>
    have hd : p d = true := hds d (List.mem_cons_self _ _)
    simp only [List.cons_append, greedyPlus, hd, if_true, List.append_eq]
    cases ds with
    | nil =>
      rw [List.nil_append, greedyPlus_stop p k s hs, hk]
    | cons d2 ds2 =>
      rw [ih (by simp) (fun c hc => hds c (List.mem_cons_of_mem _ hc))]

/-- A match at the very start is the leftmost match. -/
theorem findFirst_of_matchHere (atoms : List Atom) (s : Str) (r : List Str)
    (h : matchHere atoms s = some r) : findFirst atoms s = some r := by
  cases s with
  | nil => simpa [findFirst] using h
  | cons c cs => simp [findFirst, h]

/-- The search skips a stretch in which no match starts. -/
theorem findFirst_skip (re : Regexp) (pre rest : Str) (h : NoMatchBefore re pre rest) :
    findFirst re.atoms (pre ++ rest) = findFirst re.atoms rest := by
  induction pre with
  | nil => rfl
  | cons c pre ih =>
    have h0 : matchHere re.atoms (c :: pre ++ rest) = none := h 0 (by simp)
    simp only [List.cons_append, findFirst, List.append_eq]
    rw [show matchHere re.atoms (c :: (pre ++ rest)) = none from h0]
    exact ih (fun i hi => h (i + 1) (by simpa using hi))

/-- The leftmost match of an unanchored pattern is the one that starts right after `pre`. -/
theorem exec_at (re : Regexp) (ha : re.anchored = false) (pre rest : Str) (r : List Str)
    (h : NoMatchBefore re pre rest) (hm : matchHere re.atoms rest = some r) :
    re.exec (pre ++ rest) = some r := by
  unfold Regexp.exec
  rw [ha]
  simp only [Bool.false_eq_true, if_false]
  rw [findFirst_skip re pre rest h]
  exact findFirst_of_matchHere _ _ _ hm

/-- The value of a non-empty digit string. -/
theorem ParseFloat_digits (ds : Str) (hne : ds ≠ []) (hds : ∀ c ∈ ds, c.isDigit = true) :
    ParseFloat ds = F64.round (decimal ds : ℚ) := by
  unfold ParseFloat
  have h1 : ds.isEmpty = false := by cases ds <;> simp_all
  have h2 : ds.all Char.isDigit = true := by simpa [List.all_eq_true] using hds
  simp [h1, h2]

/-- An upper-case letter is no digit. -/
theorem isUpper_not_isDigit (c : Char) (h : c.isUpper = true) : c.isDigit = false := by
  simp only [Char.isUpper, Char.isDigit, Bool.and_eq_true, decide_eq_true_eq, Bool.and_eq_false_imp] at *
  intro _
  have h1 := h.1
  simp only [ge_iff_le, UInt32.le_def, BitVec.le_def, decide_eq_false_iff_not, not_le] at *
  have e1 : (UInt32.toBitVec 65).toNat = 65 := rfl
  have e2 : (UInt32.toBitVec 57).toNat = 57 := rfl
  omega

/-- The match of `re_mem` at an occurrence of `mem=<digits><letter>`. -/
theorem re_mem_matchHere (ds post : Str) (U : Char) (hne : ds ≠ [])
    (hds : ∀ c ∈ ds, c.isDigit = true) (hU : U.isUpper = true) :
    matchHere re_mem.atoms ("mem=".toList ++ ds ++ U :: post) =
      some ("mem=".toList.map (fun c => [c]) ++ [ds, [U]]) := by
  have hatoms : re_mem.atoms = litAtoms "mem=".toList ++ [Atom.plus reDigit, Atom.one reUpper] := rfl
  rw [hatoms, List.append_assoc, matchHere_litAtoms_append]
  have hk : matchHere [Atom.one reUpper] (U :: post) = some [[U]] := by
    simp [matchHere, reUpper, hU]
  have hg := greedyPlus_run reDigit (matchHere [Atom.one reUpper]) ds (U :: post) [[U]] hne hds
    (by simpa [reDigit] using isUpper_not_isDigit U hU) hk
  simp only [matchHere] at hg ⊢
  rw [hg]
  rfl

/-- The text `mem_string` of a token whose first `mem=` descriptor is `mem=<ds><U>`. -/
theorem FindString_re_mem (pre ds post : Str) (U : Char) (hne : ds ≠ [])
    (hds : ∀ c ∈ ds, c.isDigit = true) (hU : U.isUpper = true)
    (hfirst : NoMatchBefore re_mem pre ("mem=".toList ++ ds ++ U :: post)) :
    FindString re_mem (pre ++ ("mem=".toList ++ ds ++ U :: post)) = "mem=".toList ++ ds ++ [U] := by
  unfold FindString
  rw [exec_at re_mem rfl pre _ _ hfirst (re_mem_matchHere ds post U hne hds hU)]
  simp [String.toList]

/-- The number found in `mem=<ds><U>` is `ds`. -/
theorem FindString_re_number (ds : Str) (U : Char) (hne : ds ≠ [])
    (hds : ∀ c ∈ ds, c.isDigit = true) (hU : U.isUpper = true) :
    FindString re_number ("mem=".toList ++ ds ++ [U]) = ds := by
  have hm : matchHere re_number.atoms (ds ++ [U]) = some [ds] := by
    have hg := greedyPlus_run reDigit (matchHere []) ds [U] [] hne hds
      (by simpa [reDigit] using isUpper_not_isDigit U hU) rfl
    simp only [re_number, matchHere] at hg ⊢
    rw [hg]
  have hno : NoMatchBefore re_number "mem=".toList (ds ++ [U]) := by
    intro i hi
    have hi4 : i < 4 := hi
    have hstop : ∀ t : Str, (∀ c ∈ t.head?, reDigit c = false) →
        matchHere re_number.atoms t = none := by
      intro t ht
      simp only [re_number, matchHere]
      rw [greedyPlus_stop reDigit _ t ht]
    apply hstop
    interval_cases i <;> simp [String.toList, reDigit]
  unfold FindString
  rw [List.append_assoc, exec_at re_number rfl _ _ _ hno hm]
  simp

/-- The text `mem=<ds><U>` contains an M exactly when the unit letter is M. -/
theorem Contains_M (ds : Str) (U : Char) (hds : ∀ c ∈ ds, c.isDigit = true) :
    Contains ("mem=".toList ++ ds ++ [U]) 'M' = decide (U = 'M') := by
  unfold Contains
  have h1 : ¬ 'M' ∈ ds := fun h => by
    have := hds _ h
    revert this; decide
  have h2 : ¬ 'M' ∈ "mem=".toList := by decide
  by_cases hU : U = 'M'
  · simp [hU]
  · have hU2 : ¬ 'M' = U := fun h => hU h.symm
    simp [hU, hU2, h1, h2]

/-- The memory decoded from a token whose first `mem=` descriptor is `mem=<ds><U>`. -/
theorem tresMem_eq (pre ds post : Str) (U : Char) (hne : ds ≠ [])
    (hds : ∀ c ∈ ds, c.isDigit = true) (hU : U.isUpper = true)
    (hfirst : NoMatchBefore re_mem pre ("mem=".toList ++ ds ++ U :: post)) :
    tresMem (pre ++ ("mem=".toList ++ ds ++ U :: post)) =
      if U = 'M' then F64.round (decimal ds : ℚ) / 1000 else F64.round (decimal ds : ℚ) := by
  unfold tresMem
  rw [FindString_re_mem pre ds post U hne hds hU hfirst, FindString_re_number ds U hne hds hU,
    Contains_M ds U hds, ParseFloat_digits ds hne hds]
  simp

/-- The match of `re_cpus` at an occurrence of `CPU_IDs=<ds>-<de>`. -/
theorem re_cpus_matchHere (ds de post : Str) (hns : ds ≠ []) (hne : de ≠ [])
    (hds : ∀ c ∈ ds, c.isDigit = true) (hde : ∀ c ∈ de, c.isDigit = true)
    (hpost : ∀ c ∈ post.head?, c.isDigit = false) :
    matchHere re_cpus.atoms ("CPU_IDs=".toList ++ ds ++ '-' :: (de ++ post)) =
      some ("CPU_IDs=".toList.map (fun c => [c]) ++ [ds, ['-'], de]) := by
  have hatoms : re_cpus.atoms =
      litAtoms "CPU_IDs=".toList ++ (Atom.plus reDigit :: (litAtoms ['-'] ++ [Atom.plus reDigit])) := rfl
  rw [hatoms, List.append_assoc, matchHere_litAtoms_append]
  have hk2 : matchHere [Atom.plus reDigit] (de ++ post) = some [de] := by
    have hg := greedyPlus_run reDigit (matchHere []) de post [] hne hde hpost rfl
    simp only [matchHere] at hg ⊢
    rw [hg]
  have hk : matchHere (litAtoms ['-'] ++ [Atom.plus reDigit]) ('-' :: (de ++ post)) =
      some [['-'], de] := by
    have := matchHere_litAtoms_append ['-'] [Atom.plus reDigit] (de ++ post)
    rw [hk2] at this
    exact this
  have hg := greedyPlus_run reDigit (matchHere (litAtoms ['-'] ++ [Atom.plus reDigit])) ds
    ('-' :: (de ++ post)) [['-'], de] hns hds (by simp [reDigit]) hk
  rw [matchHere, hg]
  rfl

/-- The submatches of `re_cpus` in a fragment whose first CPU-id range is `ds-de`. -/
theorem FindStringSubmatch_re_cpus (pre ds de post : Str) (hns : ds ≠ []) (hne : de ≠ [])
    (hds : ∀ c ∈ ds, c.isDigit = true) (hde : ∀ c ∈ de, c.isDigit = true)
    (hpost : ∀ c ∈ post.head?, c.isDigit = false)
    (hfirst : NoMatchBefore re_cpus pre ("CPU_IDs=".toList ++ ds ++ '-' :: (de ++ post))) :
    FindStringSubmatch re_cpus (pre ++ ("CPU_IDs=".toList ++ ds ++ '-' :: (de ++ post))) =
      ["CPU_IDs=".toList ++ ds ++ '-' :: de, ds, de] := by
  unfold FindStringSubmatch
  rw [exec_at re_cpus rfl pre _ _ hfirst (re_cpus_matchHere ds de post hns hne hds hde hpost)]
  simp [Regexp.submatches, re_cpus, String.toList]

/-- The value of `f_cpus` for a fragment whose first CPU-id range is `ds-de`. -/
theorem f_cpus_eq (pre ds de post : Str) (hns : ds ≠ []) (hne : de ≠ [])
    (hds : ∀ c ∈ ds, c.isDigit = true) (hde : ∀ c ∈ de, c.isDigit = true)
    (hpost : ∀ c ∈ post.head?, c.isDigit = false)
    (hfirst : NoMatchBefore re_cpus pre ("CPU_IDs=".toList ++ ds ++ '-' :: (de ++ post))) :
    f_cpus (pre ++ ("CPU_IDs=".toList ++ ds ++ '-' :: (de ++ post))) =
      F64.round (decimal de : ℚ) - F64.round (decimal ds : ℚ) + 1 := by
  unfold f_cpus
  rw [FindStringSubmatch_re_cpus pre ds de post hns hne hds hde hpost hfirst]
  simp [ParseFloat_digits ds hns hds, ParseFloat_digits de hne hde]

/-- The match of `re_node` at an occurrence of `Nodes=<v>` after a space character. -/
theorem re_node_matchHere (v post : Str) (w : Char) (hw : reSpace w = true) (hv : v ≠ [])
    (hvs : ∀ c ∈ v, reSpace c = false) (hpost : ∀ c ∈ post.head?, reSpace c = true) :
    matchHere re_node.atoms (w :: ("Nodes=".toList ++ v ++ post)) =
      some ([w] :: ("Nodes=".toList.map (fun c => [c]) ++ [v])) := by
  have hatoms : re_node.atoms =
      Atom.one reSpace :: (litAtoms "Nodes=".toList ++ [Atom.plus reNonSpace]) := rfl
  have hg := greedyPlus_run reNonSpace (matchHere []) v post [] hv
    (by simpa [reNonSpace] using hvs) (by simpa [reNonSpace] using hpost) rfl
  have hk : matchHere [Atom.plus reNonSpace] (v ++ post) = some [v] := by
    simp only [matchHere] at hg ⊢
    rw [hg]
  rw [hatoms, matchHere]
  simp only [hw, if_true]
  rw [List.append_assoc, matchHere_litAtoms_append, hk]
  rfl

/-- The submatches of `re_node` in a fragment whose first `Nodes=` value is `v`. -/
theorem FindStringSubmatch_re_node (pre v post : Str) (w : Char) (hw : reSpace w = true)
    (hv : v ≠ []) (hvs : ∀ c ∈ v, reSpace c = false) (hpost : ∀ c ∈ post.head?, reSpace c = true)
    (hfirst : NoMatchBefore re_node pre (w :: ("Nodes=".toList ++ v ++ post))) :
    FindStringSubmatch re_node (pre ++ w :: ("Nodes=".toList ++ v ++ post)) =
      [w :: ("Nodes=".toList ++ v), v] := by
  unfold FindStringSubmatch
  rw [exec_at re_node rfl pre _ _ hfirst (re_node_matchHere v post w hw hv hvs hpost)]
  simp [Regexp.submatches, re_node, String.toList]

/-- A string has a positive byte length exactly when it is not empty. -/
theorem len_pos (host : Str) : decide (len host > 0) = !host.isEmpty := by
  cases host with
  | nil => rfl
  | cons c cs =>
    have := Char.utf8Size_pos c
    simp [len]
    omega

/-! ## The arguments of `ParseFloat` -/

/-- A greedy run that matches is a non-empty block of class characters, and the rest of the
pattern matched somewhere. -/
theorem greedyPlus_some (p : Char → Bool) (k : Str → Option (List Str)) (s run : Str)
    (r : List Str) (h : greedyPlus p k s = some (run, r)) :
    run ≠ [] ∧ (∀ c ∈ run, p c = true) ∧ ∃ t, k t = some r := by
  induction s generalizing run with
  | nil => simp [greedyPlus] at h
  | cons c cs ih =>
    unfold greedyPlus at h
    by_cases hp : p c = true
    · rw [if_pos hp] at h
      cases hg : greedyPlus p k cs with
      | some x =>
        obtain ⟨run2, r2⟩ := x
        rw [hg] at h
        simp only [Option.some.injEq, Prod.mk.injEq] at h
        obtain ⟨h1, h2⟩ := h
        subst h1 h2
        obtain ⟨_, hall, ht⟩ := ih run2 hg
        refine ⟨by simp, ?_, ht⟩
        intro d hd
        rcases List.mem_cons.mp hd with h3 | h3
        · rw [h3]; exact hp
        · exact hall d h3
      | none =>
        rw [hg] at h
        cases hk : k cs with
        | some r2 =>
          rw [hk] at h
          simp only [Option.some.injEq, Prod.mk.injEq] at h
          obtain ⟨h1, h2⟩ := h
          subst h1 h2
          refine ⟨by simp, ?_, cs, hk⟩
          intro d hd
          rw [List.mem_singleton] at hd
          rw [hd]; exact hp
        | none => rw [hk] at h; cases h
    · rw [if_neg hp] at h
      cases h

/-- The leftmost match is a match at some position. -/
theorem findFirst_some (atoms : List Atom) (s : Str) (segs : List Str)
    (h : findFirst atoms s = some segs) : ∃ t, matchHere atoms t = some segs := by
  induction s with
  | nil => exact ⟨[], by simpa [findFirst] using h⟩
  | cons c cs ih =>
    unfold findFirst at h
    cases hm : matchHere atoms (c :: cs) with
    | some r =>
      rw [hm] at h
      simp only [Option.some.injEq] at h
      subst h
      exact ⟨_, hm⟩
    | none =>
      rw [hm] at h
      exact ih h

/-- A literal at the head of a pattern that matches has consumed itself. -/
theorem matchHere_litAtoms_some (l : List Char) (rest : List Atom) (s : Str) (segs : List Str)
    (h : matchHere (litAtoms l ++ rest) s = some segs) :
    ∃ t r, matchHere rest t = some r ∧ segs = l.map (fun c => [c]) ++ r := by
  induction l generalizing s segs with
  | nil => exact ⟨s, segs, h, rfl⟩
  | cons a l ih =>
    cases s with
    | nil => simp [litAtoms, matchHere] at h
    | cons c cs =>
      simp only [litAtoms, List.map_cons, List.cons_append, matchHere, List.append_eq] at h
      split_ifs at h with hc
      cases hm : matchHere (List.map (fun c => Atom.one fun d => d == c) l ++ rest) cs with
      | none => rw [hm] at h; cases h
      | some r0 =>
        rw [hm] at h
        simp only [Option.some.injEq] at h
        subst h
        obtain ⟨t, r, hr, hsegs⟩ := ih cs r0 hm
        refine ⟨t, r, hr, ?_⟩
        have hca : c = a := by simpa using hc
        rw [hsegs, hca]
        rfl

/-- A class character at the head of a pattern that matches has consumed one character. -/
theorem matchHere_one_some (p : Char → Bool) (rest : List Atom) (s : Str) (segs : List Str)
    (h : matchHere (Atom.one p :: rest) s = some segs) :
    ∃ c t r, matchHere rest t = some r ∧ segs = [c] :: r := by
  cases s with
  | nil => simp [matchHere] at h
  | cons c cs =>
    simp only [matchHere] at h
    split_ifs at h
    cases hm : matchHere rest cs with
    | none => rw [hm] at h; cases h
    | some r0 =>
      rw [hm] at h
      simp only [Option.some.injEq] at h
      exact ⟨c, cs, r0, hm, h.symm⟩

/-- A greedy run at the head of a pattern that matches has consumed a non-empty block of class
characters. -/
theorem matchHere_plus_some (p : Char → Bool) (rest : List Atom) (s : Str) (segs : List Str)
    (h : matchHere (Atom.plus p :: rest) s = some segs) :
    ∃ run t r, run ≠ [] ∧ (∀ c ∈ run, p c = true) ∧ matchHere rest t = some r ∧
      segs = run :: r := by
  simp only [matchHere] at h
  cases hg : greedyPlus p (matchHere rest) s with
  | none => rw [hg] at h; cases h
  | some x =>
    obtain ⟨run, r⟩ := x
    rw [hg] at h
    simp only [Option.some.injEq] at h
    obtain ⟨hne, hall, t, ht⟩ := greedyPlus_some p (matchHere rest) s run r hg
    exact ⟨run, t, r, hne, hall, ht, h.symm⟩

/-- The end of a pattern matches with nothing consumed. -/
theorem matchHere_nil_some (s : Str) (segs : List Str) (h : matchHere [] s = some segs) :
    segs = [] := by
  simp only [matchHere, Option.some.injEq] at h
  exact h.symm

/-- Every string that the queue parser hands to `ParseFloat`, a result of
`re_number.FindString`, is empty or a block of digits. -/
theorem FindString_re_number_digits (s : Str) :
    FindString re_number s = [] ∨ ∀ c ∈ FindString re_number s, c.isDigit = true := by
  unfold FindString Regexp.exec
  simp only [re_number, Bool.false_eq_true, if_false]
  cases hf : findFirst [Atom.plus reDigit] s with
  | none => exact Or.inl rfl
  | some segs =>
    right
    obtain ⟨t, ht⟩ := findFirst_some _ _ _ hf
    obtain ⟨run, t2, r, _, hall, hr, hsegs⟩ := matchHere_plus_some _ _ _ _ ht
    rw [matchHere_nil_some t2 r hr] at hsegs
    subst hsegs
    simpa [reDigit] using hall

/-- Every string that the detail parser hands to `ParseFloat`, a capture group of `re_cpus`,
`re_gpus` or `re_mems` under the guard `len(...) > 1`, is a non-empty block of digits. -/
theorem FindStringSubmatch_groups_digits (frag : Str) :
    ((FindStringSubmatch re_cpus frag).length > 1 →
      ((FindStringSubmatch re_cpus frag).getD 1 [] ≠ [] ∧
        ∀ c ∈ (FindStringSubmatch re_cpus frag).getD 1 [], c.isDigit = true) ∧
      ((FindStringSubmatch re_cpus frag).getD 2 [] ≠ [] ∧
        ∀ c ∈ (FindStringSubmatch re_cpus frag).getD 2 [], c.isDigit = true)) ∧
    ((FindStringSubmatch re_gpus frag).length > 1 →
      (FindStringSubmatch re_gpus frag).getD 1 [] ≠ [] ∧
        ∀ c ∈ (FindStringSubmatch re_gpus frag).getD 1 [], c.isDigit = true) ∧
    ((FindStringSubmatch re_mems frag).length > 1 →
      (FindStringSubmatch re_mems frag).getD 1 [] ≠ [] ∧
        ∀ c ∈ (FindStringSubmatch re_mems frag).getD 1 [], c.isDigit = true) := by
  refine ⟨?_, ?_, ?_⟩
  · intro hlen
    unfold FindStringSubmatch Regexp.exec at hlen ⊢
    have hanch : re_cpus.anchored = false := rfl
    rw [hanch] at hlen ⊢
    simp only [Bool.false_eq_true, if_false] at hlen ⊢
    cases hf : findFirst re_cpus.atoms frag with
    | none => rw [hf] at hlen; simp at hlen
    | some segs =>
      obtain ⟨t, ht⟩ := findFirst_some _ _ _ hf
      have hatoms : re_cpus.atoms =
          litAtoms "CPU_IDs=".toList ++ (Atom.plus reDigit :: (litAtoms ['-'] ++ [Atom.plus reDigit])) := rfl
      rw [hatoms] at ht
      obtain ⟨t1, r1, hr1, hs1⟩ := matchHere_litAtoms_some _ _ _ _ ht
      obtain ⟨run1, t2, r2, hne1, hall1, hr2, hs2⟩ := matchHere_plus_some _ _ _ _ hr1
      obtain ⟨t3, r3, hr3, hs3⟩ := matchHere_litAtoms_some _ _ _ _ hr2
      obtain ⟨run2, t4, r4, hne2, hall2, hr4, hs4⟩ := matchHere_plus_some _ _ _ _ hr3
      rw [matchHere_nil_some t4 r4 hr4] at hs4
      subst hs4 hs3 hs2 hs1
      simp only [Regexp.submatches, re_cpus, String.toList]
      simp only [reDigit] at hall1 hall2
      refine ⟨⟨?_, ?_⟩, ⟨?_, ?_⟩⟩ <;> simpa using ‹_›
  · intro hlen
    unfold FindStringSubmatch Regexp.exec at hlen ⊢
    have hanch : re_gpus.anchored = false := rfl
    rw [hanch] at hlen ⊢
    simp only [Bool.false_eq_true, if_false] at hlen ⊢
    cases hf : findFirst re_gpus.atoms frag with
    | none => rw [hf] at hlen; simp at hlen
    | some segs =>
      obtain ⟨t, ht⟩ := findFirst_some _ _ _ hf
      have hatoms : re_gpus.atoms = litAtoms "GRES=gpu:".toList ++ [Atom.plus reDigit] := rfl
      rw [hatoms] at ht
      obtain ⟨t1, r1, hr1, hs1⟩ := matchHere_litAtoms_some _ _ _ _ ht
      obtain ⟨run1, t2, r2, hne1, hall1, hr2, hs2⟩ := matchHere_plus_some _ _ _ _ hr1
      rw [matchHere_nil_some t2 r2 hr2] at hs2
      subst hs2 hs1
      simp only [Regexp.submatches, re_gpus, String.toList]
      simp only [reDigit] at hall1
      refine ⟨?_, ?_⟩ <;> simpa using ‹_›
  · intro hlen
    unfold FindStringSubmatch Regexp.exec at hlen ⊢
    have hanch : re_mems.anchored = false := rfl
    rw [hanch] at hlen ⊢
    simp only [Bool.false_eq_true, if_false] at hlen ⊢
    cases hf : findFirst re_mems.atoms frag with
    | none => rw [hf] at hlen; simp at hlen
    | some segs =>
      obtain ⟨t, ht⟩ := findFirst_some _ _ _ hf
      have hatoms : re_mems.atoms =
          Atom.one reSpace :: (litAtoms "Mem=".toList ++ [Atom.plus reDigit]) := rfl
      rw [hatoms] at ht
      obtain ⟨c0, t0, r0, hr0, hs0⟩ := matchHere_one_some _ _ _ _ ht
      obtain ⟨t1, r1, hr1, hs1⟩ := matchHere_litAtoms_some _ _ _ _ hr0
      obtain ⟨run1, t2, r2, hne1, hall1, hr2, hs2⟩ := matchHere_plus_some _ _ _ _ hr1
      rw [matchHere_nil_some t2 r2 hr2] at hs2
      subst hs2 hs1 hs0
      simp only [Regexp.submatches, re_mems, String.toList]
      simp only [reDigit] at hall1
      refine ⟨?_, ?_⟩ <;> simpa using ‹_›

/-! ## Lemmas on the queue parser -/

/-- The effect of one line on the entry of `e`: a line of `e` with at least 4 fields replaces
the entry (zero when absent) by its `bump`, any other line leaves it alone. -/
theorem accountsLine_apply (ulower : Char → Char) (m : Str → Option JobMetrics) (line e : Str) :
    accountsLine ulower m line e =
      if decide ((Fields line).length > 3) && decide ((Fields line).getD 1 [] = e) then
        some (bump ulower line ((m e).getD ⟨0, 0, 0, 0, 0, 0⟩))
      else m e := by
  unfold accountsLine bump stateStartsWith tresCpus tresGpus tresMem
  simp only [pending, running, suspended, MatchString_anchored_lit]
  generalize (Fields line).getD 1 [] = k
  generalize ToLower ulower ((Fields line).getD 2 []) = st
  generalize (Fields line).getD 3 [] = tres
  by_cases h3 : (Fields line).length > 3
  · simp only [h3, if_true, decide_True, Bool.true_and]
    by_cases he : k = e
    · subst he
      simp only [decide_True, if_true]
      cases hm : m k <;>
        simp only [Option.isSome_none, Option.isSome_some, Bool.false_eq_true, if_false, if_true] <;>
        split_ifs <;> simp [mapModify, mapSet, hm]
    · simp only [he, decide_False, if_false, Bool.false_eq_true]
      have he2 : ¬ e = k := fun h => he h.symm
      split_ifs <;> simp [mapModify, mapSet, he2]
  · simp [h3]

/-- The entry of `e` after a list of lines: untouched when no line is one of `e`, otherwise
the successive bumps of the lines of `e`. -/
theorem foldl_accountsLine_apply (ulower : Char → Char) (lines : List Str)
    (m : Str → Option JobMetrics) (e : Str) :
    (lines.foldl (accountsLine ulower) m) e =
      match lines.filter
        (fun line => decide ((Fields line).length > 3) && decide ((Fields line).getD 1 [] = e)) with
      | [] => m e
      | l :: ls => some ((l :: ls).foldl (fun x line => bump ulower line x) ((m e).getD ⟨0, 0, 0, 0, 0, 0⟩)) := by
  induction lines generalizing m with
  | nil => rfl
  | cons line rest ih =>
    rw [List.foldl_cons, ih, List.filter_cons, accountsLine_apply]
    by_cases hq : (decide ((Fields line).length > 3) && decide ((Fields line).getD 1 [] = e)) = true
    · simp only [hq, if_true, Option.getD_some, List.foldl_cons]
      cases rest.filter
        (fun line => decide ((Fields line).length > 3) && decide ((Fields line).getD 1 [] = e)) <;> rfl
    · simp only [hq, if_false, Bool.false_eq_true]

/-- The three state words exclude each other: they differ in their first letter. -/
theorem not_two_states (ulower : Char → Char) (line : Str) :
    ¬ (stateStartsWith ulower "pending" line = true ∧ stateStartsWith ulower "running" line = true) ∧
    ¬ (stateStartsWith ulower "pending" line = true ∧ stateStartsWith ulower "suspended" line = true) ∧
    ¬ (stateStartsWith ulower "running" line = true ∧ stateStartsWith ulower "suspended" line = true) := by
  unfold stateStartsWith
  generalize ToLower ulower ((Fields line).getD 2 []) = st
  have hp : "pending".toList = 'p' :: "ending".toList := rfl
  have hr : "running".toList = 'r' :: "unning".toList := rfl
  have hs : "suspended".toList = 's' :: "uspended".toList := rfl
  rw [hp, hr, hs]
  cases st with
  | nil => simp [List.isPrefixOf]
  | cons c cs =>
    simp only [List.isPrefixOf, Bool.and_eq_true, beq_iff_eq]
    refine ⟨?_, ?_, ?_⟩ <;> rintro ⟨⟨h1, _⟩, ⟨h2, _⟩⟩ <;> rw [← h1] at h2 <;> cases h2

/-- The totals after a list of lines of one entity: each counter has been incremented once per
line of its state, and each running sum has been increased by the decoded values of the
running lines, in the order of the lines. -/
theorem foldl_bump (ulower : Char → Char) (ls : List Str) (x : JobMetrics) :
    let r := ls.foldl (fun x line => bump ulower line x) x
    r.pending = F64.increments (ls.filter (stateStartsWith ulower "pending")).length x.pending ∧
    r.running = F64.increments (ls.filter (stateStartsWith ulower "running")).length x.running ∧
    r.suspended =
      F64.increments (ls.filter (stateStartsWith ulower "suspended")).length x.suspended ∧
    r.running_cpus = F64.sumFrom x.running_cpus ((ls.filter (stateStartsWith ulower "running")).map
      (fun line => tresCpus ((Fields line).getD 3 []))) ∧
    r.running_gpus = F64.sumFrom x.running_gpus ((ls.filter (stateStartsWith ulower "running")).map
      (fun line => tresGpus ((Fields line).getD 3 []))) ∧
    r.running_mem = F64.sumFrom x.running_mem ((ls.filter (stateStartsWith ulower "running")).map
      (fun line => tresMem ((Fields line).getD 3 []))) := by
  induction ls generalizing x with
  | nil => exact ⟨rfl, rfl, rfl, rfl, rfl, rfl⟩
  | cons line rest ih =>
    intro r
    have ih2 := ih (bump ulower line x)
    simp only [] at ih2
    obtain ⟨i1, i2, i3, i4, i5, i6⟩ := ih2
    obtain ⟨n1, n2, n3⟩ := not_two_states ulower line
    have hr : r = rest.foldl (fun x line => bump ulower line x) (bump ulower line x) := rfl
    rw [hr, i1, i2, i3, i4, i5, i6]
    simp only [List.filter_cons]
    unfold bump
    have key : ∀ bp br bs : Bool, ¬ (bp = true ∧ br = true) → ¬ (bp = true ∧ bs = true) →
        ¬ (br = true ∧ bs = true) →
        (bp = true ∧ br = false ∧ bs = false) ∨ (bp = false ∧ br = true ∧ bs = false) ∨
        (bp = false ∧ br = false ∧ bs = true) ∨ (bp = false ∧ br = false ∧ bs = false) := by
      decide
    rcases key _ _ _ n1 n2 n3 with ⟨hp, hrun, hs⟩ | ⟨hp, hrun, hs⟩ | ⟨hp, hrun, hs⟩ | ⟨hp, hrun, hs⟩ <;>
      simp only [hp, hrun, hs, Bool.false_eq_true, if_false, if_true, List.length_cons,
          List.map_cons] <;>
      refine ⟨?_, ?_, ?_, ?_, ?_, ?_⟩ <;> trivial

/-- Every character of a piece is a character of the text. -/
theorem mem_of_mem_splitWhere (p : Char → Bool) (s f : Str) (c : Char)
    (hf : f ∈ splitWhere p s) (hc : c ∈ f) : c ∈ s := by
  induction s generalizing f with
  | nil =>
    simp only [splitWhere, List.mem_singleton] at hf
    subst hf; cases hc
  | cons a t ih =>
    unfold splitWhere at hf
    split_ifs at hf with hp
    · rcases List.mem_cons.mp hf with h | h
      · subst h; cases hc
      · exact List.mem_cons_of_mem _ (ih f h hc)
    · cases hs : splitWhere p t with
      | nil =>
        rw [hs] at hf
        simp only [List.mem_singleton] at hf
        subst hf
        simp only [List.mem_singleton] at hc
        subst hc; exact List.mem_cons_self _ _
      | cons l ls =>
        rw [hs] at hf
        rcases List.mem_cons.mp hf with h | h
        · subst h
          rcases List.mem_cons.mp hc with h2 | h2
          · subst h2; exact List.mem_cons_self _ _
          · exact List.mem_cons_of_mem _ (ih l (by rw [hs]; exact List.mem_cons_self _ _) h2)
        · exact List.mem_cons_of_mem _ (ih f (by rw [hs]; exact List.mem_cons_of_mem _ h) hc)

/-- Every character of a field is a character of the line. -/
theorem mem_of_mem_Fields_getD (line : Str) (i : Nat) (c : Char)
    (hc : c ∈ (Fields line).getD i []) : c ∈ line := by
  rw [List.getD_eq_getElem?_getD] at hc
  cases hg : (Fields line)[i]? with
  | none => rw [hg] at hc; cases hc
  | some f =>
    rw [hg] at hc
    have hf : f ∈ Fields line := List.getElem?_mem hg
    exact mem_of_mem_splitWhere _ _ f c (List.mem_of_mem_filter hf) hc

/-- On ASCII text `ToLower` does not consult the Unicode table. -/
theorem ToLower_ascii (u v : Char → Char) (s : Str) (hs : ∀ c ∈ s, c.toNat < 128) :
    ToLower u s = ToLower v s := by
  unfold ToLower
  apply List.map_congr_left
  intro c hc
  simp [hs c hc]

/-- On ASCII text `ToLower` lower-cases the letters A to Z. -/
theorem ToLower_ascii_map (u : Char → Char) (s : Str) (hs : ∀ c ∈ s, c.toNat < 128) :
    ToLower u s = s.map Char.toLower := by
  unfold ToLower
  apply List.map_congr_left
  intro c hc
  simp [hs c hc]

/-- On an ASCII line the loop body does not consult the Unicode table. -/
theorem accountsLine_ascii (u v : Char → Char) (m : Str → Option JobMetrics) (line : Str)
    (hs : ∀ c ∈ line, c.toNat < 128) : accountsLine u m line = accountsLine v m line := by
  simp only [accountsLine]
  rw [ToLower_ascii u v _ (fun c hc => hs c (mem_of_mem_Fields_getD line 2 c hc))]

/-- On an ASCII dump `ParseAccountsMetrics` does not consult the Unicode table. -/
theorem ParseAccountsMetrics_ascii (u v : Char → Char) (input : Str)
    (hs : ∀ c ∈ input, c.toNat < 128) : ParseAccountsMetrics u input = ParseAccountsMetrics v input := by
  unfold ParseAccountsMetrics Split
  have h : ∀ (lines : List Str) (m : Str → Option JobMetrics), (∀ l ∈ lines, ∀ c ∈ l, c.toNat < 128) →
      lines.foldl (accountsLine u) m = lines.foldl (accountsLine v) m := by
    intro lines
    induction lines with
    | nil => intros; rfl
    | cons l rest ih =>
      intro m hl
      rw [List.foldl_cons, List.foldl_cons, accountsLine_ascii u v m l (hl l (List.mem_cons_self _ _))]
      exact ih _ (fun l2 h2 => hl l2 (List.mem_cons_of_mem _ h2))
  exact h _ _ (fun l hl c hc => hs c (mem_of_mem_splitWhere _ _ l c hl hc))

/-- The loop body of users.go is the loop body of accounts.go on the other record type. -/
theorem usersLine_eq_accountsLine (ulower : Char → Char) (mu : Str → Option UserJobMetrics)
    (line k : Str) :
    usersLine ulower mu line k =
      (accountsLine ulower (fun j => (mu j).map UserJobMetrics.toAccount) line k).map
        JobMetrics.toUser := by
  unfold usersLine accountsLine
  simp only []
  generalize (Fields line).getD 1 [] = e
  generalize MatchString pending (ToLower ulower ((Fields line).getD 2 [])) = bp
  generalize MatchString running (ToLower ulower ((Fields line).getD 2 [])) = br
  generalize MatchString suspended (ToLower ulower ((Fields line).getD 2 [])) = bs
  have hid : ∀ o : Option UserJobMetrics,
      Option.map JobMetrics.toUser (Option.map UserJobMetrics.toAccount o) = o := by
    intro o; cases o <;> rfl
  have hopt : ∀ j, mu j = none ∨ ∃ v, mu j = some v := by
    intro j; cases mu j
    · exact Or.inl rfl
    · exact Or.inr ⟨_, rfl⟩
  by_cases h3 : (Fields line).length > 3
  · simp only [h3, if_true]
    by_cases hk : k = e
    · subst hk
      rcases hopt k with hm | ⟨v, hm⟩ <;> cases bp <;> cases br <;> cases bs <;>
        simp [mapModify, mapSet, hm, JobMetrics.toUser, UserJobMetrics.toAccount]
    · rcases hopt e with hm | ⟨v, hm⟩ <;> cases bp <;> cases br <;> cases bs <;>
        simp [mapModify, mapSet, hm, hk, hid]
  · simp [h3, hid]

/-! ## Lemmas on the detail parser -/

/-- A search returns nil or the whole match followed by one entry per group. -/
theorem FindStringSubmatch_nil_or_length (re : Regexp) (s : Str) :
    FindStringSubmatch re s = [] ∨ (FindStringSubmatch re s).length = re.groups.length + 1 := by
  unfold FindStringSubmatch
  cases re.exec s with
  | none => exact Or.inl rfl
  | some segs => right; simp [Regexp.submatches]

/-- Indexing the result of a one-group pattern at 1 either succeeds, with the value of the group,
or panics with length 0. -/
theorem index_submatch_one (re : Regexp) (hg : re.groups.length = 1) (s : Str) :
    (FindStringSubmatch re s = [] ∧
        index (FindStringSubmatch re s) 1 =
          Except.error (Abort.panic (Panic.indexOutOfRange 1 0))) ∨
      (FindStringSubmatch re s ≠ [] ∧
        index (FindStringSubmatch re s) 1 = Except.ok (tagValue re s)) := by
  rcases FindStringSubmatch_nil_or_length re s with h | h
  · left; simp [h, index]
  · right
    rw [hg] at h
    unfold tagValue
    match hm : FindStringSubmatch re s, h with
    | [a, b], _ => exact ⟨by simp, by simp [index]⟩

/-- A line longer than 10 bytes that lacks a required tag panics. -/
theorem lineJobs_error (scontrol : Str → Option Str) (line : Str) (hlen : len line > 10)
    (hmiss : FindStringSubmatch re_jobid line = [] ∨ FindStringSubmatch re_user line = [] ∨
      FindStringSubmatch re_account line = [] ∨ FindStringSubmatch re_state line = []) :
    lineJobs scontrol line = Except.error (Abort.panic (Panic.indexOutOfRange 1 0)) := by
  unfold lineJobs
  rw [if_pos hlen]
  rcases index_submatch_one re_jobid rfl line with ⟨_, h1⟩ | ⟨n1, h1⟩
  · rw [h1]; rfl
  rcases index_submatch_one re_user rfl line with ⟨_, h2⟩ | ⟨n2, h2⟩
  · rw [h1, h2]; rfl
  rcases index_submatch_one re_account rfl line with ⟨_, h3⟩ | ⟨n3, h3⟩
  · rw [h1, h2, h3]; rfl
  rcases index_submatch_one re_state rfl line with ⟨_, h4⟩ | ⟨n4, h4⟩
  · rw [h1, h2, h3, h4]; rfl
  · rcases hmiss with h | h | h | h <;> contradiction

/-- A line of at most 10 bytes appends no row and cannot fail. -/
theorem lineJobs_short (scontrol : Str → Option Str) (line : Str) (hlen : ¬ len line > 10) :
    lineJobs scontrol line = Except.ok [] := by
  unfold lineJobs
  rw [if_neg hlen]
  rfl

/-- A line longer than 10 bytes with the four required tags goes on to the loop over its
fragments. -/
theorem lineJobs_ok (scontrol : Str → Option Str) (line : Str) (hlen : len line > 10)
    (h1 : FindStringSubmatch re_jobid line ≠ []) (h2 : FindStringSubmatch re_user line ≠ [])
    (h3 : FindStringSubmatch re_account line ≠ []) (h4 : FindStringSubmatch re_state line ≠ []) :
    lineJobs scontrol line =
      nodeStringsJobs scontrol (tagValue re_jobid line) (tagValue re_user line)
        (tagValue re_account line) (tagValue re_state line)
        (FindAllStringSubmatch re_node_string line) := by
  have hidx : ∀ re : Regexp, re.groups.length = 1 → FindStringSubmatch re line ≠ [] →
      index (FindStringSubmatch re line) 1 = Except.ok (tagValue re line) := by
    intro re hg hne
    rcases index_submatch_one re hg line with ⟨hnil, _⟩ | ⟨_, hv⟩
    · exact absurd hnil hne
    · exact hv
  unfold lineJobs
  rw [if_pos hlen, hidx re_jobid rfl h1, hidx re_user rfl h2, hidx re_account rfl h3,
    hidx re_state rfl h4]
  rfl

/-- The rows of one match of `re_node_string`, or the exit, according to what the collaborator
does with the node expression when there is one. -/
theorem nodeStringJobs_cases (scontrol : Str → Option Str) (jobid user account state : Str)
    (node_str : List Str) :
    (nodeStringJobs scontrol jobid user account state node_str = Except.error Abort.fatal ∧
      ∃ v ∈ (if (FindStringSubmatch re_node (node_str.getD 0 [])).length > 1 ∧
          Contains ((FindStringSubmatch re_node (node_str.getD 0 [])).getD 1 []) '[' = true then
        some ((FindStringSubmatch re_node (node_str.getD 0 [])).getD 1 []) else none),
        scontrol v = none) ∨
    ((∃ rows, nodeStringJobs scontrol jobid user account state node_str = Except.ok rows) ∧
      ∀ v ∈ (if (FindStringSubmatch re_node (node_str.getD 0 [])).length > 1 ∧
          Contains ((FindStringSubmatch re_node (node_str.getD 0 [])).getD 1 []) '[' = true then
        some ((FindStringSubmatch re_node (node_str.getD 0 [])).getD 1 []) else none),
        scontrol v ≠ none) := by
  unfold nodeStringJobs
  simp only []
  by_cases hl : (FindStringSubmatch re_node (node_str.getD 0 [])).length > 1
  · by_cases hc : Contains ((FindStringSubmatch re_node (node_str.getD 0 [])).getD 1 []) '[' = true
    · simp only [hl, hc, if_true, and_self, Option.mem_def, Option.some.injEq, exists_eq_left',
        forall_eq', GetHostname]
      cases hs : scontrol ((FindStringSubmatch re_node (node_str.getD 0 [])).getD 1 []) with
      | none => left; exact ⟨rfl, rfl⟩
      | some out => right; exact ⟨⟨_, rfl⟩, by simp⟩
    · right
      simp only [hl, hc, if_true, if_false, and_false, Bool.false_eq_true]
      exact ⟨⟨_, rfl⟩, by simp⟩
  · right
    simp only [hl, if_false, false_and]
    exact ⟨⟨_, rfl⟩, by simp⟩

/-- The loop over the fragments of a line returns exactly when the collaborator succeeds on every
node expression handed to it; otherwise the process exits. -/
theorem nodeStringsJobs_cases (scontrol : Str → Option Str) (jobid user account state : Str)
    (node_strings : List (List Str)) :
    (nodeStringsJobs scontrol jobid user account state node_strings = Except.error Abort.fatal ∧
      ∃ v ∈ node_strings.filterMap (fun node_str =>
        if (FindStringSubmatch re_node (node_str.getD 0 [])).length > 1 ∧
            Contains ((FindStringSubmatch re_node (node_str.getD 0 [])).getD 1 []) '[' = true then
          some ((FindStringSubmatch re_node (node_str.getD 0 [])).getD 1 [])
        else none), scontrol v = none) ∨
    ((∃ rows, nodeStringsJobs scontrol jobid user account state node_strings = Except.ok rows) ∧
      ∀ v ∈ node_strings.filterMap (fun node_str =>
        if (FindStringSubmatch re_node (node_str.getD 0 [])).length > 1 ∧
            Contains ((FindStringSubmatch re_node (node_str.getD 0 [])).getD 1 []) '[' = true then
          some ((FindStringSubmatch re_node (node_str.getD 0 [])).getD 1 [])
        else none), scontrol v ≠ none) := by
  induction node_strings with
  | nil => right; exact ⟨⟨[], rfl⟩, by simp⟩
  | cons ns rest ih =>
    unfold nodeStringsJobs
    rcases nodeStringJobs_cases scontrol jobid user account state ns with
      ⟨he, v, hv, hnone⟩ | ⟨⟨rows, hok⟩, hall⟩
    · left
      rw [he]
      refine ⟨rfl, v, ?_, hnone⟩
      rw [List.mem_filterMap]
      exact ⟨ns, List.mem_cons_self _ _, hv⟩
    · rw [hok]
      rcases ih with ⟨he, v, hv, hnone⟩ | ⟨⟨more, hmore⟩, hall2⟩
      · left
        rw [he]
        refine ⟨rfl, v, ?_, hnone⟩
        rw [List.mem_filterMap] at hv ⊢
        obtain ⟨a, ha, hav⟩ := hv
        exact ⟨a, List.mem_cons_of_mem _ ha, hav⟩
      · right
        rw [hmore]
        refine ⟨⟨_, rfl⟩, ?_⟩
        intro v hv
        rw [List.mem_filterMap] at hv
        obtain ⟨a, ha, hav⟩ := hv
        rcases List.mem_cons.mp ha with h | h
        · subst h; exact hall v hav
        · exact hall2 v (List.mem_filterMap.mpr ⟨a, h, hav⟩)

/-- How a line ends: it returns exactly when it is short, or has the four required tags and
the collaborator succeeds on each of its node expressions; it panics when a tag is missing;
otherwise the process exits. -/
theorem lineJobs_cases (scontrol : Str → Option Str) (line : Str) :
    ((∃ rows, lineJobs scontrol line = Except.ok rows) ∧
      (len line > 10 →
        (FindStringSubmatch re_jobid line ≠ [] ∧ FindStringSubmatch re_user line ≠ [] ∧
          FindStringSubmatch re_account line ≠ [] ∧ FindStringSubmatch re_state line ≠ []) ∧
        ∀ v ∈ expansions line, scontrol v ≠ none)) ∨
    (lineJobs scontrol line = Except.error (Abort.panic (Panic.indexOutOfRange 1 0)) ∧
      len line > 10 ∧
      (FindStringSubmatch re_jobid line = [] ∨ FindStringSubmatch re_user line = [] ∨
        FindStringSubmatch re_account line = [] ∨ FindStringSubmatch re_state line = [])) ∨
    (lineJobs scontrol line = Except.error Abort.fatal ∧ len line > 10 ∧
      (FindStringSubmatch re_jobid line ≠ [] ∧ FindStringSubmatch re_user line ≠ [] ∧
        FindStringSubmatch re_account line ≠ [] ∧ FindStringSubmatch re_state line ≠ []) ∧
      ∃ v ∈ expansions line, scontrol v = none) := by
  by_cases hlen : len line > 10
  · by_cases hmiss : FindStringSubmatch re_jobid line = [] ∨ FindStringSubmatch re_user line = [] ∨
        FindStringSubmatch re_account line = [] ∨ FindStringSubmatch re_state line = []
    · right; left
      exact ⟨lineJobs_error scontrol line hlen hmiss, hlen, hmiss⟩
    · simp only [not_or] at hmiss
      obtain ⟨h1, h2, h3, h4⟩ := hmiss
      rw [lineJobs_ok scontrol line hlen h1 h2 h3 h4]
      unfold expansions
      rcases nodeStringsJobs_cases scontrol (tagValue re_jobid line) (tagValue re_user line)
        (tagValue re_account line) (tagValue re_state line)
        (FindAllStringSubmatch re_node_string line) with ⟨he, hex⟩ | ⟨hok, hall⟩
      · right; right
        exact ⟨he, hlen, ⟨h1, h2, h3, h4⟩, hex⟩
      · left
        exact ⟨hok, fun _ => ⟨⟨h1, h2, h3, h4⟩, hall⟩⟩
  · left
    exact ⟨⟨_, lineJobs_short scontrol line hlen⟩, fun h => absurd h hlen⟩

/-- A line returns exactly when it is short, or has the four required tags and the collaborator
succeeds on each of its node expressions. -/
theorem lineJobs_ok_iff (scontrol : Str → Option Str) (line : Str) :
    (∃ rows, lineJobs scontrol line = Except.ok rows) ↔
      (len line > 10 →
        (FindStringSubmatch re_jobid line ≠ [] ∧ FindStringSubmatch re_user line ≠ [] ∧
          FindStringSubmatch re_account line ≠ [] ∧ FindStringSubmatch re_state line ≠ []) ∧
        ∀ v ∈ expansions line, scontrol v ≠ none) := by
  rcases lineJobs_cases scontrol line with ⟨hok, hc⟩ | ⟨he, hlen, hmiss⟩ | ⟨he, hlen, htags, v, hv, hnone⟩
  · exact ⟨fun _ => hc, fun _ => hok⟩
  · constructor
    · rintro ⟨rows, hrows⟩; rw [he] at hrows; cases hrows
    · intro h
      obtain ⟨⟨h1, h2, h3, h4⟩, _⟩ := h hlen
      rcases hmiss with h | h | h | h <;> contradiction
  · constructor
    · rintro ⟨rows, hrows⟩; rw [he] at hrows; cases hrows
    · intro h
      exact absurd hnone ((h hlen).2 v hv)

/-- A line fails only by the panic of a missing tag or by the exit of the collaborator. -/
theorem lineJobs_error_eq (scontrol : Str → Option Str) (line : Str) (e : Abort)
    (h : lineJobs scontrol line = Except.error e) :
    e = Abort.panic (Panic.indexOutOfRange 1 0) ∨ e = Abort.fatal := by
  rcases lineJobs_cases scontrol line with ⟨⟨rows, hok⟩, _⟩ | ⟨he, _⟩ | ⟨he, _⟩
  · rw [hok] at h; cases h
  · rw [he] at h; cases h; exact Or.inl rfl
  · rw [he] at h; cases h; exact Or.inr rfl

/-- With a collaborator that never fails, a line fails only by the panic of a missing tag. -/
theorem lineJobs_error_eq_of_total (scontrol : Str → Option Str) (hs : ∀ v, scontrol v ≠ none)
    (line : Str) (e : Abort) (h : lineJobs scontrol line = Except.error e) :
    e = Abort.panic (Panic.indexOutOfRange 1 0) := by
  rcases lineJobs_cases scontrol line with ⟨⟨rows, hok⟩, _⟩ | ⟨he, _⟩ | ⟨he, _, _, v, _, hnone⟩
  · rw [hok] at h; cases h
  · rw [he] at h; cases h; rfl
  · exact absurd hnone (hs v)

/-- A failing line anywhere in the dump makes the whole loop fail: by the panic of a missing tag
or by the exit of the collaborator. -/
theorem parseLines_error (scontrol : Str → Option Str) (lines : List Str) (jobs : List JobsMetrics)
    (line : Str) (e : Abort) (hmem : line ∈ lines) (herr : lineJobs scontrol line = Except.error e) :
    parseLines scontrol jobs lines = Except.error (Abort.panic (Panic.indexOutOfRange 1 0)) ∨
      parseLines scontrol jobs lines = Except.error Abort.fatal := by
  induction lines generalizing jobs with
  | nil => cases hmem
  | cons l rest ih =>
    unfold parseLines
    cases hl : lineJobs scontrol l with
    | error e2 =>
      simp only []
      rcases lineJobs_error_eq scontrol l e2 hl with h | h
      · left; rw [h]
      · right; rw [h]
    | ok rows =>
      simp only []
      rcases List.mem_cons.mp hmem with h | h
      · rw [h, hl] at herr; cases herr
      · exact ih _ h

/-- With a collaborator that never fails, a dump with a line that lacks a tag panics. -/
theorem parseLines_error_of_total (scontrol : Str → Option Str) (hs : ∀ v, scontrol v ≠ none)
    (lines : List Str) (jobs : List JobsMetrics) (line : Str) (e : Abort) (hmem : line ∈ lines)
    (herr : lineJobs scontrol line = Except.error e) :
    parseLines scontrol jobs lines = Except.error (Abort.panic (Panic.indexOutOfRange 1 0)) := by
  induction lines generalizing jobs with
  | nil => cases hmem
  | cons l rest ih =>
    unfold parseLines
    cases hl : lineJobs scontrol l with
    | error e2 =>
      simp only []
      rw [lineJobs_error_eq_of_total scontrol hs l e2 hl]
    | ok rows =>
      simp only []
      rcases List.mem_cons.mp hmem with h | h
      · rw [h, hl] at herr; cases herr
      · exact ih _ h

/-- The loop returns normally exactly when every line does. -/
theorem parseLines_ok_iff (scontrol : Str → Option Str) (lines : List Str) (jobs : List JobsMetrics) :
    (∃ rows, parseLines scontrol jobs lines = Except.ok rows) ↔
      ∀ line ∈ lines, ∃ rows, lineJobs scontrol line = Except.ok rows := by
  induction lines generalizing jobs with
  | nil => simp [parseLines]
  | cons l rest ih =>
    unfold parseLines
    cases hl : lineJobs scontrol l with
    | error e =>
      simp only [List.mem_cons, forall_eq_or_imp, hl]
      constructor
      · rintro ⟨rows, h⟩; cases h
      · rintro ⟨⟨rows, h⟩, _⟩; cases h
    | ok rows =>
      simp only [List.mem_cons, forall_eq_or_imp, hl]
      rw [ih]
      constructor
      · intro h; exact ⟨⟨rows, rfl⟩, h⟩
      · intro h; exact h.2

/-- A line that appends no row can be taken out of the dump. -/
theorem parseLines_remove (scontrol : Str → Option Str) (l1 l2 : List Str) (line : Str)
    (jobs : List JobsMetrics) (h : lineJobs scontrol line = Except.ok []) :
    parseLines scontrol jobs (l1 ++ line :: l2) = parseLines scontrol jobs (l1 ++ l2) := by
  induction l1 generalizing jobs with
  | nil =>
    simp only [List.nil_append]
    rw [parseLines, h]
    simp
  | cons x t ih =>
    simp only [List.cons_append, parseLines]
    cases lineJobs scontrol x with
    | error e => rfl
    | ok rows => exact ih _

/-! ## Lemmas on the rows of the detail parser -/

/-- Every row of a fragment carries the identifiers of the line and the decoded values of the
fragment. -/
theorem nodeStringJobs_fields (scontrol : Str → Option Str) (jobid user account state : Str)
    (node_str : List Str) (rows : List JobsMetrics) (j : JobsMetrics)
    (hrows : nodeStringJobs scontrol jobid user account state node_str = Except.ok rows)
    (hj : j ∈ rows) :
    j.jobid = jobid ∧ j.user = user ∧ j.account = account ∧ j.state = state ∧
      j.cpus = f_cpus (node_str.getD 0 []) ∧ j.gpus = f_gpus (node_str.getD 0 []) ∧
      j.mems = f_mems (node_str.getD 0 []) := by
  unfold nodeStringJobs at hrows
  simp only [] at hrows
  split_ifs at hrows
  · unfold GetHostname at hrows
    cases hs : scontrol ((FindStringSubmatch re_node (node_str.getD 0 [])).getD 1 []) with
    | none => rw [hs] at hrows; cases hrows
    | some out =>
      rw [hs] at hrows
      cases hrows
      obtain ⟨host, _, rfl⟩ := List.mem_map.mp hj
      exact ⟨rfl, rfl, rfl, rfl, rfl, rfl, rfl⟩
  · cases hrows
    rw [List.mem_singleton] at hj
    subst hj
    exact ⟨rfl, rfl, rfl, rfl, rfl, rfl, rfl⟩
  · cases hrows
    cases hj

/-- The rows of a fragment whose first `Nodes=` value `v` contains an opening bracket: one per
non-empty line of what `scontrol show hostname v` prints. -/
theorem nodeStringJobs_bracket (scontrol : Str → Option Str)
    (jobid user account state pre v post out : Str)
    (w : Char) (hw : reSpace w = true) (hv : v ≠ []) (hvs : ∀ c ∈ v, reSpace c = false)
    (hpost : ∀ c ∈ post.head?, reSpace c = true)
    (hfirst : NoMatchBefore re_node pre (w :: ("Nodes=".toList ++ v ++ post)))
    (hb : '[' ∈ v) (hout : scontrol v = some out) :
    nodeStringJobs scontrol jobid user account state [pre ++ w :: ("Nodes=".toList ++ v ++ post)] =
      Except.ok (((Split out '\n').filter (fun host => !host.isEmpty)).map
        (fun host => ⟨jobid, user, account, state, host,
          f_cpus (pre ++ w :: ("Nodes=".toList ++ v ++ post)),
          f_gpus (pre ++ w :: ("Nodes=".toList ++ v ++ post)),
          f_mems (pre ++ w :: ("Nodes=".toList ++ v ++ post))⟩)) := by
  unfold nodeStringJobs
  simp only [List.getD_cons_zero]
  rw [FindStringSubmatch_re_node pre v post w hw hv hvs hpost hfirst]
  have hc : Contains v '[' = true := by simpa [Contains] using hb
  simp only [List.length_cons, List.length_nil, List.getD_cons_succ, List.getD_cons_zero, hc,
    if_true, GetHostname, hout, len_pos]
  rfl

/-- A fragment whose first `Nodes=` value `v` contains an opening bracket ends the process when
the collaborator fails on `v`. -/
theorem nodeStringJobs_bracket_fatal (scontrol : Str → Option Str)
    (jobid user account state pre v post : Str)
    (w : Char) (hw : reSpace w = true) (hv : v ≠ []) (hvs : ∀ c ∈ v, reSpace c = false)
    (hpost : ∀ c ∈ post.head?, reSpace c = true)
    (hfirst : NoMatchBefore re_node pre (w :: ("Nodes=".toList ++ v ++ post)))
    (hb : '[' ∈ v) (hout : scontrol v = none) :
    nodeStringJobs scontrol jobid user account state [pre ++ w :: ("Nodes=".toList ++ v ++ post)] =
      Except.error Abort.fatal := by
  unfold nodeStringJobs
  simp only [List.getD_cons_zero]
  rw [FindStringSubmatch_re_node pre v post w hw hv hvs hpost hfirst]
  have hc : Contains v '[' = true := by simpa [Contains] using hb
  simp only [List.length_cons, List.length_nil, List.getD_cons_succ, List.getD_cons_zero, hc,
    if_true, GetHostname, hout]
  rfl

/-- The row of a fragment whose first `Nodes=` value `v` has no opening bracket. -/
theorem nodeStringJobs_plain (scontrol : Str → Option Str)
    (jobid user account state pre v post : Str)
    (w : Char) (hw : reSpace w = true) (hv : v ≠ []) (hvs : ∀ c ∈ v, reSpace c = false)
    (hpost : ∀ c ∈ post.head?, reSpace c = true)
    (hfirst : NoMatchBefore re_node pre (w :: ("Nodes=".toList ++ v ++ post)))
    (hb : ¬ '[' ∈ v) :
    nodeStringJobs scontrol jobid user account state [pre ++ w :: ("Nodes=".toList ++ v ++ post)] =
      Except.ok [⟨jobid, user, account, state, v,
          f_cpus (pre ++ w :: ("Nodes=".toList ++ v ++ post)),
          f_gpus (pre ++ w :: ("Nodes=".toList ++ v ++ post)),
          f_mems (pre ++ w :: ("Nodes=".toList ++ v ++ post))⟩] := by
  unfold nodeStringJobs
  simp only [List.getD_cons_zero]
  rw [FindStringSubmatch_re_node pre v post w hw hv hvs hpost hfirst]
  have hc : Contains v '[' = false := by simpa [Contains] using hb
  simp only [List.length_cons, List.length_nil, List.getD_cons_succ, List.getD_cons_zero, hc]
  rfl

/-- The rows of each match are part of the rows of the loop over the matches of a line. -/
theorem nodeStringsJobs_sublist (scontrol : Str → Option Str) (jobid user account state : Str)
    (node_strings : List (List Str)) (rows : List JobsMetrics) (node_str : List Str)
    (hok : nodeStringsJobs scontrol jobid user account state node_strings = Except.ok rows)
    (hmem : node_str ∈ node_strings) :
    ∃ rs, nodeStringJobs scontrol jobid user account state node_str = Except.ok rs ∧
      rs.Sublist rows := by
  induction node_strings generalizing rows with
  | nil => cases hmem
  | cons ns rest ih =>
    unfold nodeStringsJobs at hok
    cases h1 : nodeStringJobs scontrol jobid user account state ns with
    | error e => rw [h1] at hok; cases hok
    | ok r1 =>
      rw [h1] at hok
      cases h2 : nodeStringsJobs scontrol jobid user account state rest with
      | error e => rw [h2] at hok; cases hok
      | ok more =>
        rw [h2] at hok
        cases hok
        rcases List.mem_cons.mp hmem with h | h
        · subst h
          exact ⟨r1, h1, List.sublist_append_left _ _⟩
        · obtain ⟨rs, hrs, hsub⟩ := ih more h2 h
          exact ⟨rs, hrs, hsub.trans (List.sublist_append_right _ _)⟩

/-- The rows of each line are part of the rows of the loop over the lines. -/
theorem parseLines_sublist (scontrol : Str → Option Str) (lines : List Str)
    (jobs rows : List JobsMetrics) (line : Str)
    (hok : parseLines scontrol jobs lines = Except.ok rows) (hmem : line ∈ lines) :
    ∃ rs, lineJobs scontrol line = Except.ok rs ∧ rs.Sublist rows := by
  have hjobs : ∀ (lines : List Str) (jobs rows : List JobsMetrics),
      parseLines scontrol jobs lines = Except.ok rows → jobs.Sublist rows := by
    intro lines
    induction lines with
    | nil =>
      intro jobs rows h
      cases h
      exact List.Sublist.refl _
    | cons l rest ih =>
      intro jobs rows h
      unfold parseLines at h
      cases hl : lineJobs scontrol l with
      | error e => rw [hl] at h; cases h
      | ok r1 =>
        rw [hl] at h
        exact (List.sublist_append_left _ _).trans (ih _ _ h)
  induction lines generalizing jobs with
  | nil => cases hmem
  | cons l rest ih =>
    unfold parseLines at hok
    cases hl : lineJobs scontrol l with
    | error e => rw [hl] at hok; cases hok
    | ok r1 =>
      rw [hl] at hok
      rcases List.mem_cons.mp hmem with h | h
      · subst h
        exact ⟨r1, hl, (List.sublist_append_right _ _).trans (hjobs _ _ _ hok)⟩
      · exact ih _ hok h

/-- The rows of every match of `re_node_string` in a line of the dump are computed by the loop
body from the tags of the line, and they are part of what `ParseJobsMetrics` returns. -/
theorem ParseJobsMetrics_fragment (scontrol : Str → Option Str) (input line : Str)
    (node_str : List Str) (rows : List JobsMetrics)
    (hok : ParseJobsMetrics scontrol input = Except.ok rows)
    (hline : line ∈ Split input '\n') (hlen : len line > 10)
    (hfrag : node_str ∈ FindAllStringSubmatch re_node_string line) :
    ∃ rs, nodeStringJobs scontrol (tagValue re_jobid line) (tagValue re_user line)
        (tagValue re_account line) (tagValue re_state line) node_str = Except.ok rs ∧
      rs.Sublist rows := by
  obtain ⟨lrows, hl, hsub⟩ := parseLines_sublist scontrol _ [] rows line hok hline
  obtain ⟨⟨h1, h2, h3, h4⟩, _⟩ := (lineJobs_ok_iff scontrol line).mp ⟨lrows, hl⟩ hlen
  rw [lineJobs_ok scontrol line hlen h1 h2 h3 h4] at hl
  obtain ⟨rs, hrs, hsub2⟩ := nodeStringsJobs_sublist scontrol _ _ _ _ _ lrows node_str hl hfrag
  exact ⟨rs, hrs, hsub2.trans hsub⟩

/-- No piece of a split contains a separator. -/
theorem splitWhere_piece (p : Char → Bool) (s f : Str) (c : Char)
    (hf : f ∈ splitWhere p s) (hc : c ∈ f) : p c = false := by
  induction s generalizing f with
  | nil =>
    simp only [splitWhere, List.mem_singleton] at hf
    subst hf; cases hc
  | cons a t ih =>
    unfold splitWhere at hf
    split_ifs at hf with hp
    · rcases List.mem_cons.mp hf with h | h
      · subst h; cases hc
      · exact ih f h hc
    · cases hs : splitWhere p t with
      | nil =>
        rw [hs] at hf
        simp only [List.mem_singleton] at hf
        subst hf
        simp only [List.mem_singleton] at hc
        subst hc; simpa using hp
      | cons l ls =>
        rw [hs] at hf
        rcases List.mem_cons.mp hf with h | h
        · subst h
          rcases List.mem_cons.mp hc with h2 | h2
          · subst h2; simpa using hp
          · exact ih l (by rw [hs]; exact List.mem_cons_self _ _) h2
        · exact ih f (by rw [hs]; exact List.mem_cons_of_mem _ h) hc

/-- A text without separator is its own single piece. -/
theorem splitWhere_single (p : Char → Bool) (s : Str) (hs : ∀ c ∈ s, p c = false) :
    splitWhere p s = [s] := by
  induction s with
  | nil => rfl
  | cons a t ih =>
    have ha : p a = false := hs a (List.mem_cons_self _ _)
    unfold splitWhere
    rw [ih (fun c hc => hs c (List.mem_cons_of_mem _ hc))]
    simp [ha]

/-- A failed search gives the nil slice. -/
theorem FindStringSubmatch_of_exec_none (re : Regexp) (s : Str) (h : re.exec s = none) :
    FindStringSubmatch re s = [] := by
  unfold FindStringSubmatch
  rw [h]

/-- Without a CPU-id range `f_cpus` keeps its initial 0. -/
theorem f_cpus_absent (frag : Str) (h : re_cpus.exec frag = none) : f_cpus frag = 0 := by
  unfold f_cpus
  rw [FindStringSubmatch_of_exec_none re_cpus frag h]
  rfl

/-- Without a `GRES=gpu:<digits>` `f_gpus` keeps its initial 0. -/
theorem f_gpus_absent (frag : Str) (h : re_gpus.exec frag = none) : f_gpus frag = 0 := by
  unfold f_gpus
  rw [FindStringSubmatch_of_exec_none re_gpus frag h]
  rfl

/-- Without a `Mem=<digits>` after a space character `f_mems` keeps its initial 0. -/
theorem f_mems_absent (frag : Str) (h : re_mems.exec frag = none) : f_mems frag = 0 := by
  unfold f_mems
  rw [FindStringSubmatch_of_exec_none re_mems frag h]
  rfl

/-- The value of `f_gpus` for a fragment whose first GPU descriptor is `GRES=gpu:<dg>`. -/
theorem f_gpus_eq (pre dg post : Str) (hne : dg ≠ []) (hdg : ∀ c ∈ dg, c.isDigit = true)
    (hpost : ∀ c ∈ post.head?, c.isDigit = false)
    (hfirst : NoMatchBefore re_gpus pre ("GRES=gpu:".toList ++ dg ++ post)) :
    f_gpus (pre ++ ("GRES=gpu:".toList ++ dg ++ post)) = F64.round (decimal dg : ℚ) := by
  have hm : matchHere re_gpus.atoms ("GRES=gpu:".toList ++ dg ++ post) =
      some ("GRES=gpu:".toList.map (fun c => [c]) ++ [dg]) := by
    have hatoms : re_gpus.atoms = litAtoms "GRES=gpu:".toList ++ [Atom.plus reDigit] := rfl
    rw [hatoms, List.append_assoc, matchHere_litAtoms_append]
    have hg := greedyPlus_run reDigit (matchHere []) dg post [] hne hdg hpost rfl
    simp only [matchHere] at hg ⊢
    rw [hg]
    rfl
  have hs : FindStringSubmatch re_gpus (pre ++ ("GRES=gpu:".toList ++ dg ++ post)) =
      ["GRES=gpu:".toList ++ dg, dg] := by
    unfold FindStringSubmatch
    rw [exec_at re_gpus rfl pre _ _ hfirst hm]
    simp [Regexp.submatches, re_gpus, String.toList]
  unfold f_gpus
  rw [hs]
  simp [ParseFloat_digits dg hne hdg]

/-- The value of `f_mems` for a fragment whose first memory field is `Mem=<dm>`. -/
theorem f_mems_eq (pre dm post : Str) (w : Char) (hw : reSpace w = true) (hne : dm ≠ [])
    (hdm : ∀ c ∈ dm, c.isDigit = true) (hpost : ∀ c ∈ post.head?, c.isDigit = false)
    (hfirst : NoMatchBefore re_mems pre (w :: ("Mem=".toList ++ dm ++ post))) :
    f_mems (pre ++ w :: ("Mem=".toList ++ dm ++ post)) = F64.round (decimal dm : ℚ) := by
  have hm : matchHere re_mems.atoms (w :: ("Mem=".toList ++ dm ++ post)) =
      some ([w] :: ("Mem=".toList.map (fun c => [c]) ++ [dm])) := by
    have hatoms : re_mems.atoms =
        Atom.one reSpace :: (litAtoms "Mem=".toList ++ [Atom.plus reDigit]) := rfl
    have hg := greedyPlus_run reDigit (matchHere []) dm post [] hne hdm hpost rfl
    have hk : matchHere [Atom.plus reDigit] (dm ++ post) = some [dm] := by
      simp only [matchHere] at hg ⊢
      rw [hg]
    rw [hatoms, matchHere]
    simp only [hw, if_true]
    rw [List.append_assoc, matchHere_litAtoms_append, hk]
    rfl
  have hs : FindStringSubmatch re_mems (pre ++ w :: ("Mem=".toList ++ dm ++ post)) =
      [w :: ("Mem=".toList ++ dm), dm] := by
    unfold FindStringSubmatch
    rw [exec_at re_mems rfl pre _ _ hfirst hm]
    simp [Regexp.submatches, re_mems, String.toList]
  unfold f_mems
  rw [hs]
  simp [ParseFloat_digits dm hne hdm]

/-! ## Further lemmas on the queue parser -/

/-- The result of `ParseAccountsMetrics` in closed form: an entity has an entry exactly when one
of the lines is its own, and the entry holds the counters and float64 sums over its lines. -/
theorem ParseAccountsMetrics_eq (ulower : Char → Char) (input e : Str) :
    ParseAccountsMetrics ulower input e =
      if entityLines input e = [] then none else some (entityTotals ulower input e) := by
  unfold ParseAccountsMetrics
  rw [foldl_accountsLine_apply]
  unfold entityTotals countOf runningSum runningValues entityLines
  cases hq : (Split input '\n').filter
      (fun line => decide ((Fields line).length > 3) && decide ((Fields line).getD 1 [] = e)) with
  | nil => simp
  | cons l ls =>
    have hb := foldl_bump ulower (l :: ls) ⟨0, 0, 0, 0, 0, 0⟩
    simp only [] at hb
    obtain ⟨b1, b2, b3, b4, b5, b6⟩ := hb
    simp only [Option.getD_none, reduceCtorEq, if_false, Option.some.injEq]
    generalize List.foldl (fun x line => bump ulower line x) ⟨0, 0, 0, 0, 0, 0⟩ (l :: ls) = r at *
    cases r
    simp only [JobMetrics.mk.injEq]
    exact ⟨b1, b2, b4, b6, b5, b3⟩

/-- The result of `ParseUsersMetrics` is the result of `ParseAccountsMetrics` on the other
record type. -/
theorem ParseUsersMetrics_eq (ulower : Char → Char) (input k : Str) :
    ParseUsersMetrics ulower input k =
      (ParseAccountsMetrics ulower input k).map JobMetrics.toUser := by
  unfold ParseUsersMetrics ParseAccountsMetrics
  have h : ∀ (lines : List Str) (mu : Str → Option UserJobMetrics),
      lines.foldl (usersLine ulower) mu k =
        (lines.foldl (accountsLine ulower) (fun j => (mu j).map UserJobMetrics.toAccount) k).map
          JobMetrics.toUser := by
    intro lines
    induction lines with
    | nil =>
      intro mu
      simp only [List.foldl_nil]
      cases mu k <;> rfl
    | cons l rest ih =>
      intro mu
      rw [List.foldl_cons, List.foldl_cons, ih]
      have hfun : (fun j => (usersLine ulower mu l j).map UserJobMetrics.toAccount) =
          accountsLine ulower (fun j => (mu j).map UserJobMetrics.toAccount) l := by
        funext j
        rw [usersLine_eq_accountsLine]
        cases accountsLine ulower (fun j => (mu j).map UserJobMetrics.toAccount) l j <;> rfl
      rw [hfun]
  have := h (Split input '\n') (fun _ => none)
  simpa using this

/-- The parsed numbers are not negative. -/
theorem ParseFloat_nonneg (s : Str) : F64.IsNonneg (ParseFloat s) := by
  unfold ParseFloat
  split_ifs
  · exact F64.isNonneg_round _ (Nat.cast_nonneg _)
  · exact le_refl (0 : ℚ)

/-- The decoded CPU count is not negative. -/
theorem tresCpus_nonneg (tres : Str) : F64.IsNonneg (tresCpus tres) := ParseFloat_nonneg _

/-- The decoded GPU count is not negative. -/
theorem tresGpus_nonneg (tres : Str) : F64.IsNonneg (tresGpus tres) := ParseFloat_nonneg _

/-- The decoded memory is not negative. -/
theorem tresMem_nonneg (tres : Str) : F64.IsNonneg (tresMem tres) := by
  unfold tresMem
  split_ifs
  · exact F64.isNonneg_div_thousand _ (ParseFloat_nonneg _)
  · exact ParseFloat_nonneg _

/-- A sum of decoded values that are not negative is not negative. -/
theorem runningSum_nonneg (ulower : Char → Char) (value : Str → F64)
    (hv : ∀ t, F64.IsNonneg (value t)) (input e : Str) :
    F64.IsNonneg (runningSum ulower value input e) := by
  unfold runningSum runningValues
  apply F64.isNonneg_sumFrom
  · exact le_refl (0 : ℚ)
  · intro x hx
    obtain ⟨line, _, rfl⟩ := List.mem_map.mp hx
    exact hv _

/-- The six totals of an entity are not negative. -/
theorem entityTotals_nonneg (ulower : Char → Char) (input e : Str) :
    0 ≤ (entityTotals ulower input e).pending ∧ 0 ≤ (entityTotals ulower input e).running ∧
      0 ≤ (entityTotals ulower input e).suspended ∧
      0 ≤ (entityTotals ulower input e).running_cpus ∧
      0 ≤ (entityTotals ulower input e).running_gpus ∧
      0 ≤ (entityTotals ulower input e).running_mem := by
  simp only [F64.zero_le_iff]
  exact ⟨F64.isNonneg_increments _ _ (le_refl (0 : ℚ)), F64.isNonneg_increments _ _ (le_refl (0 : ℚ)),
    F64.isNonneg_increments _ _ (le_refl (0 : ℚ)),
    runningSum_nonneg _ _ tresCpus_nonneg _ _, runningSum_nonneg _ _ tresGpus_nonneg _ _,
    runningSum_nonneg _ _ tresMem_nonneg _ _⟩

/-- An entity has no line exactly when no line with at least 4 fields has it as second field. -/
theorem entityLines_eq_nil_iff (input e : Str) :
    entityLines input e = [] ↔
      ¬ ∃ line ∈ Split input '\n', (Fields line).length > 3 ∧ (Fields line).getD 1 [] = e := by
  unfold entityLines
  rw [List.filter_eq_nil_iff]
  constructor
  · rintro h ⟨line, hm, h3, he⟩
    exact h line hm (by rw [Bool.and_eq_true]; exact ⟨decide_eq_true h3, decide_eq_true he⟩)
  · intro h line hm hq
    simp only [Bool.and_eq_true, decide_eq_true_eq] at hq
    exact h ⟨line, hm, hq.1, hq.2⟩

/-- A split has at least one piece. -/
theorem splitWhere_ne_nil (p : Char → Bool) (s : Str) : splitWhere p s ≠ [] := by
  cases s with
  | nil => simp [splitWhere]
  | cons x t =>
    unfold splitWhere
    split_ifs
    · simp
    · cases splitWhere p t <;> simp

/-- Splitting a text around a separator splits each side. -/
theorem splitWhere_append (p : Char → Bool) (a b : Str) (c : Char) (hc : p c = true) :
    splitWhere p (a ++ c :: b) = splitWhere p a ++ splitWhere p b := by
  induction a with
  | nil => simp [splitWhere, hc]
  | cons x t ih =>
    simp only [List.cons_append, splitWhere, List.append_eq]
    rw [ih]
    by_cases hx : p x = true
    · simp [hx]
    · simp only [hx, Bool.false_eq_true, if_false]
      cases hs : splitWhere p t with
      | nil => exact absurd hs (splitWhere_ne_nil p t)
      | cons l ls => rfl

/-- The lines of two dumps joined by a newline are the lines of the one followed by the lines
of the other. -/
theorem Split_append (a b : Str) :
    Split (a ++ '\n' :: b) '\n' = Split a '\n' ++ Split b '\n' :=
  splitWhere_append _ a b '\n' (by simp)

/-- The lines of an entity in two dumps joined by a newline. -/
theorem entityLines_append (a b e : Str) :
    entityLines (a ++ '\n' :: b) e = entityLines a e ++ entityLines b e := by
  unfold entityLines
  rw [Split_append, List.filter_append]

/-- Counts add up over two dumps joined by a newline. -/
theorem countOf_append (ulower : Char → Char) (w : String) (a b e : Str) :
    countOf ulower w (a ++ '\n' :: b) e = countOf ulower w a e + countOf ulower w b e := by
  unfold countOf
  rw [entityLines_append, List.filter_append, List.length_append]

/-- The decoded values of two dumps joined by a newline are those of the one followed by those
of the other. -/
theorem runningValues_append (ulower : Char → Char) (value : Str → F64) (a b e : Str) :
    runningValues ulower value (a ++ '\n' :: b) e =
      runningValues ulower value a e ++ runningValues ulower value b e := by
  unfold runningValues
  rw [entityLines_append, List.filter_append, List.map_append]

/-- The totals of an entity, all zero when it has no entry, are its counters and sums. -/
theorem getD_ParseAccountsMetrics (ulower : Char → Char) (input e : Str) :
    (ParseAccountsMetrics ulower input e).getD ⟨0, 0, 0, 0, 0, 0⟩ = entityTotals ulower input e := by
  rw [ParseAccountsMetrics_eq]
  by_cases h : entityLines input e = []
  · simp only [h, if_true, Option.getD_none]
    unfold entityTotals countOf runningSum runningValues
    rw [h]
    rfl
  · simp [h]

/-- A failed search gives the empty string. -/
theorem FindString_of_exec_none (re : Regexp) (s : Str) (h : re.exec s = none) :
    FindString re s = [] := by
  unfold FindString
  rw [h]

/-- Without a `cpu=<digits>` the decoded CPU count is 0. -/
theorem tresCpus_absent (tres : Str) (h : re_cpu.exec tres = none) : tresCpus tres = 0 := by
  unfold tresCpus
  rw [FindString_of_exec_none re_cpu tres h]
  decide!

/-- Without a `gpu=<digits>` the decoded GPU count is 0. -/
theorem tresGpus_absent (tres : Str) (h : re_gpu.exec tres = none) : tresGpus tres = 0 := by
  unfold tresGpus
  rw [FindString_of_exec_none re_gpu tres h]
  decide!

/-- Without a `mem=<digits><letter>` the decoded memory is 0. -/
theorem tresMem_absent (tres : Str) (h : re_mem.exec tres = none) : tresMem tres = 0 := by
  unfold tresMem
  rw [FindString_of_exec_none re_mem tres h]
  decide!

/-- The entry of the entity after one of its running lines. -/
theorem accountsLine_running (ulower : Char → Char) (m : Str → Option JobMetrics)
    (line f0 e s tres : Str) (more : List Str)
    (hf : Fields line = f0 :: e :: s :: tres :: more)
    (hrun : MatchString running (ToLower ulower s) = true) :
    accountsLine ulower m line e = some
      { pending := ((m e).getD ⟨0, 0, 0, 0, 0, 0⟩).pending
        running := ((m e).getD ⟨0, 0, 0, 0, 0, 0⟩).running + 1
        running_cpus := ((m e).getD ⟨0, 0, 0, 0, 0, 0⟩).running_cpus + tresCpus tres
        running_mem := ((m e).getD ⟨0, 0, 0, 0, 0, 0⟩).running_mem + tresMem tres
        running_gpus := ((m e).getD ⟨0, 0, 0, 0, 0, 0⟩).running_gpus + tresGpus tres
        suspended := ((m e).getD ⟨0, 0, 0, 0, 0, 0⟩).suspended } := by
  have hr : stateStartsWith ulower "running" line = true := by
    unfold stateStartsWith
    rw [hf]
    simpa [running, MatchString_anchored_lit] using hrun
  have hp : stateStartsWith ulower "pending" line = false := by
    cases h : stateStartsWith ulower "pending" line
    · rfl
    · exact absurd ⟨h, hr⟩ (not_two_states ulower line).1
  rw [accountsLine_apply, hf]
  simp only [List.length_cons, List.getD_cons_succ, List.getD_cons_zero, decide_True, Bool.and_self,
    if_true, gt_iff_lt, Nat.lt_add_left_iff_pos, Nat.ofNat_pos, Nat.lt_add_one, Option.some.injEq]
  unfold bump
  rw [hp, hr, hf]
  simp

/-- The match of `re_gpu` at an occurrence of `gpu=<digits>`. -/
theorem re_gpu_matchHere (ds post : Str) (hne : ds ≠ [])
    (hds : ∀ c ∈ ds, c.isDigit = true) (hpost : ∀ c ∈ post.head?, c.isDigit = false) :
    matchHere re_gpu.atoms ("gpu=".toList ++ ds ++ post) =
      some ("gpu=".toList.map (fun c => [c]) ++ [ds]) := by
  have hatoms : re_gpu.atoms = litAtoms "gpu=".toList ++ [Atom.plus reDigit] := rfl
  rw [hatoms, List.append_assoc, matchHere_litAtoms_append]
  have hg := greedyPlus_run reDigit (matchHere []) ds post [] hne hds hpost rfl
  simp only [matchHere] at hg ⊢
  rw [hg]
  rfl

/-- The GPU count decoded from a token whose first `gpu=` descriptor, whatever label precedes it,
is `gpu=<ds>`. -/
theorem tresGpus_eq (lbl ds post : Str) (hne : ds ≠ [])
    (hds : ∀ c ∈ ds, c.isDigit = true) (hpost : ∀ c ∈ post.head?, c.isDigit = false)
    (hfirst : NoMatchBefore re_gpu lbl ("gpu=".toList ++ ds ++ post)) :
    tresGpus (lbl ++ ("gpu=".toList ++ ds ++ post)) = F64.round (decimal ds : ℚ) := by
  have h1 : FindString re_gpu (lbl ++ ("gpu=".toList ++ ds ++ post)) = "gpu=".toList ++ ds := by
    unfold FindString
    rw [exec_at re_gpu rfl lbl _ _ hfirst (re_gpu_matchHere ds post hne hds hpost)]
    simp [String.toList]
  have h2 : FindString re_number ("gpu=".toList ++ ds) = ds := by
    have hm : matchHere re_number.atoms (ds ++ []) = some [ds] := by
      have hg := greedyPlus_run reDigit (matchHere []) ds [] [] hne hds (by simp) rfl
      simp only [re_number, matchHere] at hg ⊢
      rw [hg]
    have hno : NoMatchBefore re_number "gpu=".toList (ds ++ []) := by
      intro i hi
      have hi4 : i < 4 := hi
      have hstop : ∀ t : Str, (∀ c ∈ t.head?, reDigit c = false) →
          matchHere re_number.atoms t = none := by
        intro t ht
        simp only [re_number, matchHere]
        rw [greedyPlus_stop reDigit _ t ht]
      apply hstop
      interval_cases i <;> simp [String.toList, reDigit]
    unfold FindString
    have := exec_at re_number rfl _ _ _ hno hm
    rw [List.append_nil] at this
    rw [this]
    simp
  unfold tresGpus
  rw [h1, h2, ParseFloat_digits ds hne hds]

/-- An index below the length does not panic. -/
theorem index_ok (xs : List Str) (i : Nat) (h : i < xs.length) :
    index xs i = Except.ok (xs.getD i []) := by
  unfold index
  rw [List.getD_eq_getElem?_getD, List.get?_eq_getElem?, List.getElem?_eq_getElem h]
  rfl

/-- Writing the updated record back is the update in place. -/
theorem mapSet_eq_mapModify (m : Str → Option JobMetrics) (k : Str) (v : JobMetrics)
    (f : JobMetrics → JobMetrics) (h : m k = some v) : mapSet m k (f v) = mapModify m k f := by
  funext j
  unfold mapSet mapModify
  by_cases hj : j = k
  · subst hj; simp [h]
  · simp [hj]

/-- The loop body never panics: it returns the map of the unchecked model. -/
theorem accountsLineChecked_eq (ulower : Char → Char) (m : Str → Option JobMetrics) (line : Str) :
    accountsLineChecked ulower m line = Except.ok (accountsLine ulower m line) := by
  unfold accountsLineChecked accountsLine
  by_cases h3 : (Fields line).length > 3
  · simp only [h3, if_true]
    rw [index_ok _ 1 (by omega), index_ok _ 2 (by omega), index_ok _ 3 (by omega)]
    simp only [bind, Except.bind, pure, Except.pure]
    generalize (Fields line).getD 1 [] = k
    generalize MatchString pending (ToLower ulower ((Fields line).getD 2 [])) = bp
    generalize MatchString running (ToLower ulower ((Fields line).getD 2 [])) = br
    generalize MatchString suspended (ToLower ulower ((Fields line).getD 2 [])) = bs
    have hsome : ∃ v, (if (m k).isSome = true then m else mapSet m k ⟨0, 0, 0, 0, 0, 0⟩) k = some v := by
      cases hk : m k with
      | some v => exact ⟨v, by simp [hk]⟩
      | none => exact ⟨⟨0, 0, 0, 0, 0, 0⟩, by simp [hk, mapSet]⟩
    obtain ⟨v, hv⟩ := hsome
    generalize (if (m k).isSome = true then m else mapSet m k ⟨0, 0, 0, 0, 0, 0⟩) = m2 at hv ⊢
    have hd : deref m2 k = Except.ok v := by unfold deref; rw [hv]
    cases bp <;> cases br <;> cases bs <;>
      simp only [Bool.false_eq_true, if_false, if_true, hd] <;>
      first
      | rfl
      | (rw [← mapSet_eq_mapModify m2 k v _ hv])
  · simp only [h3, if_false]
    rfl

/-- The loop never panics. -/
theorem accountsLinesChecked_eq (ulower : Char → Char) (lines : List Str)
    (m : Str → Option JobMetrics) :
    accountsLinesChecked ulower m lines = Except.ok (lines.foldl (accountsLine ulower) m) := by
  induction lines generalizing m with
  | nil => rfl
  | cons l rest ih =>
    unfold accountsLinesChecked
    rw [accountsLineChecked_eq]
    exact ih _

/-! ## Lemmas used by several claims -/

/-- The width of a CPU-id range whose end is below 2^53 is computed exactly. -/
theorem F64.width_exact (s e : ℕ) (hle : s ≤ e) (hb : e < 2 ^ 53) :
    F64.round (e : ℚ) - F64.round (s : ℚ) + 1 = F64.fin ((e - s + 1 : ℕ) : ℚ) := by
  rw [F64.round_natCast e (by omega), F64.round_natCast s (by omega), F64.one_eq]
  have h1 := F64.fin_sub_fin_int (e : ℤ) (s : ℤ) (by omega)
  have h2 := F64.fin_add_fin_int ((e : ℤ) - (s : ℤ)) 1 (by omega)
  simp only [Int.cast_natCast, Int.cast_one] at h1 h2
  rw [h1, h2]
  congr 1
  push_cast [Nat.cast_sub hle]
  ring

/-- The width of a reversed CPU-id range whose start is at most 2^53 is computed exactly. -/
theorem F64.width_reversed (s e : ℕ) (hlt : e < s) (hb : s ≤ 2 ^ 53) :
    F64.round (e : ℚ) - F64.round (s : ℚ) + 1 = F64.fin ((e : ℚ) - (s : ℚ) + 1) := by
  rw [F64.round_natCast e (by omega), F64.round_natCast s (by omega), F64.one_eq]
  have h1 := F64.fin_sub_fin_int (e : ℤ) (s : ℤ) (by omega)
  have h2 := F64.fin_add_fin_int ((e : ℤ) - (s : ℤ)) 1 (by omega)
  simp only [Int.cast_natCast, Int.cast_one] at h1 h2
  rw [h1, h2]
  congr 1
  push_cast
  ring

/-- The rows that the loop body computes for a match of `re_node_string` in a line of the dump
are part of what `ParseJobsMetrics` returns, and each carries the tags of the line and the three
values decoded from the match. -/
theorem ParseJobsMetrics_fragment_rows (scontrol : Str → Option Str) (input line : Str)
    (node_str : List Str) (rows : List JobsMetrics)
    (hok : ParseJobsMetrics scontrol input = Except.ok rows)
    (hline : line ∈ Split input '\n') (hlen : len line > 10)
    (hfrag : node_str ∈ FindAllStringSubmatch re_node_string line) :
    ∃ rs, nodeStringJobs scontrol (tagValue re_jobid line) (tagValue re_user line)
        (tagValue re_account line) (tagValue re_state line) node_str = Except.ok rs ∧
      rs.Sublist rows ∧
      ∀ j ∈ rs, j.jobid = tagValue re_jobid line ∧ j.user = tagValue re_user line ∧
        j.account = tagValue re_account line ∧ j.state = tagValue re_state line ∧
        j.cpus = f_cpus (node_str.getD 0 []) ∧ j.gpus = f_gpus (node_str.getD 0 []) ∧
        j.mems = f_mems (node_str.getD 0 []) := by
  obtain ⟨rs, hrs, hsub⟩ :=
    ParseJobsMetrics_fragment scontrol input line node_str rows hok hline hlen hfrag
  exact ⟨rs, hrs, hsub, fun j hj => nodeStringJobs_fields scontrol _ _ _ _ node_str rs j hrs hj⟩

/-- The entry of the entity after one of its lines is the `bump` of its entry before. -/
theorem accountsLine_bump (ulower : Char → Char) (m : Str → Option JobMetrics)
    (line f0 e s tres : Str) (more : List Str) (hf : Fields line = f0 :: e :: s :: tres :: more) :
    accountsLine ulower m line e = some (bump ulower line ((m e).getD ⟨0, 0, 0, 0, 0, 0⟩)) := by
  rw [accountsLine_apply, hf]
  simp

/-! ## Claims -/

/-- C1 (as amended). For every detail dump in which some line longer than 10 bytes lacks a
required tag (no match of `re_jobid`, `re_user`, `re_account` or `re_state`),
`ParseJobsMetrics` does not return: that line panics with "index out of range [1] with
length 0", and the call ends with this panic, or with the exit of `log.Fatal` when the
collaborator has failed on an earlier line; with a collaborator that never fails it ends with
the panic. No row is returned, the rows of the other lines included. -/
theorem C1_missing_tag_panics (scontrol : Str → Option Str) (input line : Str)
    (hmem : line ∈ Split input '\n') (hlen : len line > 10)
    (hmiss : FindStringSubmatch re_jobid line = [] ∨ FindStringSubmatch re_user line = [] ∨
      FindStringSubmatch re_account line = [] ∨ FindStringSubmatch re_state line = []) :
    lineJobs scontrol line = Except.error (Abort.panic (Panic.indexOutOfRange 1 0)) ∧
    (ParseJobsMetrics scontrol input = Except.error (Abort.panic (Panic.indexOutOfRange 1 0)) ∨
      ParseJobsMetrics scontrol input = Except.error Abort.fatal) ∧
    ((∀ v, scontrol v ≠ none) →
      ParseJobsMetrics scontrol input = Except.error (Abort.panic (Panic.indexOutOfRange 1 0))) :=
  ⟨lineJobs_error scontrol line hlen hmiss,
    parseLines_error scontrol _ [] line _ hmem (lineJobs_error scontrol line hlen hmiss),
    fun hs => parseLines_error_of_total scontrol hs _ [] line _ hmem
      (lineJobs_error scontrol line hlen hmiss)⟩

/-- C1, witness: a two-line dump whose second line has no `Account=` tag. -/
theorem C1_missing_tag_panics_witness :
    ParseJobsMetrics (fun _ => some [])
      "JobId=55 UserId=bob(1000) Account=acct2 JobState=RUNNING Nodes=node01 CPU_IDs=0-3 Mem=8000 GRES=gpu:1 \nJobId=56 UserId=amy(1001) JobState=PENDING".toList
      = Except.error (Abort.panic (Panic.indexOutOfRange 1 0)) :=
  (C1_missing_tag_panics (fun _ => some []) _ "JobId=56 UserId=amy(1001) JobState=PENDING".toList
    (by decide) (by decide) (by decide)).2.2 (fun _ h => by cases h)

/-- C1, counterexample. The first line alone yields one row; followed by a line without
`Account=`, the call panics and that row is not returned. -/
theorem C1_counterexample :
    ParseJobsMetrics (fun _ => some [])
        "JobId=55 UserId=bob(1000) Account=acct2 JobState=RUNNING Nodes=node01 CPU_IDs=0-3 Mem=8000 GRES=gpu:1 ".toList
      = Except.ok [⟨"55".toList, "bob".toList, "acct2".toList, "RUNNING".toList, "node01".toList, 4, 1, 8000⟩] ∧
    ParseJobsMetrics (fun _ => some [])
        "JobId=55 UserId=bob(1000) Account=acct2 JobState=RUNNING Nodes=node01 CPU_IDs=0-3 Mem=8000 GRES=gpu:1 \nJobId=56 UserId=amy(1001) JobState=PENDING".toList
      = Except.error (Abort.panic (Panic.indexOutOfRange 1 0)) := by
  constructor <;> decide!

/-- C2. For every queue dump and every entity `e` in the result of `ParseAccountsMetrics`:
pending, running and suspended are counters incremented once per line with at least 4 fields
whose second field is `e` and whose lower-cased third field starts with the state word, so
they equal the number of these lines (exactly, as long as that number is at most 2^53);
the running sums are the float64 sums, in the order of the lines, of the cpu, gpu and normalized
mem values decoded from the fourth field of exactly the running lines of `e`, and they are the
exact sums whenever the decoded values are natural numbers that add up to at most 2^53. The two
example lines of the spec give running 1, cpus 4, mem 16, gpus 0, and pending 1 with all running
fields 0. -/
theorem C2_totals_are_counts_and_sums (ulower : Char → Char) (input e : Str) (m : JobMetrics)
    (h : ParseAccountsMetrics ulower input e = some m) :
    (m.pending = F64.increments (countOf ulower "pending" input e) 0 ∧
      m.running = F64.increments (countOf ulower "running" input e) 0 ∧
      m.suspended = F64.increments (countOf ulower "suspended" input e) 0 ∧
      m.running_cpus = F64.sumFrom 0 (runningValues ulower tresCpus input e) ∧
      m.running_gpus = F64.sumFrom 0 (runningValues ulower tresGpus input e) ∧
      m.running_mem = F64.sumFrom 0 (runningValues ulower tresMem input e)) ∧
    ((countOf ulower "pending" input e ≤ 2 ^ 53 →
        m.pending = F64.fin (countOf ulower "pending" input e : ℕ)) ∧
      (countOf ulower "running" input e ≤ 2 ^ 53 →
        m.running = F64.fin (countOf ulower "running" input e : ℕ)) ∧
      (countOf ulower "suspended" input e ≤ 2 ^ 53 →
        m.suspended = F64.fin (countOf ulower "suspended" input e : ℕ))) ∧
    (∀ ns : List ℕ, ns.sum ≤ 2 ^ 53 →
      (runningValues ulower tresCpus input e = ns.map (fun n : ℕ => F64.fin (n : ℚ)) →
        m.running_cpus = F64.fin (ns.sum : ℕ)) ∧
      (runningValues ulower tresGpus input e = ns.map (fun n : ℕ => F64.fin (n : ℚ)) →
        m.running_gpus = F64.fin (ns.sum : ℕ)) ∧
      (runningValues ulower tresMem input e = ns.map (fun n : ℕ => F64.fin (n : ℚ)) →
        m.running_mem = F64.fin (ns.sum : ℕ))) ∧
    ParseAccountsMetrics ulower "123 acct1 RUNNING cpu=4,mem=16000M,gpu=0 node01".toList "acct1".toList
      = some { pending := 0, running := 1, running_cpus := 4, running_mem := 16, running_gpus := 0,
               suspended := 0 } ∧
    ParseAccountsMetrics ulower "124 acct1 PENDING cpu=2,mem=8G node[01-02]".toList "acct1".toList
      = some { pending := 1, running := 0, running_cpus := 0, running_mem := 0, running_gpus := 0,
               suspended := 0 } := by
  have hm : m = entityTotals ulower input e := by
    rw [ParseAccountsMetrics_eq] at h
    split_ifs at h
    exact (Option.some.inj h).symm
  have hinc : ∀ n : ℕ, n ≤ 2 ^ 53 → F64.increments n 0 = F64.fin (n : ℚ) := by
    intro n hn
    have := F64.increments_fin n 0 (by omega)
    simpa [F64.zero_eq] using this
  have hsum : ∀ ns : List ℕ, ns.sum ≤ 2 ^ 53 →
      F64.sumFrom 0 (ns.map (fun n : ℕ => F64.fin (n : ℚ))) = F64.fin (ns.sum : ℕ) := by
    intro ns hn
    have := F64.sumFrom_nat ns 0 (by omega)
    simpa [F64.zero_eq] using this
  subst hm
  refine ⟨⟨rfl, rfl, rfl, rfl, rfl, rfl⟩, ?_, ?_, ?_, ?_⟩
  · exact ⟨fun hb => hinc _ hb, fun hb => hinc _ hb, fun hb => hinc _ hb⟩
  · intro ns hn
    refine ⟨fun hv => ?_, fun hv => ?_, fun hv => ?_⟩
    · show runningSum ulower tresCpus input e = _
      unfold runningSum
      rw [hv, hsum ns hn]
    · show runningSum ulower tresGpus input e = _
      unfold runningSum
      rw [hv, hsum ns hn]
    · show runningSum ulower tresMem input e = _
      unfold runningSum
      rw [hv, hsum ns hn]
  · rw [ParseAccountsMetrics_ascii ulower (fun c => c) _ (by decide)]
    decide!
  · rw [ParseAccountsMetrics_ascii ulower (fun c => c) _ (by decide)]
    decide!

/-- C2, witness: in a dump of the two example lines followed by a second running line, `acct1`
has 2 running lines and 6 running cpus. -/
theorem C2_totals_are_counts_and_sums_witness :
    (F64.fin 2 = F64.fin
      (countOf (fun c => c) "running"
        "123 acct1 RUNNING cpu=4,mem=16000M,gpu=0 node01\n124 acct1 PENDING cpu=2,mem=8G node[01-02]\n125 acct1 RUNNING cpu=2,mem=8G node02".toList
        "acct1".toList : ℕ)) ∧
    F64.fin 6 = F64.fin (([4, 2] : List ℕ).sum : ℕ) :=
  ⟨(C2_totals_are_counts_and_sums (fun c => c)
      "123 acct1 RUNNING cpu=4,mem=16000M,gpu=0 node01\n124 acct1 PENDING cpu=2,mem=8G node[01-02]\n125 acct1 RUNNING cpu=2,mem=8G node02".toList
      "acct1".toList ⟨F64.fin 1, F64.fin 2, F64.fin 6, F64.fin 24, F64.fin 0, F64.fin 0⟩
      (by decide!)).2.1.2.1 (by decide),
   ((C2_totals_are_counts_and_sums (fun c => c)
      "123 acct1 RUNNING cpu=4,mem=16000M,gpu=0 node01\n124 acct1 PENDING cpu=2,mem=8G node[01-02]\n125 acct1 RUNNING cpu=2,mem=8G node02".toList
      "acct1".toList ⟨F64.fin 1, F64.fin 2, F64.fin 6, F64.fin 24, F64.fin 0, F64.fin 0⟩
      (by decide!)).2.2.1 [4, 2] (by decide)).1 (by decide!)⟩

/-- C3. State classification is by initial segment and ignores case. For every qualifying queue
line whose state token `s` is ASCII, in `ParseAccountsMetrics` and in `ParseUsersMetrics`, the
pending, running and suspended counters of the entity grow by 1 exactly when the lower-cased
token starts with the corresponding word and stay unchanged otherwise; no two words match the
same token. RUNNING and running_delayed are running, completed is none of the three. -/
theorem C3_state_classification (ulower : Char → Char) (m : Str → Option JobMetrics)
    (mu : Str → Option UserJobMetrics) (line f0 e s t : Str) (more : List Str)
    (hf : Fields line = f0 :: e :: s :: t :: more) (hs : ∀ c ∈ s, c.toNat < 128) :
    (∃ n, accountsLine ulower m line e = some n ∧
      n.pending = ((m e).getD ⟨0, 0, 0, 0, 0, 0⟩).pending +
        (if "pending".toList.isPrefixOf (s.map Char.toLower) then 1 else 0) ∧
      n.running = ((m e).getD ⟨0, 0, 0, 0, 0, 0⟩).running +
        (if "running".toList.isPrefixOf (s.map Char.toLower) then 1 else 0) ∧
      n.suspended = ((m e).getD ⟨0, 0, 0, 0, 0, 0⟩).suspended +
        (if "suspended".toList.isPrefixOf (s.map Char.toLower) then 1 else 0)) ∧
    (∃ n, usersLine ulower mu line e = some n ∧
      n.pending = ((mu e).getD ⟨0, 0, 0, 0, 0, 0⟩).pending +
        (if "pending".toList.isPrefixOf (s.map Char.toLower) then 1 else 0) ∧
      n.running = ((mu e).getD ⟨0, 0, 0, 0, 0, 0⟩).running +
        (if "running".toList.isPrefixOf (s.map Char.toLower) then 1 else 0) ∧
      n.suspended = ((mu e).getD ⟨0, 0, 0, 0, 0, 0⟩).suspended +
        (if "suspended".toList.isPrefixOf (s.map Char.toLower) then 1 else 0)) ∧
    ¬ ("pending".toList.isPrefixOf (s.map Char.toLower) = true ∧
        "running".toList.isPrefixOf (s.map Char.toLower) = true) ∧
    ¬ ("pending".toList.isPrefixOf (s.map Char.toLower) = true ∧
        "suspended".toList.isPrefixOf (s.map Char.toLower) = true) ∧
    ¬ ("running".toList.isPrefixOf (s.map Char.toLower) = true ∧
        "suspended".toList.isPrefixOf (s.map Char.toLower) = true) ∧
    (MatchString pending (ToLower ulower "RUNNING".toList) = false ∧
      MatchString running (ToLower ulower "RUNNING".toList) = true) ∧
    (MatchString pending (ToLower ulower "running_delayed".toList) = false ∧
      MatchString running (ToLower ulower "running_delayed".toList) = true) ∧
    (MatchString pending (ToLower ulower "completed".toList) = false ∧
      MatchString running (ToLower ulower "completed".toList) = false ∧
      MatchString suspended (ToLower ulower "completed".toList) = false) := by
  have hacc : ∀ m : Str → Option JobMetrics, ∃ n, accountsLine ulower m line e = some n ∧
      n.pending = ((m e).getD ⟨0, 0, 0, 0, 0, 0⟩).pending +
        (if "pending".toList.isPrefixOf (s.map Char.toLower) then 1 else 0) ∧
      n.running = ((m e).getD ⟨0, 0, 0, 0, 0, 0⟩).running +
        (if "running".toList.isPrefixOf (s.map Char.toLower) then 1 else 0) ∧
      n.suspended = ((m e).getD ⟨0, 0, 0, 0, 0, 0⟩).suspended +
        (if "suspended".toList.isPrefixOf (s.map Char.toLower) then 1 else 0) := by
    intro m
    obtain ⟨n1, n2, n3⟩ := not_two_states ulower line
    have h2 : ∀ w : String, stateStartsWith ulower w line = w.toList.isPrefixOf (s.map Char.toLower) := by
      intro w
      unfold stateStartsWith
      rw [hf]
      simp only [List.getD_cons_succ, List.getD_cons_zero]
      rw [ToLower_ascii_map ulower s hs]
    rw [h2, h2] at n1 n2 n3
    refine ⟨bump ulower line ((m e).getD ⟨0, 0, 0, 0, 0, 0⟩), ?_, ?_⟩
    · rw [accountsLine_apply, hf]
      simp
    · unfold bump
      rw [h2, h2, h2]
      have key : ∀ bp br bs : Bool, ¬ (bp = true ∧ br = true) → ¬ (bp = true ∧ bs = true) →
          ¬ (br = true ∧ bs = true) →
          (bp = true ∧ br = false ∧ bs = false) ∨ (bp = false ∧ br = true ∧ bs = false) ∨
          (bp = false ∧ br = false ∧ bs = true) ∨ (bp = false ∧ br = false ∧ bs = false) := by
        decide
      rcases key _ _ _ n1 n2 n3 with ⟨hp, hrun, hsu⟩ | ⟨hp, hrun, hsu⟩ | ⟨hp, hrun, hsu⟩ | ⟨hp, hrun, hsu⟩ <;>
        simp only [hp, hrun, hsu, Bool.false_eq_true, if_true, if_false, F64.add_zero, and_self]
  obtain ⟨n1, n2, n3⟩ := not_two_states ulower line
  have h2 : ∀ w : String, stateStartsWith ulower w line = w.toList.isPrefixOf (s.map Char.toLower) := by
    intro w
    unfold stateStartsWith
    rw [hf]
    simp only [List.getD_cons_succ, List.getD_cons_zero]
    rw [ToLower_ascii_map ulower s hs]
  rw [h2, h2] at n1 n2 n3
  refine ⟨hacc m, ?_, n1, n2, n3, ?_, ?_, ?_⟩
  · obtain ⟨n, hn, hp, hr, hsu⟩ := hacc (fun j => (mu j).map UserJobMetrics.toAccount)
    refine ⟨n.toUser, ?_, ?_, ?_, ?_⟩
    · rw [usersLine_eq_accountsLine, hn]; rfl
    · show n.pending = _
      rw [hp]; cases mu e <;> rfl
    · show n.running = _
      rw [hr]; cases mu e <;> rfl
    · show n.suspended = _
      rw [hsu]; cases mu e <;> rfl
  · rw [ToLower_ascii ulower (fun c => c) _ (by decide)]; decide
  · rw [ToLower_ascii ulower (fun c => c) _ (by decide)]; decide
  · rw [ToLower_ascii ulower (fun c => c) _ (by decide)]; decide

/-- C3, witness: a line with state `Running_x` counts one running job. -/
theorem C3_state_classification_witness :
    ∃ n, accountsLine (fun c => c) (fun _ => none) "7 acct1 Running_x cpu=1 n1".toList "acct1".toList
        = some n ∧ n.running = 1 := by
  obtain ⟨⟨n, h1, _, h3, _⟩, _⟩ := C3_state_classification (fun c => c) (fun _ => none) (fun _ => none)
    "7 acct1 Running_x cpu=1 n1".toList "7".toList "acct1".toList "Running_x".toList "cpu=1".toList
    ["n1".toList] (by decide) (by decide)
  refine ⟨n, h1, ?_⟩
  rw [h3]
  decide!

/-- C4 (as amended). For every digit string `ds` and upper-case letter `U`, a running queue line
whose resource token has `mem=<ds><U>` as its first match of `mem=[0-9]+[A-Z]` adds to
running_mem, in `ParseAccountsMetrics` and in `ParseUsersMetrics`, the float64 read from `ds`
divided by 1000 when `U` is M, and the float64 read from `ds` for every other letter. When the
value n of `ds` is at most 2^53 these are the float64 nearest to n/1000 and exactly n. -/
theorem C4_memory_unit_first_occurrence (ulower : Char → Char) (m : Str → Option JobMetrics)
    (mu : Str → Option UserJobMetrics) (line f0 e s pre ds post : Str) (U : Char) (more : List Str)
    (hf : Fields line = f0 :: e :: s :: (pre ++ ("mem=".toList ++ ds ++ U :: post)) :: more)
    (hrun : MatchString running (ToLower ulower s) = true)
    (hne : ds ≠ []) (hds : ∀ c ∈ ds, c.isDigit = true) (hU : U.isUpper = true)
    (hfirst : NoMatchBefore re_mem pre ("mem=".toList ++ ds ++ U :: post)) :
    (∃ n, accountsLine ulower m line e = some n ∧
      n.running_mem = ((m e).getD ⟨0, 0, 0, 0, 0, 0⟩).running_mem +
        (if U = 'M' then F64.round (decimal ds : ℚ) / 1000 else F64.round (decimal ds : ℚ)) ∧
      (decimal ds ≤ 2 ^ 53 →
        n.running_mem = ((m e).getD ⟨0, 0, 0, 0, 0, 0⟩).running_mem +
          (if U = 'M' then F64.round ((decimal ds : ℚ) / 1000) else F64.fin (decimal ds : ℕ)))) ∧
    (∃ n, usersLine ulower mu line e = some n ∧
      n.running_mem = ((mu e).getD ⟨0, 0, 0, 0, 0, 0⟩).running_mem +
        (if U = 'M' then F64.round (decimal ds : ℚ) / 1000 else F64.round (decimal ds : ℚ)) ∧
      (decimal ds ≤ 2 ^ 53 →
        n.running_mem = ((mu e).getD ⟨0, 0, 0, 0, 0, 0⟩).running_mem +
          (if U = 'M' then F64.round ((decimal ds : ℚ) / 1000) else F64.fin (decimal ds : ℕ)))) := by
  have hexact : decimal ds ≤ 2 ^ 53 →
      (if U = 'M' then F64.round (decimal ds : ℚ) / 1000 else F64.round (decimal ds : ℚ)) =
        (if U = 'M' then F64.round ((decimal ds : ℚ) / 1000) else F64.fin (decimal ds : ℕ)) := by
    intro hb
    rw [F64.round_natCast _ hb, F64.fin_div_thousand]
  have hacc : ∀ m : Str → Option JobMetrics, ∃ n, accountsLine ulower m line e = some n ∧
      n.running_mem = ((m e).getD ⟨0, 0, 0, 0, 0, 0⟩).running_mem +
        (if U = 'M' then F64.round (decimal ds : ℚ) / 1000 else F64.round (decimal ds : ℚ)) := by
    intro m
    have hr : stateStartsWith ulower "running" line = true := by
      unfold stateStartsWith
      rw [hf]
      simpa [running, MatchString_anchored_lit] using hrun
    have hp : stateStartsWith ulower "pending" line = false := by
      cases h : stateStartsWith ulower "pending" line
      · rfl
      · exact absurd ⟨h, hr⟩ (not_two_states ulower line).1
    refine ⟨bump ulower line ((m e).getD ⟨0, 0, 0, 0, 0, 0⟩), ?_, ?_⟩
    · exact accountsLine_bump ulower m line f0 e s _ more hf
    · unfold bump
      rw [hp, hr, hf]
      simp only [Bool.false_eq_true, if_false, if_true, List.getD_cons_succ, List.getD_cons_zero]
      rw [tresMem_eq pre ds post U hne hds hU hfirst]
  refine ⟨?_, ?_⟩
  · obtain ⟨n, hn, hmem⟩ := hacc m
    exact ⟨n, hn, hmem, fun hb => by rw [hmem, hexact hb]⟩
  · obtain ⟨n, hn, hmem⟩ := hacc (fun j => (mu j).map UserJobMetrics.toAccount)
    have hmem2 : n.toUser.running_mem = ((mu e).getD ⟨0, 0, 0, 0, 0, 0⟩).running_mem +
        (if U = 'M' then F64.round (decimal ds : ℚ) / 1000 else F64.round (decimal ds : ℚ)) := by
      show n.running_mem = _
      rw [hmem]; cases mu e <;> rfl
    refine ⟨n.toUser, ?_, hmem2, fun hb => by rw [hmem2, hexact hb]⟩
    rw [usersLine_eq_accountsLine, hn]; rfl

/-- C4, witness: the token `cpu=4,mem=16000M,gpu=0` of a running line adds 16. -/
theorem C4_memory_unit_first_occurrence_witness :
    ∃ n, accountsLine (fun c => c) (fun _ => none)
        "123 acct1 RUNNING cpu=4,mem=16000M,gpu=0 node01".toList "acct1".toList = some n ∧
      n.running_mem = 16 := by
  obtain ⟨⟨n, h1, _, h2⟩, _⟩ := C4_memory_unit_first_occurrence (fun c => c) (fun _ => none)
    (fun _ => none) "123 acct1 RUNNING cpu=4,mem=16000M,gpu=0 node01".toList "123".toList
    "acct1".toList "RUNNING".toList "cpu=4,".toList "16000".toList ",gpu=0".toList 'M'
    ["node01".toList] (by decide) (by decide) (by decide) (by decide) (by decide) (by decide)
  refine ⟨n, h1, ?_⟩
  rw [h2 (by decide)]
  decide!

/-- C4, counterexample. The running line with `mem=9007199254740993G` (2^53 + 1 gigabytes) adds
9007199254740992 to running_mem and not 9007199254740993: the number is not a float64. -/
theorem C4_counterexample :
    ParseAccountsMetrics (fun c => c) "1 a RUNNING mem=9007199254740993G n1".toList "a".toList
        = some { pending := 0, running := 1, running_cpus := 0,
                 running_mem := F64.fin 9007199254740992, running_gpus := 0, suspended := 0 } ∧
      decimal "9007199254740993".toList = 9007199254740993 ∧
      F64.fin 9007199254740992 ≠ F64.fin (decimal "9007199254740993".toList : ℕ) := by
  refine ⟨by decide!, by decide, by decide!⟩

/-- C5 (as amended). For every detail fragment whose first match of `CPU_IDs=[0-9]+-[0-9]+` is
`CPU_IDs=<ds>-<de>` with the value of `de` at least the value of `ds` and below 2^53, `f_cpus`
equals end - start + 1 exactly, and so does the cpus of every row emitted for the fragment:
the rows of the loop body, and with them the rows that `ParseJobsMetrics` returns for a match
of `re_node_string` with this text in a line of the dump. -/
theorem C5_cpu_range_width (scontrol : Str → Option Str) (pre ds de post : Str)
    (hns : ds ≠ []) (hne : de ≠ [])
    (hds : ∀ c ∈ ds, c.isDigit = true) (hde : ∀ c ∈ de, c.isDigit = true)
    (hpost : ∀ c ∈ post.head?, c.isDigit = false)
    (hfirst : NoMatchBefore re_cpus pre ("CPU_IDs=".toList ++ ds ++ '-' :: (de ++ post)))
    (hle : decimal ds ≤ decimal de) (hb : decimal de < 2 ^ 53) :
    f_cpus (pre ++ ("CPU_IDs=".toList ++ ds ++ '-' :: (de ++ post)))
        = F64.fin (decimal de - decimal ds + 1 : ℕ) ∧
    (∀ (jobid user account state : Str) (rows : List JobsMetrics),
      nodeStringJobs scontrol jobid user account state
          [pre ++ ("CPU_IDs=".toList ++ ds ++ '-' :: (de ++ post))] = Except.ok rows →
        ∀ j ∈ rows, j.cpus = F64.fin (decimal de - decimal ds + 1 : ℕ)) ∧
    (∀ (input line : Str) (node_str : List Str) (rows : List JobsMetrics),
      ParseJobsMetrics scontrol input = Except.ok rows → line ∈ Split input '\n' →
      len line > 10 → node_str ∈ FindAllStringSubmatch re_node_string line →
      node_str.getD 0 [] = pre ++ ("CPU_IDs=".toList ++ ds ++ '-' :: (de ++ post)) →
      ∃ rs, nodeStringJobs scontrol (tagValue re_jobid line) (tagValue re_user line)
          (tagValue re_account line) (tagValue re_state line) node_str = Except.ok rs ∧
        rs.Sublist rows ∧ ∀ j ∈ rs, j.cpus = F64.fin (decimal de - decimal ds + 1 : ℕ)) := by
  have h2 : f_cpus (pre ++ ("CPU_IDs=".toList ++ ds ++ '-' :: (de ++ post)))
      = F64.fin (decimal de - decimal ds + 1 : ℕ) := by
    rw [f_cpus_eq pre ds de post hns hne hds hde hpost hfirst]
    exact F64.width_exact _ _ hle hb
  refine ⟨h2, ?_, ?_⟩
  · intro jobid user account state rows hrows j hj
    rw [(nodeStringJobs_fields scontrol jobid user account state _ rows j hrows hj).2.2.2.2.1]
    exact h2
  · intro input line node_str rows hok hline hlen hfrag htext
    obtain ⟨rs, hrs, hsub, hfields⟩ :=
      ParseJobsMetrics_fragment_rows scontrol input line node_str rows hok hline hlen hfrag
    refine ⟨rs, hrs, hsub, fun j hj => ?_⟩
    rw [(hfields j hj).2.2.2.2.1, htext]
    exact h2

/-- C5, witness: the range 0-3 of the only fragment of a one-line dump gives a row with 4
cpus. -/
theorem C5_cpu_range_width_witness :
    ∃ rs, nodeStringJobs (fun _ => some []) "55".toList "bob".toList "acct2".toList "RUNNING".toList
        [" Nodes=node01 CPU_IDs=0-3 Mem=8000 GRES=gpu:1 ".toList] = Except.ok rs ∧
      rs.Sublist [⟨"55".toList, "bob".toList, "acct2".toList, "RUNNING".toList, "node01".toList,
        4, 1, 8000⟩] ∧
      ∀ j ∈ rs, j.cpus = F64.fin (3 - 0 + 1 : ℕ) :=
  (C5_cpu_range_width (fun _ => some []) " Nodes=node01 ".toList "0".toList "3".toList
    " Mem=8000 GRES=gpu:1 ".toList
    (by decide) (by decide) (by decide) (by decide) (by decide) (by decide) (by decide)
    (by decide)).2.2
    "JobId=55 UserId=bob(1000) Account=acct2 JobState=RUNNING Nodes=node01 CPU_IDs=0-3 Mem=8000 GRES=gpu:1 ".toList
    "JobId=55 UserId=bob(1000) Account=acct2 JobState=RUNNING Nodes=node01 CPU_IDs=0-3 Mem=8000 GRES=gpu:1 ".toList
    [" Nodes=node01 CPU_IDs=0-3 Mem=8000 GRES=gpu:1 ".toList]
    [⟨"55".toList, "bob".toList, "acct2".toList, "RUNNING".toList, "node01".toList, 4, 1, 8000⟩]
    (by decide!) (by decide) (by decide) (by decide) (by decide)

/-- C5, counterexample. For the range 0-9007199254740992 (end = 2^53) the row has cpus
9007199254740992 and not end - start + 1 = 9007199254740993, which is not a float64. -/
theorem C5_counterexample :
    ParseJobsMetrics (fun _ => some [])
        "JobId=1 UserId=u(1) Account=a JobState=RUNNING Nodes=n1 CPU_IDs=0-9007199254740992 Mem=8000 GRES=gpu:1 ".toList
      = Except.ok [⟨"1".toList, "u".toList, "a".toList, "RUNNING".toList, "n1".toList,
          F64.fin 9007199254740992, 1, 8000⟩] ∧
    decimal "0".toList ≤ decimal "9007199254740992".toList ∧
    F64.fin 9007199254740992 ≠
      F64.fin (decimal "9007199254740992".toList - decimal "0".toList + 1 : ℕ) := by
  refine ⟨by decide!, by decide, by decide!⟩

/-- C6 (as amended). For every detail fragment whose first CPU-id range is `<ds>-<de>` with the
value of `de` below the value of `ds`, and the value of `ds` at most 2^53, `f_cpus` and the cpus
of every row emitted for the fragment equal end - start + 1, which is at most 0 and is
negative as soon as end + 1 < start: there is no guard and no default for a reversed range. -/
theorem C6_cpu_range_reversed (scontrol : Str → Option Str) (pre ds de post : Str)
    (hns : ds ≠ []) (hne : de ≠ [])
    (hds : ∀ c ∈ ds, c.isDigit = true) (hde : ∀ c ∈ de, c.isDigit = true)
    (hpost : ∀ c ∈ post.head?, c.isDigit = false)
    (hfirst : NoMatchBefore re_cpus pre ("CPU_IDs=".toList ++ ds ++ '-' :: (de ++ post)))
    (hlt : decimal de < decimal ds) (hb : decimal ds ≤ 2 ^ 53) :
    f_cpus (pre ++ ("CPU_IDs=".toList ++ ds ++ '-' :: (de ++ post)))
        = F64.fin ((decimal de : ℚ) - (decimal ds : ℚ) + 1) ∧
    (decimal de : ℚ) - (decimal ds : ℚ) + 1 ≤ 0 ∧
    f_cpus (pre ++ ("CPU_IDs=".toList ++ ds ++ '-' :: (de ++ post))) ≤ 0 ∧
    (decimal de + 1 < decimal ds →
      (decimal de : ℚ) - (decimal ds : ℚ) + 1 < 0 ∧
      ¬ (0 ≤ f_cpus (pre ++ ("CPU_IDs=".toList ++ ds ++ '-' :: (de ++ post))))) ∧
    (∀ (jobid user account state : Str) (rows : List JobsMetrics),
      nodeStringJobs scontrol jobid user account state
          [pre ++ ("CPU_IDs=".toList ++ ds ++ '-' :: (de ++ post))] = Except.ok rows →
        ∀ j ∈ rows, j.cpus = F64.fin ((decimal de : ℚ) - (decimal ds : ℚ) + 1)) ∧
    (∀ (input line : Str) (node_str : List Str) (rows : List JobsMetrics),
      ParseJobsMetrics scontrol input = Except.ok rows → line ∈ Split input '\n' →
      len line > 10 → node_str ∈ FindAllStringSubmatch re_node_string line →
      node_str.getD 0 [] = pre ++ ("CPU_IDs=".toList ++ ds ++ '-' :: (de ++ post)) →
      ∃ rs, nodeStringJobs scontrol (tagValue re_jobid line) (tagValue re_user line)
          (tagValue re_account line) (tagValue re_state line) node_str = Except.ok rs ∧
        rs.Sublist rows ∧
        ∀ j ∈ rs, j.cpus = F64.fin ((decimal de : ℚ) - (decimal ds : ℚ) + 1)) := by
  have h : f_cpus (pre ++ ("CPU_IDs=".toList ++ ds ++ '-' :: (de ++ post)))
      = F64.fin ((decimal de : ℚ) - (decimal ds : ℚ) + 1) := by
    rw [f_cpus_eq pre ds de post hns hne hds hde hpost hfirst]
    exact F64.width_reversed _ _ hlt hb
  have hle0 : (decimal de : ℚ) - (decimal ds : ℚ) + 1 ≤ 0 := by
    have : ((decimal de : ℚ) + 1) ≤ (decimal ds : ℚ) := by exact_mod_cast hlt
    linarith
  refine ⟨h, hle0, ?_, ?_, ?_, ?_⟩
  · rw [h, F64.zero_eq]
    show F64.le _ _ = true
    simpa [F64.le] using hle0
  · intro h2
    have hneg : (decimal de : ℚ) - (decimal ds : ℚ) + 1 < 0 := by
      have : ((decimal de : ℚ) + 1) < (decimal ds : ℚ) := by exact_mod_cast h2
      linarith
    refine ⟨hneg, ?_⟩
    rw [h, F64.zero_le_iff]
    exact not_le.mpr hneg
  · intro jobid user account state rows hrows j hj
    rw [(nodeStringJobs_fields scontrol jobid user account state _ rows j hrows hj).2.2.2.2.1]
    exact h
  · intro input line node_str rows hok hline hlen hfrag htext
    obtain ⟨rs, hrs, hsub, hfields⟩ :=
      ParseJobsMetrics_fragment_rows scontrol input line node_str rows hok hline hlen hfrag
    refine ⟨rs, hrs, hsub, fun j hj => ?_⟩
    rw [(hfields j hj).2.2.2.2.1, htext]
    exact h

/-- C6, witness: the range 5-2 decodes to a count that is not at least 0. -/
theorem C6_cpu_range_reversed_witness :
    ¬ (0 ≤ f_cpus " Nodes=node01 CPU_IDs=5-2 Mem=8000 GRES=gpu:1 ".toList) :=
  ((C6_cpu_range_reversed (fun _ => some []) " Nodes=node01 ".toList "5".toList "2".toList
    " Mem=8000 GRES=gpu:1 ".toList (by decide) (by decide) (by decide) (by decide) (by decide)
    (by decide) (by decide) (by decide)).2.2.2.1 (by decide)).2

/-- C6, counterexample. A line with `CPU_IDs=5-2` yields a row with cpus -2, not the default 0. -/
theorem C6_counterexample :
    ParseJobsMetrics (fun _ => some [])
        "JobId=1 UserId=u(1) Account=a JobState=RUNNING Nodes=n1 CPU_IDs=5-2 Mem=8000 GRES=gpu:1 ".toList
      = Except.ok [⟨"1".toList, "u".toList, "a".toList, "RUNNING".toList, "n1".toList, -2, 1, 8000⟩] ∧
    (-2 : F64) = F64.fin (-2) ∧ (-2 : F64) ≠ 0 ∧ ¬ ((0 : F64) ≤ -2) := by
  refine ⟨by decide!, by decide!, by decide!, by decide!⟩

/-- C7 (as amended). For the example detail line of the spec, with `Mem=8000` after `GRES=gpu:1`,
and a collaborator that succeeds on `node[01-02]` and whose non-empty output lines are node01
and node02, `ParseJobsMetrics` returns exactly two rows, for node01 and node02 in that order,
each with job id 55, user bob, account acct2, state RUNNING, cpus 4, gpus 1 and mem 0: the
fragment ends at the space after `GRES=gpu:1`, so `Mem=8000` is outside it. -/
theorem C7_detail_example (scontrol : Str → Option Str) (out : Str)
    (hout : scontrol "node[01-02]".toList = some out)
    (h : (Split out '\n').filter (fun host => !host.isEmpty)
      = ["node01".toList, "node02".toList]) :
    ParseJobsMetrics scontrol
        "JobId=55 UserId=bob(1000) Account=acct2 JobState=RUNNING Nodes=node[01-02] CPU_IDs=0-3 GRES=gpu:1 Mem=8000".toList
      = Except.ok
        [⟨"55".toList, "bob".toList, "acct2".toList, "RUNNING".toList, "node01".toList, 4, 1, 0⟩,
         ⟨"55".toList, "bob".toList, "acct2".toList, "RUNNING".toList, "node02".toList, 4, 1, 0⟩] := by
  have hsplit : Split "JobId=55 UserId=bob(1000) Account=acct2 JobState=RUNNING Nodes=node[01-02] CPU_IDs=0-3 GRES=gpu:1 Mem=8000".toList '\n'
      = ["JobId=55 UserId=bob(1000) Account=acct2 JobState=RUNNING Nodes=node[01-02] CPU_IDs=0-3 GRES=gpu:1 Mem=8000".toList] := by
    decide
  have hall : FindAllStringSubmatch re_node_string "JobId=55 UserId=bob(1000) Account=acct2 JobState=RUNNING Nodes=node[01-02] CPU_IDs=0-3 GRES=gpu:1 Mem=8000".toList
      = [[[] ++ ' ' :: ("Nodes=".toList ++ "node[01-02]".toList ++ " CPU_IDs=0-3 GRES=gpu:1 ".toList)]] := by
    decide
  have ht1 : tagValue re_jobid "JobId=55 UserId=bob(1000) Account=acct2 JobState=RUNNING Nodes=node[01-02] CPU_IDs=0-3 GRES=gpu:1 Mem=8000".toList
      = "55".toList := by decide
  have ht2 : tagValue re_user "JobId=55 UserId=bob(1000) Account=acct2 JobState=RUNNING Nodes=node[01-02] CPU_IDs=0-3 GRES=gpu:1 Mem=8000".toList
      = "bob".toList := by decide
  have ht3 : tagValue re_account "JobId=55 UserId=bob(1000) Account=acct2 JobState=RUNNING Nodes=node[01-02] CPU_IDs=0-3 GRES=gpu:1 Mem=8000".toList
      = "acct2".toList := by decide
  have ht4 : tagValue re_state "JobId=55 UserId=bob(1000) Account=acct2 JobState=RUNNING Nodes=node[01-02] CPU_IDs=0-3 GRES=gpu:1 Mem=8000".toList
      = "RUNNING".toList := by decide
  have hexp := nodeStringJobs_bracket scontrol "55".toList "bob".toList "acct2".toList "RUNNING".toList
    [] "node[01-02]".toList " CPU_IDs=0-3 GRES=gpu:1 ".toList out ' '
    (by decide) (by decide) (by decide) (by decide) (by decide) (by decide) hout
  have c1 : f_cpus ([] ++ ' ' :: ("Nodes=".toList ++ "node[01-02]".toList ++ " CPU_IDs=0-3 GRES=gpu:1 ".toList)) = 4 := by
    decide!
  have c2 : f_gpus ([] ++ ' ' :: ("Nodes=".toList ++ "node[01-02]".toList ++ " CPU_IDs=0-3 GRES=gpu:1 ".toList)) = 1 := by
    decide!
  have c3 : f_mems ([] ++ ' ' :: ("Nodes=".toList ++ "node[01-02]".toList ++ " CPU_IDs=0-3 GRES=gpu:1 ".toList)) = 0 := by
    decide!
  rw [h, c1, c2, c3] at hexp
  unfold ParseJobsMetrics
  rw [hsplit]
  unfold parseLines
  rw [lineJobs_ok scontrol _ (by decide) (by decide) (by decide) (by decide) (by decide), hall,
    ht1, ht2, ht3, ht4]
  unfold nodeStringsJobs
  rw [hexp]
  rfl

/-- C7, witness: the collaborator prints node01 and node02 on two lines. -/
theorem C7_detail_example_witness :
    ParseJobsMetrics (fun _ => some "node01\nnode02\n".toList)
        "JobId=55 UserId=bob(1000) Account=acct2 JobState=RUNNING Nodes=node[01-02] CPU_IDs=0-3 GRES=gpu:1 Mem=8000".toList
      = Except.ok
        [⟨"55".toList, "bob".toList, "acct2".toList, "RUNNING".toList, "node01".toList, 4, 1, 0⟩,
         ⟨"55".toList, "bob".toList, "acct2".toList, "RUNNING".toList, "node02".toList, 4, 1, 0⟩] :=
  C7_detail_example (fun _ => some "node01\nnode02\n".toList) "node01\nnode02\n".toList rfl
    (by decide)

/-- C7, counterexample. On the example line the rows do not carry mem 8000. -/
theorem C7_counterexample :
    ParseJobsMetrics (fun _ => some "node01\nnode02\n".toList)
        "JobId=55 UserId=bob(1000) Account=acct2 JobState=RUNNING Nodes=node[01-02] CPU_IDs=0-3 GRES=gpu:1 Mem=8000".toList
      ≠ Except.ok
        [⟨"55".toList, "bob".toList, "acct2".toList, "RUNNING".toList, "node01".toList, 4, 1, 8000⟩,
         ⟨"55".toList, "bob".toList, "acct2".toList, "RUNNING".toList, "node02".toList, 4, 1, 8000⟩] := by
  decide!

/-- C8, the code at the failing inputs. Of two fragments separated by a single space only the
first yields a row: the match of `re_node_string` consumes the space that the next match
needs in front of `Nodes`. A fragment that ends the line yields no row either, for the
pattern wants a space character after it. -/
theorem C8_adjacent_fragment_dropped :
    ParseJobsMetrics (fun _ => some [])
        "JobId=55 UserId=bob(1000) Account=acct2 JobState=RUNNING Nodes=n1 CPU_IDs=0-3 Mem=8000 GRES=gpu:1 Nodes=n2 CPU_IDs=0-1 Mem=4000 GRES=gpu:2 MinCPUsNode=1".toList
      = Except.ok [⟨"55".toList, "bob".toList, "acct2".toList, "RUNNING".toList, "n1".toList, 4, 1, 8000⟩] ∧
    ParseJobsMetrics (fun _ => some [])
        "JobId=55 UserId=bob(1000) Account=acct2 JobState=RUNNING Nodes=n1 CPU_IDs=0-3 Mem=8000 GRES=gpu:1".toList
      = Except.ok [] := by
  constructor <;> decide!

/-- C9, the code at the failing input. A fragment whose `Nodes=` value is `node[01-02]` gets one
row per non-empty line of the collaborator's output when it is the first fragment of the line
(node01 and node02, the empty line in between giving none), and no row at all when it
follows another fragment after a single space: the match of `re_node_string` for the first
fragment consumes the space that the second needs in front of `Nodes`, so the collaborator is
not even called (the result is the same with a collaborator that fails). -/
theorem C9_bracket_fragment_dropped :
    ParseJobsMetrics (fun _ => some "node01\n\nnode02\n".toList)
        "JobId=55 UserId=bob(1000) Account=acct2 JobState=RUNNING Nodes=node[01-02] CPU_IDs=0-1 Mem=4000 GRES=gpu:2 MinCPUsNode=1".toList
      = Except.ok
        [⟨"55".toList, "bob".toList, "acct2".toList, "RUNNING".toList, "node01".toList, 2, 2, 4000⟩,
         ⟨"55".toList, "bob".toList, "acct2".toList, "RUNNING".toList, "node02".toList, 2, 2, 4000⟩] ∧
    ParseJobsMetrics (fun _ => some "node01\n\nnode02\n".toList)
        "JobId=55 UserId=bob(1000) Account=acct2 JobState=RUNNING Nodes=n1 CPU_IDs=0-3 Mem=8000 GRES=gpu:1 Nodes=node[01-02] CPU_IDs=0-1 Mem=4000 GRES=gpu:2 MinCPUsNode=1".toList
      = Except.ok [⟨"55".toList, "bob".toList, "acct2".toList, "RUNNING".toList, "n1".toList, 4, 1, 8000⟩] ∧
    ParseJobsMetrics (fun _ => none)
        "JobId=55 UserId=bob(1000) Account=acct2 JobState=RUNNING Nodes=n1 CPU_IDs=0-3 Mem=8000 GRES=gpu:1 Nodes=node[01-02] CPU_IDs=0-1 Mem=4000 GRES=gpu:2 MinCPUsNode=1".toList
      = Except.ok [⟨"55".toList, "bob".toList, "acct2".toList, "RUNNING".toList, "n1".toList, 4, 1, 8000⟩] := by
  refine ⟨by decide!, by decide!, by decide!⟩

/-- C10, the code at the failing input. Of three fragments with plain hostnames n1, n2 and n3,
each separated from the next by a single space, only n1 and n3 get their row, with the
`Nodes=` value as hostname; n2 gets none, since the match of `re_node_string` for n1 consumes
the space in front of `Nodes=n2`. The rows are the same whatever the collaborator does. -/
theorem C10_plain_fragment_dropped :
    ParseJobsMetrics (fun _ => some "other\n".toList)
        "JobId=55 UserId=bob(1000) Account=acct2 JobState=RUNNING Nodes=n1 CPU_IDs=0-3 Mem=8000 GRES=gpu:1 Nodes=n2 CPU_IDs=0-1 Mem=4000 GRES=gpu:2 Nodes=n3 CPU_IDs=0-7 Mem=2000 GRES=gpu:0 MinCPUsNode=1".toList
      = Except.ok
        [⟨"55".toList, "bob".toList, "acct2".toList, "RUNNING".toList, "n1".toList, 4, 1, 8000⟩,
         ⟨"55".toList, "bob".toList, "acct2".toList, "RUNNING".toList, "n3".toList, 8, 0, 2000⟩] ∧
    ParseJobsMetrics (fun _ => none)
        "JobId=55 UserId=bob(1000) Account=acct2 JobState=RUNNING Nodes=n1 CPU_IDs=0-3 Mem=8000 GRES=gpu:1 Nodes=n2 CPU_IDs=0-1 Mem=4000 GRES=gpu:2 Nodes=n3 CPU_IDs=0-7 Mem=2000 GRES=gpu:0 MinCPUsNode=1".toList
      = Except.ok
        [⟨"55".toList, "bob".toList, "acct2".toList, "RUNNING".toList, "n1".toList, 4, 1, 8000⟩,
         ⟨"55".toList, "bob".toList, "acct2".toList, "RUNNING".toList, "n3".toList, 8, 0, 2000⟩] := by
  refine ⟨by decide!, by decide!⟩

/-- C11. For every detail line that has the four required tags and no match of the fragment
pattern `re_node_string`, the line appends no row and does not fail, and the result for a
dump is the result for the dump with that line taken out, wherever the line stands; a dump
that is this line alone gives the empty list, as the empty dump does. -/
theorem C11_no_fragment_no_rows (scontrol : Str → Option Str) (input input2 line : Str)
    (l1 l2 : List Str)
    (h1 : FindStringSubmatch re_jobid line ≠ []) (h2 : FindStringSubmatch re_user line ≠ [])
    (h3 : FindStringSubmatch re_account line ≠ []) (h4 : FindStringSubmatch re_state line ≠ [])
    (hfrag : FindAllStringSubmatch re_node_string line = [])
    (hin : Split input '\n' = l1 ++ line :: l2) (hin2 : Split input2 '\n' = l1 ++ l2) :
    lineJobs scontrol line = Except.ok [] ∧
      ParseJobsMetrics scontrol input = ParseJobsMetrics scontrol input2 ∧
      ParseJobsMetrics scontrol line = Except.ok [] ∧
      ParseJobsMetrics scontrol [] = Except.ok [] := by
  have hline : lineJobs scontrol line = Except.ok [] := by
    by_cases hlen : len line > 10
    · rw [lineJobs_ok scontrol line hlen h1 h2 h3 h4, hfrag]
      rfl
    · exact lineJobs_short scontrol line hlen
  refine ⟨hline, ?_, ?_, rfl⟩
  · unfold ParseJobsMetrics
    rw [hin, hin2]
    exact parseLines_remove scontrol l1 l2 line [] hline
  · have hmem : line ∈ Split input '\n' := by rw [hin]; simp
    have hsingle : Split line '\n' = [line] :=
      splitWhere_single _ line (fun c hc => splitWhere_piece _ input line c hmem hc)
    unfold ParseJobsMetrics
    rw [hsingle, parseLines, hline]
    rfl

/-- C11, witness: a pending job without allocation between two running jobs. -/
theorem C11_no_fragment_no_rows_witness :
    ParseJobsMetrics (fun _ => some [])
        "JobId=55 UserId=bob(1000) Account=acct2 JobState=RUNNING Nodes=n1 CPU_IDs=0-3 Mem=8000 GRES=gpu:1 \nJobId=56 UserId=amy(1001) Account=acct3 JobState=PENDING Nodes=(null)\nJobId=57 UserId=bob(1000) Account=acct2 JobState=RUNNING Nodes=n2 CPU_IDs=0-1 Mem=4000 GRES=gpu:2 ".toList
      = ParseJobsMetrics (fun _ => some [])
        "JobId=55 UserId=bob(1000) Account=acct2 JobState=RUNNING Nodes=n1 CPU_IDs=0-3 Mem=8000 GRES=gpu:1 \nJobId=57 UserId=bob(1000) Account=acct2 JobState=RUNNING Nodes=n2 CPU_IDs=0-1 Mem=4000 GRES=gpu:2 ".toList :=
  (C11_no_fragment_no_rows (fun _ => some []) _ _
    "JobId=56 UserId=amy(1001) Account=acct3 JobState=PENDING Nodes=(null)".toList
    ["JobId=55 UserId=bob(1000) Account=acct2 JobState=RUNNING Nodes=n1 CPU_IDs=0-3 Mem=8000 GRES=gpu:1 ".toList]
    ["JobId=57 UserId=bob(1000) Account=acct2 JobState=RUNNING Nodes=n2 CPU_IDs=0-1 Mem=4000 GRES=gpu:2 ".toList]
    (by decide) (by decide) (by decide) (by decide) (by decide) (by decide) (by decide)).2.1

/-- C12. The map returned by `ParseAccountsMetrics` has an entry for `e` exactly when some line
of the dump has at least 4 fields and `e` as its second field, so lines with fewer fields
create no entry; an entity all of whose lines are in none of the three states has an entry
with six zeros. The example dump has the entry of `acct9` with six zeros and no entry for the
second field of its two-field line. -/
theorem C12_key_set (ulower : Char → Char) (input e : Str) :
    ((ParseAccountsMetrics ulower input e).isSome = true ↔
      ∃ line ∈ Split input '\n', (Fields line).length > 3 ∧ (Fields line).getD 1 [] = e) ∧
    ((∃ line ∈ Split input '\n', (Fields line).length > 3 ∧ (Fields line).getD 1 [] = e) →
      (∀ line ∈ Split input '\n', (Fields line).length > 3 → (Fields line).getD 1 [] = e →
        stateStartsWith ulower "pending" line = false ∧
        stateStartsWith ulower "running" line = false ∧
        stateStartsWith ulower "suspended" line = false) →
      ParseAccountsMetrics ulower input e = some ⟨0, 0, 0, 0, 0, 0⟩) ∧
    ParseAccountsMetrics ulower "9 acct9 COMPLETED cpu=8,mem=4G n1\n\n7 x".toList "acct9".toList
      = some ⟨0, 0, 0, 0, 0, 0⟩ ∧
    ParseAccountsMetrics ulower "9 acct9 COMPLETED cpu=8,mem=4G n1\n\n7 x".toList "x".toList = none := by
  refine ⟨?_, ?_, ?_, ?_⟩
  · rw [ParseAccountsMetrics_eq]
    by_cases h : entityLines input e = []
    · simp only [h, if_true, Option.isSome_none, Bool.false_eq_true, false_iff]
      exact (entityLines_eq_nil_iff input e).mp h
    · simp only [h, if_false, Option.isSome_some, true_iff]
      by_contra hc
      exact h ((entityLines_eq_nil_iff input e).mpr hc)
  · intro hex hother
    rw [ParseAccountsMetrics_eq]
    have hne : ¬ entityLines input e = [] := fun h => (entityLines_eq_nil_iff input e).mp h hex
    rw [if_neg hne]
    have hfil : ∀ w : String, w = "pending" ∨ w = "running" ∨ w = "suspended" →
        (entityLines input e).filter (stateStartsWith ulower w) = [] := by
      intro w hw
      rw [List.filter_eq_nil_iff]
      intro line hl
      unfold entityLines at hl
      rw [List.mem_filter] at hl
      simp only [Bool.and_eq_true, decide_eq_true_eq] at hl
      obtain ⟨o1, o2, o3⟩ := hother line hl.1 hl.2.1 hl.2.2
      rcases hw with h | h | h <;> subst h <;> simp [o1, o2, o3]
    unfold entityTotals countOf runningSum runningValues
    rw [hfil "pending" (Or.inl rfl), hfil "running" (Or.inr (Or.inl rfl)),
      hfil "suspended" (Or.inr (Or.inr rfl))]
    rfl
  · rw [ParseAccountsMetrics_ascii ulower (fun c => c) _ (by decide)]
    decide!
  · rw [ParseAccountsMetrics_ascii ulower (fun c => c) _ (by decide)]
    decide!

/-- C13. For every input and every entity in the results of `ParseAccountsMetrics` and
`ParseUsersMetrics`, the six totals are at least 0 (in the float64 comparison: a finite value
from 0 on, or +Inf). -/
theorem C13_totals_nonneg (ulower : Char → Char) (input e : Str) (a : JobMetrics)
    (u : UserJobMetrics) (ha : ParseAccountsMetrics ulower input e = some a)
    (hu : ParseUsersMetrics ulower input e = some u) :
    (0 ≤ a.pending ∧ 0 ≤ a.running ∧ 0 ≤ a.suspended ∧ 0 ≤ a.running_cpus ∧ 0 ≤ a.running_gpus ∧
      0 ≤ a.running_mem) ∧
    (0 ≤ u.pending ∧ 0 ≤ u.running ∧ 0 ≤ u.suspended ∧ 0 ≤ u.running_cpus ∧ 0 ≤ u.running_gpus ∧
      0 ≤ u.running_mem) := by
  have hacc : 0 ≤ a.pending ∧ 0 ≤ a.running ∧ 0 ≤ a.suspended ∧ 0 ≤ a.running_cpus ∧
      0 ≤ a.running_gpus ∧ 0 ≤ a.running_mem := by
    rw [ParseAccountsMetrics_eq] at ha
    split_ifs at ha
    simp only [Option.some.injEq] at ha
    subst ha
    exact entityTotals_nonneg ulower input e
  refine ⟨hacc, ?_⟩
  rw [ParseUsersMetrics_eq, ha] at hu
  simp only [Option.map_some', Option.some.injEq] at hu
  subst hu
  exact hacc

/-- C13, witness: the running memory of `acct1` in the first example line of the spec. -/
theorem C13_totals_nonneg_witness :
    ∃ a, ParseAccountsMetrics (fun c => c) "123 acct1 RUNNING cpu=4,mem=16000M,gpu=0 node01".toList
        "acct1".toList = some a ∧ 0 ≤ a.running_mem :=
  ⟨⟨0, 1, 4, 16, 0, 0⟩, by decide!,
    (C13_totals_nonneg (fun c => c) "123 acct1 RUNNING cpu=4,mem=16000M,gpu=0 node01".toList
      "acct1".toList ⟨0, 1, 4, 16, 0, 0⟩ ⟨0, 1, 4, 16, 0, 0⟩ (by decide!) (by decide!)).1.2.2.2.2.2⟩

/-- C14. For every running queue line with resource token `tres`, the line adds nothing to
running_cpus when `tres` has no match of `cpu=[0-9]+`, nothing to running_gpus when it has no
match of `gpu=[0-9]+` and nothing to running_mem when it has no match of `mem=[0-9]+[A-Z]`,
as for `mem=16` and `mem=1.5G`; a descriptor such as `gres/gpu=2` is decoded as 2, and in
general as the float64 read from the digits, whatever label precedes `gpu=`; and `ParseAccountsMetrics` with every index expression and pointer
dereference checked returns normally on every input, with the map of the unchecked model. -/
theorem C14_queue_decoding_defaults (ulower : Char → Char) (m : Str → Option JobMetrics)
    (line f0 e s tres : Str) (more : List Str)
    (hf : Fields line = f0 :: e :: s :: tres :: more)
    (hrun : MatchString running (ToLower ulower s) = true) :
    (∃ n, accountsLine ulower m line e = some n ∧
      (re_cpu.exec tres = none →
        n.running_cpus = ((m e).getD ⟨0, 0, 0, 0, 0, 0⟩).running_cpus) ∧
      (re_gpu.exec tres = none →
        n.running_gpus = ((m e).getD ⟨0, 0, 0, 0, 0, 0⟩).running_gpus) ∧
      (re_mem.exec tres = none →
        n.running_mem = ((m e).getD ⟨0, 0, 0, 0, 0, 0⟩).running_mem)) ∧
    ParseAccountsMetrics ulower "1 a RUNNING cpu=2,mem=16 n1".toList "a".toList
      = some { pending := 0, running := 1, running_cpus := 2, running_mem := 0, running_gpus := 0,
               suspended := 0 } ∧
    ParseAccountsMetrics ulower "1 a RUNNING cpu=2,mem=1.5G n1".toList "a".toList
      = some { pending := 0, running := 1, running_cpus := 2, running_mem := 0, running_gpus := 0,
               suspended := 0 } ∧
    ParseAccountsMetrics ulower "1 a RUNNING gres/gpu=2 n1".toList "a".toList
      = some { pending := 0, running := 1, running_cpus := 0, running_mem := 0, running_gpus := 2,
               suspended := 0 } ∧
    (∀ lbl ds post : Str, ds ≠ [] → (∀ c ∈ ds, c.isDigit = true) →
      (∀ c ∈ post.head?, c.isDigit = false) →
      NoMatchBefore re_gpu lbl ("gpu=".toList ++ ds ++ post) →
      tresGpus (lbl ++ ("gpu=".toList ++ ds ++ post)) = F64.round (decimal ds : ℚ)) ∧
    (∀ input : Str,
      ParseAccountsMetricsChecked ulower input = Except.ok (ParseAccountsMetrics ulower input)) := by
  refine ⟨⟨_, accountsLine_running ulower m line f0 e s tres more hf hrun, ?_, ?_, ?_⟩, ?_, ?_, ?_,
    ?_, ?_⟩
  · intro h; simp only [tresCpus_absent tres h, F64.add_zero]
  · intro h; simp only [tresGpus_absent tres h, F64.add_zero]
  · intro h; simp only [tresMem_absent tres h, F64.add_zero]
  · rw [ParseAccountsMetrics_ascii ulower (fun c => c) _ (by decide)]
    decide!
  · rw [ParseAccountsMetrics_ascii ulower (fun c => c) _ (by decide)]
    decide!
  · rw [ParseAccountsMetrics_ascii ulower (fun c => c) _ (by decide)]
    decide!
  · intro lbl ds post hne hds hpost hfirst
    exact tresGpus_eq lbl ds post hne hds hpost hfirst
  · intro input
    exact accountsLinesChecked_eq ulower _ _

/-- C14, witness: a running line whose token is `gres/gpu=2` adds no CPU and no memory. -/
theorem C14_queue_decoding_defaults_witness :
    ∃ n, accountsLine (fun c => c) (fun _ => none) "1 a RUNNING gres/gpu=2 n1".toList "a".toList
        = some n ∧ n.running_cpus = 0 ∧ n.running_mem = 0 := by
  obtain ⟨⟨n, h1, h2, _, h4⟩, _⟩ := C14_queue_decoding_defaults (fun c => c) (fun _ => none)
    "1 a RUNNING gres/gpu=2 n1".toList "1".toList "a".toList "RUNNING".toList "gres/gpu=2".toList
    ["n1".toList] (by decide) (by decide)
  exact ⟨n, h1, h2 (by decide), h4 (by decide)⟩

/-- C15. For every detail fragment, `f_cpus`, `f_gpus` and `f_mems` are 0 when their pattern has
no match in the fragment, every row emitted for the fragment carries the three values, each
value is decoded from the first match of its own pattern whatever else the fragment holds,
and the row of a plain `Nodes=` value is emitted whatever the three patterns find; the rows
that `ParseJobsMetrics` returns for a match of `re_node_string` in a line of the dump carry the
three values of that match. The four example lines lack two or three of the patterns and still
yield one row each. -/
theorem C15_detail_defaults (scontrol : Str → Option Str) (jobid user account state frag : Str) :
    (re_cpus.exec frag = none → f_cpus frag = 0) ∧
    (re_gpus.exec frag = none → f_gpus frag = 0) ∧
    (re_mems.exec frag = none → f_mems frag = 0) ∧
    (∀ rows, nodeStringJobs scontrol jobid user account state [frag] = Except.ok rows →
      ∀ j ∈ rows, j.cpus = f_cpus frag ∧ j.gpus = f_gpus frag ∧ j.mems = f_mems frag) ∧
    (∀ pre ds de post : Str, ds ≠ [] → de ≠ [] → (∀ c ∈ ds, c.isDigit = true) →
      (∀ c ∈ de, c.isDigit = true) → (∀ c ∈ post.head?, c.isDigit = false) →
      NoMatchBefore re_cpus pre ("CPU_IDs=".toList ++ ds ++ '-' :: (de ++ post)) →
      f_cpus (pre ++ ("CPU_IDs=".toList ++ ds ++ '-' :: (de ++ post)))
        = F64.round (decimal de : ℚ) - F64.round (decimal ds : ℚ) + 1) ∧
    (∀ pre dg post : Str, dg ≠ [] → (∀ c ∈ dg, c.isDigit = true) →
      (∀ c ∈ post.head?, c.isDigit = false) →
      NoMatchBefore re_gpus pre ("GRES=gpu:".toList ++ dg ++ post) →
      f_gpus (pre ++ ("GRES=gpu:".toList ++ dg ++ post)) = F64.round (decimal dg : ℚ)) ∧
    (∀ (pre dm post : Str) (w : Char), reSpace w = true → dm ≠ [] → (∀ c ∈ dm, c.isDigit = true) →
      (∀ c ∈ post.head?, c.isDigit = false) →
      NoMatchBefore re_mems pre (w :: ("Mem=".toList ++ dm ++ post)) →
      f_mems (pre ++ w :: ("Mem=".toList ++ dm ++ post)) = F64.round (decimal dm : ℚ)) ∧
    (∀ (pre v post : Str) (w : Char), reSpace w = true → v ≠ [] → (∀ c ∈ v, reSpace c = false) →
      (∀ c ∈ post.head?, reSpace c = true) →
      NoMatchBefore re_node pre (w :: ("Nodes=".toList ++ v ++ post)) → ¬ '[' ∈ v →
      nodeStringJobs scontrol jobid user account state
          [pre ++ w :: ("Nodes=".toList ++ v ++ post)] =
        Except.ok [⟨jobid, user, account, state, v,
          f_cpus (pre ++ w :: ("Nodes=".toList ++ v ++ post)),
          f_gpus (pre ++ w :: ("Nodes=".toList ++ v ++ post)),
          f_mems (pre ++ w :: ("Nodes=".toList ++ v ++ post))⟩]) ∧
    (∀ (input line : Str) (node_str : List Str) (rows : List JobsMetrics),
      ParseJobsMetrics scontrol input = Except.ok rows → line ∈ Split input '\n' →
      len line > 10 → node_str ∈ FindAllStringSubmatch re_node_string line →
      ∃ rs, nodeStringJobs scontrol (tagValue re_jobid line) (tagValue re_user line)
          (tagValue re_account line) (tagValue re_state line) node_str = Except.ok rs ∧
        rs.Sublist rows ∧
        ∀ j ∈ rs, j.cpus = f_cpus (node_str.getD 0 []) ∧ j.gpus = f_gpus (node_str.getD 0 []) ∧
          j.mems = f_mems (node_str.getD 0 [])) ∧
    ParseJobsMetrics (fun _ => some [])
        "JobId=1 UserId=u(1) Account=a JobState=R Nodes=n1 GRES=gpu:2 \nJobId=2 UserId=u(1) Account=a JobState=R Nodes=n2 CPU_IDs=0-3 GRES \nJobId=3 UserId=u(1) Account=a JobState=R Nodes=n3 Mem=5 GRES \nJobId=4 UserId=u(1) Account=a JobState=R Nodes=n4 GRES ".toList
      = Except.ok
        [⟨"1".toList, "u".toList, "a".toList, "R".toList, "n1".toList, 0, 2, 0⟩,
         ⟨"2".toList, "u".toList, "a".toList, "R".toList, "n2".toList, 4, 0, 0⟩,
         ⟨"3".toList, "u".toList, "a".toList, "R".toList, "n3".toList, 0, 0, 5⟩,
         ⟨"4".toList, "u".toList, "a".toList, "R".toList, "n4".toList, 0, 0, 0⟩] := by
  refine ⟨f_cpus_absent frag, f_gpus_absent frag, f_mems_absent frag, ?_, ?_, ?_, ?_, ?_, ?_, ?_⟩
  · intro rows hrows j hj
    have h := nodeStringJobs_fields scontrol jobid user account state [frag] rows j hrows hj
    exact ⟨h.2.2.2.2.1, h.2.2.2.2.2.1, h.2.2.2.2.2.2⟩
  · intro pre ds de post hns hne hds hde hpost hfirst
    exact f_cpus_eq pre ds de post hns hne hds hde hpost hfirst
  · intro pre dg post hne hdg hpost hfirst
    exact f_gpus_eq pre dg post hne hdg hpost hfirst
  · intro pre dm post w hw hne hdm hpost hfirst
    exact f_mems_eq pre dm post w hw hne hdm hpost hfirst
  · intro pre v post w hw hv hvs hpost hfirst hb
    exact nodeStringJobs_plain scontrol jobid user account state pre v post w hw hv hvs hpost hfirst hb
  · intro input line node_str rows hok hline hlen hfrag
    obtain ⟨rs, hrs, hsub, hfields⟩ :=
      ParseJobsMetrics_fragment_rows scontrol input line node_str rows hok hline hlen hfrag
    exact ⟨rs, hrs, hsub, fun j hj =>
      ⟨(hfields j hj).2.2.2.2.1, (hfields j hj).2.2.2.2.2.1, (hfields j hj).2.2.2.2.2.2⟩⟩
  · decide!

/-- C15, witness: a fragment with a CPU-id range and nothing else has gpus 0 and mem 0, and its
row is emitted. -/
theorem C15_detail_defaults_witness :
    f_gpus " Nodes=n2 CPU_IDs=0-3 GRES ".toList = 0 ∧ f_mems " Nodes=n2 CPU_IDs=0-3 GRES ".toList = 0 ∧
    nodeStringJobs (fun _ => some []) "2".toList "u".toList "a".toList "R".toList
        [[] ++ ' ' :: ("Nodes=".toList ++ "n2".toList ++ " CPU_IDs=0-3 GRES ".toList)] =
      Except.ok [⟨"2".toList, "u".toList, "a".toList, "R".toList, "n2".toList,
        f_cpus ([] ++ ' ' :: ("Nodes=".toList ++ "n2".toList ++ " CPU_IDs=0-3 GRES ".toList)),
        f_gpus ([] ++ ' ' :: ("Nodes=".toList ++ "n2".toList ++ " CPU_IDs=0-3 GRES ".toList)),
        f_mems ([] ++ ' ' :: ("Nodes=".toList ++ "n2".toList ++ " CPU_IDs=0-3 GRES ".toList))⟩] :=
  ⟨(C15_detail_defaults (fun _ => some []) "2".toList "u".toList "a".toList "R".toList
      " Nodes=n2 CPU_IDs=0-3 GRES ".toList).2.1 (by decide),
   (C15_detail_defaults (fun _ => some []) "2".toList "u".toList "a".toList "R".toList
      " Nodes=n2 CPU_IDs=0-3 GRES ".toList).2.2.1 (by decide),
   (C15_detail_defaults (fun _ => some []) "2".toList "u".toList "a".toList "R".toList
      " Nodes=n2 CPU_IDs=0-3 GRES ".toList).2.2.2.2.2.2.2.1 [] "n2".toList
      " CPU_IDs=0-3 GRES ".toList ' ' (by decide) (by decide) (by decide) (by decide) (by decide)
      (by decide)⟩

/-- C16. For every input, `ParseUsersMetrics` and `ParseAccountsMetrics` return maps with the same
keys, and for every key the six totals are equal field by field. -/
theorem C16_users_eq_accounts (ulower : Char → Char) (input k : Str) :
    ParseUsersMetrics ulower input k = (ParseAccountsMetrics ulower input k).map JobMetrics.toUser ∧
    ((ParseUsersMetrics ulower input k).isSome = (ParseAccountsMetrics ulower input k).isSome) ∧
    (∀ a u, ParseAccountsMetrics ulower input k = some a → ParseUsersMetrics ulower input k = some u →
      u.pending = a.pending ∧ u.running = a.running ∧ u.running_cpus = a.running_cpus ∧
      u.running_mem = a.running_mem ∧ u.running_gpus = a.running_gpus ∧
      u.suspended = a.suspended) := by
  have h := ParseUsersMetrics_eq ulower input k
  refine ⟨h, ?_, ?_⟩
  · rw [h]; cases ParseAccountsMetrics ulower input k <;> rfl
  · intro a u ha hu
    rw [h, ha] at hu
    simp only [Option.map_some', Option.some.injEq] at hu
    subst hu
    exact ⟨rfl, rfl, rfl, rfl, rfl, rfl⟩

/-- C18 (as amended). For every input and every collaborator, `ParseJobsMetrics` returns normally
exactly when every line longer than 10 bytes has a match of each of `re_jobid`, `re_user`,
`re_account` and `re_state` and the collaborator succeeds on every node expression of such a
line that is handed to it; with a collaborator that never fails, exactly when every line longer
than 10 bytes has the four matches. When it does not return it ends with the panic of a missing
tag or with the exit of `log.Fatal`. A line of 10 bytes or fewer never fails; the line with
`UserId=john.doe(1000)` panics, the same line with `john_doe` does not. -/
theorem C18_fails_exactly_on_missing_tag (scontrol : Str → Option Str) (input : Str) :
    ((∃ rows, ParseJobsMetrics scontrol input = Except.ok rows) ↔
      ∀ line ∈ Split input '\n', len line > 10 →
        (FindStringSubmatch re_jobid line ≠ [] ∧ FindStringSubmatch re_user line ≠ [] ∧
          FindStringSubmatch re_account line ≠ [] ∧ FindStringSubmatch re_state line ≠ []) ∧
        ∀ v ∈ expansions line, scontrol v ≠ none) ∧
    ((∀ v, scontrol v ≠ none) →
      ((∃ rows, ParseJobsMetrics scontrol input = Except.ok rows) ↔
        ∀ line ∈ Split input '\n', len line > 10 →
          FindStringSubmatch re_jobid line ≠ [] ∧ FindStringSubmatch re_user line ≠ [] ∧
          FindStringSubmatch re_account line ≠ [] ∧ FindStringSubmatch re_state line ≠ [])) ∧
    (∀ e, ParseJobsMetrics scontrol input = Except.error e →
      e = Abort.panic (Panic.indexOutOfRange 1 0) ∨ e = Abort.fatal) ∧
    (∀ line : Str, ¬ len line > 10 → lineJobs scontrol line = Except.ok []) ∧
    ParseJobsMetrics scontrol "JobId=7 UserId=john.doe(1000) Account=a JobState=RUNNING".toList
      = Except.error (Abort.panic (Panic.indexOutOfRange 1 0)) ∧
    ParseJobsMetrics scontrol "JobId=7 UserId=john_doe(1000) Account=a JobState=RUNNING".toList
      = Except.ok [] := by
  have hiff : (∃ rows, ParseJobsMetrics scontrol input = Except.ok rows) ↔
      ∀ line ∈ Split input '\n', len line > 10 →
        (FindStringSubmatch re_jobid line ≠ [] ∧ FindStringSubmatch re_user line ≠ [] ∧
          FindStringSubmatch re_account line ≠ [] ∧ FindStringSubmatch re_state line ≠ []) ∧
        ∀ v ∈ expansions line, scontrol v ≠ none := by
    unfold ParseJobsMetrics
    rw [parseLines_ok_iff]
    constructor
    · intro h line hm
      exact (lineJobs_ok_iff scontrol line).mp (h line hm)
    · intro h line hm
      exact (lineJobs_ok_iff scontrol line).mpr (h line hm)
  refine ⟨hiff, ?_, ?_, fun line hlen => lineJobs_short scontrol line hlen, ?_, ?_⟩
  · intro hs
    rw [hiff]
    constructor
    · intro h line hm hlen
      exact (h line hm hlen).1
    · intro h line hm hlen
      exact ⟨h line hm hlen, fun v _ => hs v⟩
  · intro e he
    cases hr : ParseJobsMetrics scontrol input with
    | ok rows => rw [hr] at he; cases he
    | error e2 =>
      rw [hr] at he
      cases he
      have hnot : ¬ ∀ line ∈ Split input '\n', ∃ rows, lineJobs scontrol line = Except.ok rows := by
        intro hall
        obtain ⟨rows, hrows⟩ := (parseLines_ok_iff scontrol (Split input '\n') []).mpr hall
        unfold ParseJobsMetrics at hr
        rw [hrows] at hr
        cases hr
      simp only [not_forall] at hnot
      obtain ⟨line, hm, hline⟩ := hnot
      cases hl : lineJobs scontrol line with
      | ok rows => exact absurd ⟨rows, hl⟩ hline
      | error e3 =>
        have := parseLines_error scontrol _ [] line e3 hm hl
        unfold ParseJobsMetrics at hr
        rw [hr] at this
        rcases this with h | h
        · left; exact Except.error.inj h
        · right; exact Except.error.inj h
  · have hs : Split "JobId=7 UserId=john.doe(1000) Account=a JobState=RUNNING".toList '\n'
        = ["JobId=7 UserId=john.doe(1000) Account=a JobState=RUNNING".toList] := by decide
    unfold ParseJobsMetrics
    rw [hs, parseLines, lineJobs_error scontrol _ (by decide) (by decide)]
  · have hs : Split "JobId=7 UserId=john_doe(1000) Account=a JobState=RUNNING".toList '\n'
        = ["JobId=7 UserId=john_doe(1000) Account=a JobState=RUNNING".toList] := by decide
    unfold ParseJobsMetrics
    rw [hs, parseLines, lineJobs_ok scontrol _ (by decide) (by decide) (by decide) (by decide)
      (by decide)]
    have hall : FindAllStringSubmatch re_node_string
        "JobId=7 UserId=john_doe(1000) Account=a JobState=RUNNING".toList = [] := by decide
    rw [hall]
    rfl

/-- C18, witness: with a collaborator that never fails, a dump of two lines with the four tags
and one short line returns normally. -/
theorem C18_fails_exactly_on_missing_tag_witness :
    ∃ rows, ParseJobsMetrics (fun _ => some "node01\nnode02\n".toList)
      "JobId=55 UserId=bob(1000) Account=acct2 JobState=RUNNING Nodes=node[01-02] CPU_IDs=0-3 Mem=8000 GRES=gpu:1 \n\nJobId=56 UserId=amy(1001) Account=acct3 JobState=PENDING".toList
      = Except.ok rows :=
  ((C18_fails_exactly_on_missing_tag (fun _ => some "node01\nnode02\n".toList)
    "JobId=55 UserId=bob(1000) Account=acct2 JobState=RUNNING Nodes=node[01-02] CPU_IDs=0-3 Mem=8000 GRES=gpu:1 \n\nJobId=56 UserId=amy(1001) Account=acct3 JobState=PENDING".toList).2.1
    (fun _ h => by cases h)).mpr (by decide)

/-- C18, counterexample. Every line of this dump has the four required tags, yet
`ParseJobsMetrics` does not return when the collaborator fails on `node[01-02]`: `GetHostname`
calls `log.Fatal`. With a collaborator that succeeds the same dump gives two rows. -/
theorem C18_counterexample :
    (∀ line ∈ Split
        "JobId=55 UserId=bob(1000) Account=acct2 JobState=RUNNING Nodes=node[01-02] CPU_IDs=0-3 Mem=8000 GRES=gpu:1 ".toList
        '\n', len line > 10 →
      FindStringSubmatch re_jobid line ≠ [] ∧ FindStringSubmatch re_user line ≠ [] ∧
      FindStringSubmatch re_account line ≠ [] ∧ FindStringSubmatch re_state line ≠ []) ∧
    ParseJobsMetrics (fun _ => none)
        "JobId=55 UserId=bob(1000) Account=acct2 JobState=RUNNING Nodes=node[01-02] CPU_IDs=0-3 Mem=8000 GRES=gpu:1 ".toList
      = Except.error Abort.fatal ∧
    ParseJobsMetrics (fun _ => some "node01\nnode02\n".toList)
        "JobId=55 UserId=bob(1000) Account=acct2 JobState=RUNNING Nodes=node[01-02] CPU_IDs=0-3 Mem=8000 GRES=gpu:1 ".toList
      = Except.ok
        [⟨"55".toList, "bob".toList, "acct2".toList, "RUNNING".toList, "node01".toList, 4, 1, 8000⟩,
         ⟨"55".toList, "bob".toList, "acct2".toList, "RUNNING".toList, "node02".toList, 4, 1, 8000⟩] := by
  refine ⟨by decide, by decide!, by decide!⟩

/-- C19 (as amended). For all dumps `a` and `b`, the keys of `ParseAccountsMetrics` on `a`, a
newline and `b` are the keys for `a` together with the keys for `b`, and the result is the
loop over the lines of `b` continued from the result for `a`. The lines counted for an entity
add up, and so do its three counters as long as the entity has at most 2^53 lines. The values
summed for an entity are those of `a` followed by those of `b`; a running sum is the sum of
the two separate totals, and the same with `a` and `b` exchanged, whenever these values are
natural numbers that add up to at most 2^53. Nothing is claimed for other values: float64
addition rounds, and the total then depends on the order of the lines. -/
theorem C19_additive_over_concatenation (ulower : Char → Char) (a b e : Str) :
    ((ParseAccountsMetrics ulower (a ++ "\n".toList ++ b) e).isSome =
      ((ParseAccountsMetrics ulower a e).isSome || (ParseAccountsMetrics ulower b e).isSome)) ∧
    ParseAccountsMetrics ulower (a ++ "\n".toList ++ b) =
      (Split b '\n').foldl (accountsLine ulower) (ParseAccountsMetrics ulower a) ∧
    (∀ w : String, countOf ulower w (a ++ "\n".toList ++ b) e =
      countOf ulower w a e + countOf ulower w b e) ∧
    ((entityLines (a ++ "\n".toList ++ b) e).length ≤ 2 ^ 53 →
      ((ParseAccountsMetrics ulower (a ++ "\n".toList ++ b) e).getD ⟨0, 0, 0, 0, 0, 0⟩).pending =
        ((ParseAccountsMetrics ulower a e).getD ⟨0, 0, 0, 0, 0, 0⟩).pending +
        ((ParseAccountsMetrics ulower b e).getD ⟨0, 0, 0, 0, 0, 0⟩).pending ∧
      ((ParseAccountsMetrics ulower (a ++ "\n".toList ++ b) e).getD ⟨0, 0, 0, 0, 0, 0⟩).running =
        ((ParseAccountsMetrics ulower a e).getD ⟨0, 0, 0, 0, 0, 0⟩).running +
        ((ParseAccountsMetrics ulower b e).getD ⟨0, 0, 0, 0, 0, 0⟩).running ∧
      ((ParseAccountsMetrics ulower (a ++ "\n".toList ++ b) e).getD ⟨0, 0, 0, 0, 0, 0⟩).suspended =
        ((ParseAccountsMetrics ulower a e).getD ⟨0, 0, 0, 0, 0, 0⟩).suspended +
        ((ParseAccountsMetrics ulower b e).getD ⟨0, 0, 0, 0, 0, 0⟩).suspended ∧
      ((ParseAccountsMetrics ulower (a ++ "\n".toList ++ b) e).getD ⟨0, 0, 0, 0, 0, 0⟩).pending =
        ((ParseAccountsMetrics ulower (b ++ "\n".toList ++ a) e).getD ⟨0, 0, 0, 0, 0, 0⟩).pending ∧
      ((ParseAccountsMetrics ulower (a ++ "\n".toList ++ b) e).getD ⟨0, 0, 0, 0, 0, 0⟩).running =
        ((ParseAccountsMetrics ulower (b ++ "\n".toList ++ a) e).getD ⟨0, 0, 0, 0, 0, 0⟩).running ∧
      ((ParseAccountsMetrics ulower (a ++ "\n".toList ++ b) e).getD ⟨0, 0, 0, 0, 0, 0⟩).suspended =
        ((ParseAccountsMetrics ulower (b ++ "\n".toList ++ a) e).getD ⟨0, 0, 0, 0, 0, 0⟩).suspended) ∧
    (∀ value : Str → F64, runningValues ulower value (a ++ "\n".toList ++ b) e =
      runningValues ulower value a e ++ runningValues ulower value b e) ∧
    (∀ na nb : List ℕ, na.sum + nb.sum ≤ 2 ^ 53 →
      (runningValues ulower tresCpus a e = na.map (fun n : ℕ => F64.fin (n : ℚ)) →
        runningValues ulower tresCpus b e = nb.map (fun n : ℕ => F64.fin (n : ℚ)) →
        ((ParseAccountsMetrics ulower (a ++ "\n".toList ++ b) e).getD ⟨0, 0, 0, 0, 0, 0⟩).running_cpus =
          ((ParseAccountsMetrics ulower a e).getD ⟨0, 0, 0, 0, 0, 0⟩).running_cpus +
          ((ParseAccountsMetrics ulower b e).getD ⟨0, 0, 0, 0, 0, 0⟩).running_cpus ∧
        ((ParseAccountsMetrics ulower (a ++ "\n".toList ++ b) e).getD ⟨0, 0, 0, 0, 0, 0⟩).running_cpus =
          ((ParseAccountsMetrics ulower (b ++ "\n".toList ++ a) e).getD
            ⟨0, 0, 0, 0, 0, 0⟩).running_cpus) ∧
      (runningValues ulower tresGpus a e = na.map (fun n : ℕ => F64.fin (n : ℚ)) →
        runningValues ulower tresGpus b e = nb.map (fun n : ℕ => F64.fin (n : ℚ)) →
        ((ParseAccountsMetrics ulower (a ++ "\n".toList ++ b) e).getD ⟨0, 0, 0, 0, 0, 0⟩).running_gpus =
          ((ParseAccountsMetrics ulower a e).getD ⟨0, 0, 0, 0, 0, 0⟩).running_gpus +
          ((ParseAccountsMetrics ulower b e).getD ⟨0, 0, 0, 0, 0, 0⟩).running_gpus ∧
        ((ParseAccountsMetrics ulower (a ++ "\n".toList ++ b) e).getD ⟨0, 0, 0, 0, 0, 0⟩).running_gpus =
          ((ParseAccountsMetrics ulower (b ++ "\n".toList ++ a) e).getD
            ⟨0, 0, 0, 0, 0, 0⟩).running_gpus) ∧
      (runningValues ulower tresMem a e = na.map (fun n : ℕ => F64.fin (n : ℚ)) →
        runningValues ulower tresMem b e = nb.map (fun n : ℕ => F64.fin (n : ℚ)) →
        ((ParseAccountsMetrics ulower (a ++ "\n".toList ++ b) e).getD ⟨0, 0, 0, 0, 0, 0⟩).running_mem =
          ((ParseAccountsMetrics ulower a e).getD ⟨0, 0, 0, 0, 0, 0⟩).running_mem +
          ((ParseAccountsMetrics ulower b e).getD ⟨0, 0, 0, 0, 0, 0⟩).running_mem ∧
        ((ParseAccountsMetrics ulower (a ++ "\n".toList ++ b) e).getD ⟨0, 0, 0, 0, 0, 0⟩).running_mem =
          ((ParseAccountsMetrics ulower (b ++ "\n".toList ++ a) e).getD
            ⟨0, 0, 0, 0, 0, 0⟩).running_mem)) := by
  have hab : ∀ x y : Str, x ++ "\n".toList ++ y = x ++ '\n' :: y := by
    intro x y; simp [String.toList]
  rw [hab a b, hab b a]
  have hinc : ∀ n : ℕ, n ≤ 2 ^ 53 → F64.increments n 0 = F64.fin (n : ℚ) := by
    intro n hn
    have := F64.increments_fin n 0 (by omega)
    simpa [F64.zero_eq] using this
  have hsum : ∀ ns : List ℕ, ns.sum ≤ 2 ^ 53 →
      F64.sumFrom 0 (ns.map (fun n : ℕ => F64.fin (n : ℚ))) = F64.fin (ns.sum : ℕ) := by
    intro ns hn
    have := F64.sumFrom_nat ns 0 (by omega)
    simpa [F64.zero_eq] using this
  have hcount : ∀ (w : String) (x : Str), countOf ulower w x e ≤ (entityLines x e).length := by
    intro w x
    unfold countOf
    exact List.length_filter_le _ _
  have hcounter : ∀ w : String, (entityLines (a ++ '\n' :: b) e).length ≤ 2 ^ 53 →
      F64.increments (countOf ulower w (a ++ '\n' :: b) e) 0 =
        F64.increments (countOf ulower w a e) 0 + F64.increments (countOf ulower w b e) 0 ∧
      F64.increments (countOf ulower w (a ++ '\n' :: b) e) 0 =
        F64.increments (countOf ulower w (b ++ '\n' :: a) e) 0 := by
    intro w hb
    have h1 := hcount w (a ++ '\n' :: b)
    have h2 := countOf_append ulower w a b e
    have h3 := countOf_append ulower w b a e
    constructor
    · rw [hinc _ (by omega), hinc (countOf ulower w a e) (by omega),
        hinc (countOf ulower w b e) (by omega), F64.fin_add_fin_nat _ _ (by omega), h2]
    · rw [h2, h3, Nat.add_comm]
  have hvalues : ∀ (value : Str → F64) (na nb : List ℕ), na.sum + nb.sum ≤ 2 ^ 53 →
      runningValues ulower value a e = na.map (fun n : ℕ => F64.fin (n : ℚ)) →
      runningValues ulower value b e = nb.map (fun n : ℕ => F64.fin (n : ℚ)) →
      runningSum ulower value (a ++ '\n' :: b) e =
        runningSum ulower value a e + runningSum ulower value b e ∧
      runningSum ulower value (a ++ '\n' :: b) e = runningSum ulower value (b ++ '\n' :: a) e := by
    intro value na nb hb ha hbv
    have e1 : runningSum ulower value (a ++ '\n' :: b) e = F64.fin ((na.sum + nb.sum : ℕ) : ℚ) := by
      unfold runningSum
      rw [runningValues_append, ha, hbv, ← List.map_append,
        hsum _ (by rw [List.sum_append]; exact hb), List.sum_append]
    have e2 : runningSum ulower value (b ++ '\n' :: a) e = F64.fin ((na.sum + nb.sum : ℕ) : ℚ) := by
      unfold runningSum
      rw [runningValues_append, ha, hbv, ← List.map_append,
        hsum _ (by rw [List.sum_append]; omega), List.sum_append, Nat.add_comm]
    have e3 : runningSum ulower value a e = F64.fin (na.sum : ℕ) := by
      unfold runningSum
      rw [ha, hsum na (by omega)]
    have e4 : runningSum ulower value b e = F64.fin (nb.sum : ℕ) := by
      unfold runningSum
      rw [hbv, hsum nb (by omega)]
    rw [e1, e2, e3, e4, F64.fin_add_fin_nat _ _ hb]
    exact ⟨rfl, rfl⟩
  refine ⟨?_, ?_, fun w => countOf_append ulower w a b e, ?_,
    fun value => runningValues_append ulower value a b e, ?_⟩
  · rw [ParseAccountsMetrics_eq, ParseAccountsMetrics_eq, ParseAccountsMetrics_eq, entityLines_append]
    cases entityLines a e <;> cases entityLines b e <;> simp
  · unfold ParseAccountsMetrics
    rw [Split_append, List.foldl_append]
  · intro hb
    simp only [getD_ParseAccountsMetrics]
    exact ⟨(hcounter "pending" hb).1, (hcounter "running" hb).1, (hcounter "suspended" hb).1,
      (hcounter "pending" hb).2, (hcounter "running" hb).2, (hcounter "suspended" hb).2⟩
  · intro na nb hb
    simp only [getD_ParseAccountsMetrics]
    exact ⟨hvalues tresCpus na nb hb, hvalues tresGpus na nb hb, hvalues tresMem na nb hb⟩

/-- C19, witness: two dumps with running jobs of 4 and of 2 and 3 cpus for `acct1`; together
they give 9 cpus, in either order. -/
theorem C19_additive_over_concatenation_witness :
    ((ParseAccountsMetrics (fun c => c)
        ("1 acct1 RUNNING cpu=4 n1".toList ++ "\n".toList ++
          "2 acct1 RUNNING cpu=2 n1\n3 acct1 RUNNING cpu=3 n2".toList)
        "acct1".toList).getD ⟨0, 0, 0, 0, 0, 0⟩).running_cpus =
      ((ParseAccountsMetrics (fun c => c) "1 acct1 RUNNING cpu=4 n1".toList
        "acct1".toList).getD ⟨0, 0, 0, 0, 0, 0⟩).running_cpus +
      ((ParseAccountsMetrics (fun c => c) "2 acct1 RUNNING cpu=2 n1\n3 acct1 RUNNING cpu=3 n2".toList
        "acct1".toList).getD ⟨0, 0, 0, 0, 0, 0⟩).running_cpus ∧
    ((ParseAccountsMetrics (fun c => c)
        ("1 acct1 RUNNING cpu=4 n1".toList ++ "\n".toList ++
          "2 acct1 RUNNING cpu=2 n1\n3 acct1 RUNNING cpu=3 n2".toList)
        "acct1".toList).getD ⟨0, 0, 0, 0, 0, 0⟩).running_cpus =
      ((ParseAccountsMetrics (fun c => c)
        ("2 acct1 RUNNING cpu=2 n1\n3 acct1 RUNNING cpu=3 n2".toList ++ "\n".toList ++
          "1 acct1 RUNNING cpu=4 n1".toList)
        "acct1".toList).getD ⟨0, 0, 0, 0, 0, 0⟩).running_cpus :=
  ((C19_additive_over_concatenation (fun c => c) "1 acct1 RUNNING cpu=4 n1".toList
    "2 acct1 RUNNING cpu=2 n1\n3 acct1 RUNNING cpu=3 n2".toList "acct1".toList).2.2.2.2.2
    [4] [2, 3] (by decide)).1 (by decide!) (by decide!)

/-- C19, counterexample. With `a` one running line of 100M and `b` two running lines of 200M
and 300M, the running memory of the entity is 0.6000000000000001 for `a` before `b` and 0.6
for `b` before `a`; the separate totals are the float64 nearest to 0.1 and 0.5, whose exact sum
and whose float64 sum both differ from the total for `a` before `b`. -/
theorem C19_counterexample :
    ParseAccountsMetrics (fun c => c)
        ("1 a RUNNING mem=100M n".toList ++ "\n".toList ++
          "2 a RUNNING mem=200M n\n3 a RUNNING mem=300M n".toList) "a".toList
      = some { pending := 0, running := 3, running_cpus := 0,
               running_mem := F64.fin (1351079888211149 / 2251799813685248),
               running_gpus := 0, suspended := 0 } ∧
    ParseAccountsMetrics (fun c => c)
        ("2 a RUNNING mem=200M n\n3 a RUNNING mem=300M n".toList ++ "\n".toList ++
          "1 a RUNNING mem=100M n".toList) "a".toList
      = some { pending := 0, running := 3, running_cpus := 0,
               running_mem := F64.fin (5404319552844595 / 9007199254740992),
               running_gpus := 0, suspended := 0 } ∧
    ParseAccountsMetrics (fun c => c) "1 a RUNNING mem=100M n".toList "a".toList
      = some { pending := 0, running := 1, running_cpus := 0,
               running_mem := F64.fin (3602879701896397 / 36028797018963968),
               running_gpus := 0, suspended := 0 } ∧
    ParseAccountsMetrics (fun c => c) "2 a RUNNING mem=200M n\n3 a RUNNING mem=300M n".toList "a".toList
      = some { pending := 0, running := 2, running_cpus := 0, running_mem := F64.fin (1 / 2),
               running_gpus := 0, suspended := 0 } ∧
    (3602879701896397 / 36028797018963968 + 1 / 2 : ℚ) ≠ 1351079888211149 / 2251799813685248 ∧
    F64.fin (3602879701896397 / 36028797018963968) + F64.fin (1 / 2) ≠
      F64.fin (1351079888211149 / 2251799813685248) ∧
    (1351079888211149 / 2251799813685248 : ℚ) ≠ 5404319552844595 / 9007199254740992 := by
  refine ⟨by decide!, by decide!, by decide!, by decide!, by decide!, by decide!, by decide!⟩

end SlurmExporter
